import Mathlib

/-!
# The PDB cache of CrashDebugHelper

A shallow embedding of `FPDBCache` from
`Engine/Source/Developer/CrashDebugHelper/Private/CrashDebugHelper.cpp`
(`Init`, `InitializePDBCache`, `CleanPDBCache`, `ReadPDBCacheEntry`,
`CreateAndAddPDBCacheEntry`, `TouchPDBCacheEntry`, `RemovePDBCacheEntry`)
together with the part of the file system these functions read and write, and
of `ICrashDebugHelper::RetrieveBuildLabel`,
`ICrashDebugHelper::SyncRequiredFilesForDebuggingFromLabel` and
`ICrashDebugHelper::SyncModules` together with the calls they make to the
source control system and to the cache, and of
`ICrashDebugHelper::AddSourceToReport`.

Conventions of the embedding.

* `TMap<FString, FPDBCacheEntryRef>` is a list of key/value pairs in iteration
  order; `TSet<FString>` is a list of labels in insertion order.
* Times are whole seconds (`Int`); the age of a file is `Now - TimeStamp`.
* An `int32` of the source is an integer; every `int32` sum or difference
  that the source computes (`NumGBsCleaned += SizeGB`,
  `DiskFreeSpaceGB + CurrentPDBCacheSizeGB`,
  `MinDiskFreeSpaceGB - DiskFreeSpaceGB`), every assignment to an `int32` and
  every explicit `int32( ... )` cast is reduced by `toInt32`, so the
  accumulators wrap around as they do in the source.
* A failed `FindChecked` is fatal in the source; the functions that can hit it
  return `Option`, with `none` standing for the fatal error.
* The directory `PDBCachePath / Label` is identified by `Label`, and its
  marker file `PDBCachePath / Label / PDBTimeStamp.txt` by the `TimeStamp`
  field of that directory.
* Functions of the engine that the source file calls but does not define
  (`IFileManager`, `FTimespan`, `FMath`, the inline members of `FPDBCache`)
  are modelled from the specification and say so in their doc comments.
* `FPDBCache::Init` is split into the parts `Init_ReadUsage`,
  `Init_ReadLimits` and `Init_VerifyFreeSpace`, and `CleanPDBCache` into its
  three loops.
-/

namespace CrashDebugHelper

/-! ## Data model -/

/-- One entry of the PDB cache (`FPDBCacheEntry`). -/
structure FPDBCacheEntry where
  /-- Paths of the files found in the entry directory. -/
  Files : List String
  /-- Cleaned label, also the name of the entry directory. -/
  Label : String
  /-- Last access time, in seconds. -/
  LastAccessTime : Int
  /-- Size of the entry in whole gigabytes. -/
  SizeGB : Int
deriving DecidableEq, Repr

/-- One immediate subdirectory of `PDBCachePath` as found on disk. -/
structure FCacheDirectory where
  /-- Directory name below `PDBCachePath`. -/
  Name : String
  /-- Modification time of `PDBTimeStamp.txt`, `none` when the file is absent. -/
  TimeStamp : Option Int
  /-- Every file found recursively below the directory, with its size in bytes. -/
  Files : List (String × Nat)
deriving DecidableEq, Repr

/-- The part of the platform the cache talks to: the clock, the volume holding
`PDBCachePath` and the subdirectories of `PDBCachePath`. -/
structure FFileSystem where
  /-- Current time, in seconds. -/
  Now : Int
  /-- Size of the volume in bytes. -/
  TotalNumberOfBytes : Nat
  /-- Free bytes on the volume. -/
  NumberOfFreeBytes : Nat
  /-- Subdirectories of `PDBCachePath`. -/
  Directories : List FCacheDirectory
deriving DecidableEq, Repr

/-- The members of `FPDBCache`. -/
structure FPDBCache where
  /-- Map from cleaned label to entry, in iteration order. -/
  PDBCacheEntries : List (String × FPDBCacheEntry)
  /-- Root directory of the cache. -/
  PDBCachePath : String
  /-- Configured maximum size of the cache. -/
  PDBCacheSizeGB : Int
  /-- Configured minimum of free disk space. -/
  MinDiskFreeSpaceGB : Int
  /-- Configured age limit in days. -/
  DaysToDeleteUnusedFilesFromPDBCache : Int
  /-- Whether the cache is in use. -/
  bUsePDBCache : Bool
deriving DecidableEq, Repr

/-- The section `Engine.CrashDebugHelper` of the engine ini file, as far as
`FPDBCache::Init` reads it; `none` is a missing key. -/
structure FConfig where
  /-- Key `bUsePDBCache`. -/
  bUsePDBCache : Option Bool
  /-- Key `PDBCachePath`. -/
  PDBCachePath : Option String
  /-- Key `PDBCacheSizeGB`. -/
  PDBCacheSizeGB : Option Int
  /-- Key `MinDiskFreeSpaceGB`. -/
  MinDiskFreeSpaceGB : Option Int
  /-- Key `DaysToDeleteUnusedFilesFromPDBCache`. -/
  DaysToDeleteUnusedFilesFromPDBCache : Option Int
deriving DecidableEq, Repr

/-! ## Machine arithmetic -/

/-- The C++ conversion to `int32`: reduction modulo `2^32` into
`[-2^31, 2^31)`. -/
def toInt32 (z : Int) : Int :=
  let m := z % 4294967296
  if m < 2147483648 then m else m - 4294967296

/-- Modelled from the spec: the constant `NUM_BYTES_PER_GB` is declared outside
the source file; one gigabyte is `2^30` bytes, as in the `>> 30` of `Init`. -/
def NUM_BYTES_PER_GB : Int := 1073741824

/-- Modelled from the spec: `FMath::DivideAndRoundUp` is declared outside the
source file; the size is rounded up to whole gigabytes. -/
def DivideAndRoundUp (Dividend Divisor : Int) : Int :=
  (Dividend + Divisor - 1) / Divisor

/-- Modelled from the spec: `FTimespan( Days, 0, 0, 0 ).GetTotalSeconds()` is
declared outside the source file; a day has 86400 seconds. -/
def TimespanDaysTotalSeconds (Days : Int) : Int := Days * 86400

/-! ## File system -/

namespace FFileSystem

/-- Directory of the given name, if there is one. -/
def FindDirectory (fs : FFileSystem) (Name : String) : Option FCacheDirectory :=
  fs.Directories.find? (fun d => d.Name == Name)

/-- Modelled from the spec: `IFileManager::GetFileAgeSeconds` on the marker
file of directory `Name`: the time since its last modification, and `-1` when
the file does not exist. -/
def GetFileAgeSeconds (fs : FFileSystem) (Name : String) : Int :=
  match fs.FindDirectory Name with
  | some d =>
    match d.TimeStamp with
    | some t => fs.Now - t
    | none => -1
  | none => -1

/-- Modelled from the spec: `IFileManager::GetTimeStamp` on the marker file of
directory `Name`; `FDateTime::MinValue()` (tick 0) when the file does not
exist. -/
def GetTimeStamp (fs : FFileSystem) (Name : String) : Int :=
  match fs.FindDirectory Name with
  | some d => d.TimeStamp.getD 0
  | none => 0

/-- Modelled from the spec: `IFileManager::SetTimeStamp` on the marker file of
directory `Name`: an existing marker file gets the new modification time,
nothing happens otherwise. -/
def SetTimeStamp (fs : FFileSystem) (Name : String) (t : Int) : FFileSystem :=
  { fs with
    Directories := fs.Directories.map (fun d =>
      if d.Name == Name then { d with TimeStamp := d.TimeStamp.map (fun _ => t) } else d) }

/-- Total size in bytes of the files of a directory. -/
def DirectoryBytes (d : FCacheDirectory) : Nat :=
  (d.Files.map Prod.snd).sum

/-- Modelled from the spec: `IFileManager::DeleteDirectory( Dir, true, true )`
on directory `Name`: the directory and all its files are gone and their bytes
are free again. -/
def DeleteDirectory (fs : FFileSystem) (Name : String) : FFileSystem :=
  { fs with
    NumberOfFreeBytes := fs.NumberOfFreeBytes +
      ((fs.Directories.filter (fun d => d.Name == Name)).map DirectoryBytes).sum
    Directories := fs.Directories.filter (fun d => !(d.Name == Name)) }

/-- Modelled from the spec: `IFileManager::FindFiles( Result, PDBCachePath,
false, true )`: the names of the immediate subdirectories of the cache root. -/
def FindDirectories (fs : FFileSystem) : List String :=
  fs.Directories.map (fun d => d.Name)

/-- Modelled from the spec: `IFileManager::FindFilesRecursive` followed by
`IFileManager::FileSize` on each result: the files of directory `Name` with
their sizes. -/
def FindFilesRecursive (fs : FFileSystem) (Name : String) : List (String × Nat) :=
  match fs.FindDirectory Name with
  | some d => d.Files
  | none => []

end FFileSystem

/-! ## Containers -/

/-- `TMap::Find`. -/
def MapFind (m : List (String × FPDBCacheEntry)) (Key : String) : Option FPDBCacheEntry :=
  (m.find? (fun p => p.1 == Key)).map Prod.snd

/-- `TMap::Add`: the value of an existing key is replaced, a new key is
appended. -/
def MapAdd (m : List (String × FPDBCacheEntry)) (Key : String) (Value : FPDBCacheEntry) :
    List (String × FPDBCacheEntry) :=
  if m.any (fun p => p.1 == Key) then
    m.map (fun p => if p.1 == Key then (Key, Value) else p)
  else m ++ [(Key, Value)]

/-- `TMap::Remove`. -/
def MapRemove (m : List (String × FPDBCacheEntry)) (Key : String) :
    List (String × FPDBCacheEntry) :=
  m.filter (fun p => !(p.1 == Key))

/-- `TSet::Add`: an element already in the set is not added again. -/
def SetAdd (s : List String) (x : String) : List String :=
  if s.contains x then s else s ++ [x]

/-! ## Cache operations -/

/-- Key uniqueness of the map together with the fact that every entry is
stored under its own label; each `PDBCacheEntries.Add` of the source keeps
this. -/
def WellFormed (m : List (String × FPDBCacheEntry)) : Prop :=
  (m.map Prod.fst).Nodup ∧ ∀ p ∈ m, p.1 = p.2.Label

instance (m : List (String × FPDBCacheEntry)) : Decidable (WellFormed m) := by
  unfold WellFormed; infer_instance

/-- Modelled from the spec: `FPDBCache::SortPDBCache` is declared outside the
source file; it sorts the entries by `LastAccessTime` ascending, oldest
first. -/
def SortPDBCache (c : FPDBCache) : FPDBCache :=
  { c with
    PDBCacheEntries :=
      c.PDBCacheEntries.insertionSort (fun a b => a.2.LastAccessTime ≤ b.2.LastAccessTime) }

/-- Modelled from the spec: `FPDBCache::GetPDBCacheSizeGB` is declared outside
the source file; it is the current total size of the cache, the sum of the
`SizeGB` of its entries. -/
def GetPDBCacheSizeGB (c : FPDBCache) : Int :=
  (c.PDBCacheEntries.map (fun It => It.2.SizeGB)).sum

/-- `FPDBCache::ReadPDBCacheEntry`. -/
def ReadPDBCacheEntry (fs : FFileSystem) (InLabel : String) : FPDBCacheEntry :=
  let LastAccessTime := fs.GetTimeStamp InLabel
  let PDBFiles := fs.FindFilesRecursive InLabel
  let TotalSize : Int := (PDBFiles.map (fun Filename => (Filename.2 : Int))).sum
  let SizeGB := toInt32 (DivideAndRoundUp TotalSize NUM_BYTES_PER_GB)
  { Label := InLabel, SizeGB := SizeGB, LastAccessTime := LastAccessTime,
    Files := PDBFiles.map Prod.fst }

/-- `FPDBCache::InitializePDBCache`. -/
def InitializePDBCache (c : FPDBCache) (fs : FFileSystem) : FPDBCache :=
  let PDBCacheEntryDirectories := fs.FindDirectories
  SortPDBCache
    { c with
      PDBCacheEntries :=
        PDBCacheEntryDirectories.foldl
          (fun m DirPath => MapAdd m DirPath (ReadPDBCacheEntry fs DirPath)) c.PDBCacheEntries }

/-- `FPDBCache::RemovePDBCacheEntry`; `none` when `FindChecked` fails. -/
def RemovePDBCacheEntry (c : FPDBCache) (fs : FFileSystem) (InLabel : String) :
    Option (FPDBCache × FFileSystem) :=
  match MapFind c.PDBCacheEntries InLabel with
  | none => none
  | some _ =>
    some ({ c with PDBCacheEntries := MapRemove c.PDBCacheEntries InLabel },
      fs.DeleteDirectory InLabel)

/-- First loop of `FPDBCache::CleanPDBCache`: marks the outdated entries.
The state is `(EntriesToBeRemoved, NumGBsCleaned)`; `NumGBsCleaned` is an
`int32`. -/
def CleanPDBCache_MarkOutdated (fs : FFileSystem) (DaysToDeleteAsSeconds : Int) :
    List (String × FPDBCacheEntry) → List String × Int → List String × Int
  | [], st => st
  | It :: rest, (EntriesToBeRemoved, NumGBsCleaned) =>
    let Entry := It.2
    let EntryFileAge := fs.GetFileAgeSeconds Entry.Label
    if EntryFileAge > DaysToDeleteAsSeconds then
      CleanPDBCache_MarkOutdated fs DaysToDeleteAsSeconds rest
        (SetAdd EntriesToBeRemoved Entry.Label, toInt32 (NumGBsCleaned + Entry.SizeGB))
    else
      CleanPDBCache_MarkOutdated fs DaysToDeleteAsSeconds rest
        (EntriesToBeRemoved, NumGBsCleaned)

/-- Second loop of `FPDBCache::CleanPDBCache`: marks entries not yet marked,
in map order, and breaks once `NumGBsCleaned > NumberOfGBsToBeCleaned`; the
sum `NumGBsCleaned += Entry->SizeGB` is an `int32` sum. -/
def CleanPDBCache_SecondPass (NumberOfGBsToBeCleaned : Int) :
    List (String × FPDBCacheEntry) → List String × Int → List String × Int
  | [], st => st
  | It :: rest, (EntriesToBeRemoved, NumGBsCleaned) =>
    let Entry := It.2
    if !EntriesToBeRemoved.contains Entry.Label then
      if toInt32 (NumGBsCleaned + Entry.SizeGB) > NumberOfGBsToBeCleaned then
        (SetAdd EntriesToBeRemoved Entry.Label, toInt32 (NumGBsCleaned + Entry.SizeGB))
      else
        CleanPDBCache_SecondPass NumberOfGBsToBeCleaned rest
          (SetAdd EntriesToBeRemoved Entry.Label, toInt32 (NumGBsCleaned + Entry.SizeGB))
    else
      CleanPDBCache_SecondPass NumberOfGBsToBeCleaned rest (EntriesToBeRemoved, NumGBsCleaned)

/-- The marking part of `FPDBCache::CleanPDBCache`: the final
`(EntriesToBeRemoved, NumGBsCleaned)` after both loops. -/
def CleanPDBCache_Marked (c : FPDBCache) (fs : FFileSystem)
    (DaysToDelete NumberOfGBsToBeCleaned : Int) : List String × Int :=
  let DaysToDeleteAsSeconds := TimespanDaysTotalSeconds DaysToDelete
  let st := CleanPDBCache_MarkOutdated fs DaysToDeleteAsSeconds c.PDBCacheEntries ([], 0)
  if NumberOfGBsToBeCleaned > 0 ∧ st.2 < NumberOfGBsToBeCleaned then
    CleanPDBCache_SecondPass NumberOfGBsToBeCleaned c.PDBCacheEntries st
  else st

/-- Last loop of `FPDBCache::CleanPDBCache`: removes all marked entries. -/
def CleanPDBCache_RemoveMarked :
    List String → FPDBCache × FFileSystem → Option (FPDBCache × FFileSystem)
  | [], st => some st
  | EntryLabel :: rest, (c, fs) =>
    match RemovePDBCacheEntry c fs EntryLabel with
    | none => none
    | some st => CleanPDBCache_RemoveMarked rest st

/-- `FPDBCache::CleanPDBCache`. -/
def CleanPDBCache (c : FPDBCache) (fs : FFileSystem)
    (DaysToDelete NumberOfGBsToBeCleaned : Int) : Option (FPDBCache × FFileSystem) :=
  CleanPDBCache_RemoveMarked
    (CleanPDBCache_Marked c fs DaysToDelete NumberOfGBsToBeCleaned).1 (c, fs)

/-- Modelled from the spec: `FPDBCacheEntry::SetLastAccessTimeToNow` is declared
outside the source file; it sets `LastAccessTime` to now. -/
def SetLastAccessTimeToNow (Entry : FPDBCacheEntry) (fs : FFileSystem) : FPDBCacheEntry :=
  { Entry with LastAccessTime := fs.Now }

/-- `FPDBCache::TouchPDBCacheEntry`; `none` when `FindChecked` fails.
`CleanLabelName` is declared outside the source file and is a parameter. The
entry is shared with the map, so the map holds the touched entry. -/
def TouchPDBCacheEntry (CleanLabelName : String → String) (c : FPDBCache) (fs : FFileSystem)
    (InLabel : String) : Option (FPDBCache × FFileSystem) :=
  let CleanedLabelName := CleanLabelName InLabel
  match MapFind c.PDBCacheEntries CleanedLabelName with
  | none => none
  | some Entry =>
    let Touched := SetLastAccessTimeToNow Entry fs
    some (SortPDBCache
        { c with
          PDBCacheEntries :=
            c.PDBCacheEntries.map (fun p => if p.1 == CleanedLabelName then (p.1, Touched) else p) },
      fs.SetTimeStamp CleanedLabelName Touched.LastAccessTime)

/-- The configuration part of `FPDBCache::Init`: `bUsePDBCache` and
`PDBCachePath`. A missing key leaves the member as it was. -/
def Init_ReadUsage (self : FPDBCache) (cfg : FConfig) : FPDBCache :=
  let c := { self with bUsePDBCache := cfg.bUsePDBCache.getD self.bUsePDBCache }
  if c.bUsePDBCache then
    match cfg.PDBCachePath with
    | some Path => { c with PDBCachePath := Path }
    | none => { c with bUsePDBCache := false }
  else c

/-- The configuration part of `FPDBCache::Init`: the three integer options. -/
def Init_ReadLimits (c : FPDBCache) (cfg : FConfig) : FPDBCache :=
  { c with
    PDBCacheSizeGB := cfg.PDBCacheSizeGB.getD c.PDBCacheSizeGB
    MinDiskFreeSpaceGB := cfg.MinDiskFreeSpaceGB.getD c.MinDiskFreeSpaceGB
    DaysToDeleteUnusedFilesFromPDBCache :=
      cfg.DaysToDeleteUnusedFilesFromPDBCache.getD c.DaysToDeleteUnusedFilesFromPDBCache }

/-- The value `DiskFreeSpaceGB` that `FPDBCache::Init` computes from
`FPlatformMisc::GetDiskTotalAndFreeSpace`. -/
def DiskFreeSpaceGB (fs : FFileSystem) : Int :=
  toInt32 ((fs.NumberOfFreeBytes >>> 30 : Nat) : Int)

/-- The free space check of `FPDBCache::Init` ("Verify that we have enough
space to enable the PDB Cache"), run after the age-based cleanup. The cache
size, the free space after a full clean and the space target are `int32`
values. -/
def Init_VerifyFreeSpace (c : FPDBCache) (fs : FFileSystem) :
    Option (FPDBCache × FFileSystem) :=
  let DiskFreeSpaceGB := DiskFreeSpaceGB fs
  if DiskFreeSpaceGB < c.MinDiskFreeSpaceGB then
    let CurrentPDBCacheSizeGB := toInt32 (GetPDBCacheSizeGB c)
    let DiskFreeSpaceAfterCleanGB := toInt32 (DiskFreeSpaceGB + CurrentPDBCacheSizeGB)
    if DiskFreeSpaceAfterCleanGB < c.MinDiskFreeSpaceGB then
      CleanPDBCache { c with bUsePDBCache := false } fs 0 0
    else
      CleanPDBCache c fs c.DaysToDeleteUnusedFilesFromPDBCache
        (toInt32 (c.MinDiskFreeSpaceGB - DiskFreeSpaceGB))
  else some (c, fs)

/-- `FPDBCache::Init`. -/
def Init (self : FPDBCache) (cfg : FConfig) (fs : FFileSystem) :
    Option (FPDBCache × FFileSystem) :=
  let c := Init_ReadUsage self cfg
  if c.bUsePDBCache then
    let c := Init_ReadLimits c cfg
    let c := InitializePDBCache c fs
    match CleanPDBCache c fs c.DaysToDeleteUnusedFilesFromPDBCache 0 with
    | none => none
    | some (c, fs) => Init_VerifyFreeSpace c fs
  else some (c, fs)

/-! ## Observations used in the statements -/

/-- The keys of the entry map. -/
def Keys (c : FPDBCache) : List String :=
  c.PDBCacheEntries.map Prod.fst

/-- The entries of `before` whose key is no longer a key of `after`. -/
def RemovedEntries (before after : FPDBCache) : List (String × FPDBCacheEntry) :=
  before.PDBCacheEntries.filter (fun p => !decide (p.1 ∈ Keys after))

/-- Sum of `SizeGB` over a list of map entries. -/
def TotalSizeGB (m : List (String × FPDBCacheEntry)) : Int :=
  (m.map (fun p => p.2.SizeGB)).sum

/-- The entries whose marker file is older than `DaysToDelete` days. -/
def OutdatedEntries (c : FPDBCache) (fs : FFileSystem) (DaysToDelete : Int) :
    List (String × FPDBCacheEntry) :=
  c.PDBCacheEntries.filter
    (fun p => decide (DaysToDelete * 86400 < fs.GetFileAgeSeconds p.2.Label))

/-- The state of `FPDBCache::Init` right after its first, age-based call of
`CleanPDBCache`, for a configuration that enables the cache; this is the
state in which `Init` measures the free disk space. -/
def Init_AfterAgeCleanup (self : FPDBCache) (cfg : FConfig) (fs : FFileSystem) :
    Option (FPDBCache × FFileSystem) :=
  CleanPDBCache (InitializePDBCache (Init_ReadLimits (Init_ReadUsage self cfg) cfg) fs) fs
    (InitializePDBCache (Init_ReadLimits (Init_ReadUsage self cfg) cfg)
      fs).DaysToDeleteUnusedFilesFromPDBCache 0

/-- The configuration with another value for the key `PDBCacheSizeGB`. -/
def FConfig.WithCacheSize (cfg : FConfig) (Size : Option Int) : FConfig :=
  { cfg with PDBCacheSizeGB := Size }

/-- The cache with another value for the member `PDBCacheSizeGB`. -/
def FPDBCache.WithCacheSize (c : FPDBCache) (Size : Int) : FPDBCache :=
  { c with PDBCacheSizeGB := Size }

/-- What `Init` leaves behind apart from the member `PDBCacheSizeGB`: the entry
map, the enabled flag and the disk. -/
def InitOutcome (r : Option (FPDBCache × FFileSystem)) :
    Option (List (String × FPDBCacheEntry) × Bool × FFileSystem) :=
  r.map (fun x => (x.1.PDBCacheEntries, x.1.bUsePDBCache, x.2))

/-! ## Sample states -/

/-- A cache object before `Init`: no entries, nothing configured. -/
def FreshCache : FPDBCache :=
  { PDBCacheEntries := [], PDBCachePath := "", PDBCacheSizeGB := 0, MinDiskFreeSpaceGB := 0,
    DaysToDeleteUnusedFilesFromPDBCache := 0, bUsePDBCache := false }

/-- A cache with the default configuration of the source comment and the given
entries. -/
def SampleCache (m : List (String × FPDBCacheEntry)) : FPDBCache :=
  { PDBCacheEntries := m, PDBCachePath := "U:/CrashReport/PDBCache", PDBCacheSizeGB := 128,
    MinDiskFreeSpaceGB := 64, DaysToDeleteUnusedFilesFromPDBCache := 14, bUsePDBCache := true }

/-- A recently used entry of 5 GB. -/
def RecentEntryA : FPDBCacheEntry :=
  { Files := ["A/UE4.pdb"], Label := "A", LastAccessTime := 100, SizeGB := 5 }

/-- A recently used entry of 3 GB, used after `RecentEntryA`. -/
def RecentEntryB : FPDBCacheEntry :=
  { Files := ["B/UE4.pdb"], Label := "B", LastAccessTime := 200, SizeGB := 3 }

/-- Two recently used entries of 5 GB and 3 GB, the older one first. -/
def RecentCache : FPDBCache :=
  SampleCache [("A", RecentEntryA), ("B", RecentEntryB)]

/-- The disk below `RecentCache`: both marker files are less than a day old. -/
def RecentDisk : FFileSystem :=
  { Now := 1000, TotalNumberOfBytes := 1099511627776, NumberOfFreeBytes := 8589934592,
    Directories :=
      [{ Name := "A", TimeStamp := some 100, Files := [("A/UE4.pdb", 5368709120)] },
       { Name := "B", TimeStamp := some 200, Files := [("B/UE4.pdb", 3221225472)] }] }

/-- A directory of 5 GB whose marker is 20 days old at time 2592000. -/
def ScenarioDirectoryA : FCacheDirectory :=
  { Name := "A", TimeStamp := some 864000, Files := [("A/UE4.pdb", 5368709120)] }

/-- A directory of 3 GB whose marker is 2 days old at time 2592000. -/
def ScenarioDirectoryB : FCacheDirectory :=
  { Name := "B", TimeStamp := some 2419200, Files := [("B/UE4.pdb", 3221225472)] }

/-- A disk with 8 GB free, a 5 GB directory whose marker is 20 days old and a
3 GB directory whose marker is 2 days old. -/
def ScenarioDisk : FFileSystem :=
  { Now := 2592000, TotalNumberOfBytes := 1099511627776, NumberOfFreeBytes := 8589934592,
    Directories := [ScenarioDirectoryA, ScenarioDirectoryB] }

/-- The entry read from directory `A` of `ScenarioDisk`. -/
def ScenarioEntryA : FPDBCacheEntry :=
  { Files := ["A/UE4.pdb"], Label := "A", LastAccessTime := 864000, SizeGB := 5 }

/-- The entry read from directory `B` of `ScenarioDisk`. -/
def ScenarioEntryB : FPDBCacheEntry :=
  { Files := ["B/UE4.pdb"], Label := "B", LastAccessTime := 2419200, SizeGB := 3 }

/-- The cache that `InitializePDBCache` builds from `ScenarioDisk`. -/
def ScenarioCache : FPDBCache :=
  SampleCache [("A", ScenarioEntryA), ("B", ScenarioEntryB)]

/-- Configuration with an age limit of 14 days and 10 GB of minimum free
space. -/
def ScenarioConfig : FConfig :=
  { bUsePDBCache := some true, PDBCachePath := some "U:/CrashReport/PDBCache",
    PDBCacheSizeGB := some 128, MinDiskFreeSpaceGB := some 10,
    DaysToDeleteUnusedFilesFromPDBCache := some 14 }

/-- A disk with 8 GB free and two fresh directories of one byte each. -/
def RoundingDisk : FFileSystem :=
  { Now := 2592000, TotalNumberOfBytes := 1099511627776, NumberOfFreeBytes := 8589934592,
    Directories :=
      [{ Name := "X", TimeStamp := some 2591000, Files := [("X/PDBTimeStamp.txt", 1)] },
       { Name := "Y", TimeStamp := some 2592000, Files := [("Y/PDBTimeStamp.txt", 1)] }] }

/-- Configuration with a maximum cache size of 1 GB and 4 GB of minimum free
space. -/
def SmallCacheConfig : FConfig :=
  { bUsePDBCache := some true, PDBCachePath := some "U:/CrashReport/PDBCache",
    PDBCacheSizeGB := some 1, MinDiskFreeSpaceGB := some 4,
    DaysToDeleteUnusedFilesFromPDBCache := some 14 }

/-! ## Creating cache entries

`CreateAndAddPDBCacheEntry` copies files of the local workspace into the entry
directory. The workspace lies outside `PDBCachePath`; together with the path
and string helpers of the engine it is a parameter of the embedding. -/

/-- The engine services `CreateAndAddPDBCacheEntry` and the sync functions use
besides the cache disk. They are declared outside the source file and are
parameters of the embedding. -/
structure FEngineServices where
  /-- `FString::Replace( From, To )` with the default search case. -/
  Replace : String → String → String → String
  /-- `FPaths::GetPath`. -/
  GetPath : String → String
  /-- `FPaths::GetCleanFilename`. -/
  GetCleanFilename : String → String
  /-- The path concatenation `operator/`. -/
  Combine : String → String → String
  /-- `IFileManager::FindFiles( Result, Pattern, true, false )` in the local
  workspace: the names of the files that match the pattern. -/
  FindFiles : String → List String
  /-- `IFileManager::Copy( Dest, Src )`: the number of bytes of the copy, `none`
  when the copy fails. -/
  Copy : String → String → Option Nat
  /-- `FFileHelper::SaveStringToFile( String, Filename )`, given as file name and
  string: the number of bytes written, `none` when the file cannot be saved. -/
  SaveStringToFile : String → String → Option Nat

/-- `FPDBCache::PDBTimeStampFile`. -/
def PDBTimeStampFile : String := "PDBTimeStamp.txt"

/-- `RootDir` of `CreateAndAddPDBCacheEntry`; the source defines
`DO_LOCAL_TESTING` as 1. -/
def RootDir : String := "U:/P4EPIC/UE4-Releases/4.1/"

/-- A file of `Size` bytes written at `Path` into the listing of a directory:
a file of that path is overwritten, a new path is added. -/
def WriteFile (Files : List (String × Nat)) (Path : String) (Size : Nat) :
    List (String × Nat) :=
  if Files.any (fun f => f.1 == Path) then
    Files.map (fun f => if f.1 == Path then (Path, Size) else f)
  else Files ++ [(Path, Size)]

/-- Bytes in use by the file `Path` of directory `Name`, 0 when there is no
such file. -/
def FFileSystem.FileBytes (fs : FFileSystem) (Name Path : String) : Nat :=
  (((fs.FindFilesRecursive Name).filter (fun f => f.1 == Path)).map Prod.snd).sum

/-- Modelled from the spec: a file of `Size` bytes is written at `Path` below
the directory `Name` of the cache root (by `FFileHelper::SaveStringToFile` or
`IFileManager::Copy`). A missing directory is created. With `Marker` the file
is the marker file `PDBTimeStamp.txt`, whose modification time becomes the
current time; other files leave the marker file alone. -/
def FFileSystem.WriteToDirectory (fs : FFileSystem) (Name Path : String) (Size : Nat)
    (Marker : Bool) : FFileSystem :=
  { fs with
    NumberOfFreeBytes := fs.NumberOfFreeBytes + fs.FileBytes Name Path - Size
    Directories :=
      if fs.Directories.any (fun d => d.Name == Name) then
        fs.Directories.map (fun d =>
          if d.Name == Name then
            { d with
              TimeStamp := if Marker then some fs.Now else d.TimeStamp
              Files := WriteFile d.Files Path Size }
          else d)
      else
        fs.Directories ++
          [{ Name := Name
             TimeStamp := if Marker then some fs.Now else none
             Files := [(Path, Size)] }] }

/-- The disk at another time. -/
def FFileSystem.AtTime (fs : FFileSystem) (t : Int) : FFileSystem :=
  { fs with Now := t }

/-- Inner loop of `FPDBCache::CreateAndAddPDBCacheEntry`: copies the files
matched by one synced path into the entry directory. -/
def CreateAndAddPDBCacheEntry_CopyMatched (env : FEngineServices)
    (CleanedLabelName EntryDirectory SourceDirectoryWithSearch : String) :
    List String → FFileSystem → FFileSystem
  | [], fs => fs
  | MatchedFilename :: rest, fs =>
    let SrcFilename := env.Combine (env.GetPath SourceDirectoryWithSearch) MatchedFilename
    let DestFilename := env.Combine EntryDirectory (env.Replace SrcFilename RootDir "")
    match env.Copy DestFilename SrcFilename with
    | some Size =>
      CreateAndAddPDBCacheEntry_CopyMatched env CleanedLabelName EntryDirectory
        SourceDirectoryWithSearch rest
        (fs.WriteToDirectory CleanedLabelName DestFilename Size false)
    | none =>
      CreateAndAddPDBCacheEntry_CopyMatched env CleanedLabelName EntryDirectory
        SourceDirectoryWithSearch rest fs

/-- Outer loop of `FPDBCache::CreateAndAddPDBCacheEntry` over the synced
files. -/
def CreateAndAddPDBCacheEntry_CopySynced (env : FEngineServices)
    (CleanedLabelName EntryDirectory DepotName : String) :
    List String → FFileSystem → FFileSystem
  | [], fs => fs
  | Filename :: rest, fs =>
    let SourceDirectoryWithSearch := env.Replace Filename DepotName RootDir
    let MatchedFiles := env.FindFiles SourceDirectoryWithSearch
    CreateAndAddPDBCacheEntry_CopySynced env CleanedLabelName EntryDirectory DepotName rest
      (CreateAndAddPDBCacheEntry_CopyMatched env CleanedLabelName EntryDirectory
        SourceDirectoryWithSearch MatchedFiles fs)

/-- `FPDBCache::CreateAndAddPDBCacheEntry`; `none` is the fatal error raised
when the marker file cannot be saved. The result is the new entry together
with the cache and the disk. `CleanLabelName` is declared outside the source
file and is a parameter. -/
def CreateAndAddPDBCacheEntry (CleanLabelName : String → String) (env : FEngineServices)
    (c : FPDBCache) (fs : FFileSystem) (OriginalLabelName DepotName : String)
    (SyncedFiles : List String) : Option (FPDBCacheEntry × FPDBCache × FFileSystem) :=
  let CleanedLabelName := CleanLabelName OriginalLabelName
  let EntryDirectory := env.Combine c.PDBCachePath CleanedLabelName
  let EntryTimeStampFilename := env.Combine EntryDirectory PDBTimeStampFile
  match env.SaveStringToFile EntryTimeStampFilename EntryTimeStampFilename with
  | none => none
  | some Saved =>
    let fs := fs.WriteToDirectory CleanedLabelName EntryTimeStampFilename Saved true
    let LastAccessTime := fs.GetTimeStamp CleanedLabelName
    let fs :=
      CreateAndAddPDBCacheEntry_CopySynced env CleanedLabelName EntryDirectory DepotName
        SyncedFiles fs
    let PDBFiles := fs.FindFilesRecursive CleanedLabelName
    let TotalSize : Int := (PDBFiles.map (fun Filename => (Filename.2 : Int))).sum
    let SizeGB := toInt32 (DivideAndRoundUp TotalSize NUM_BYTES_PER_GB)
    let NewCacheEntry : FPDBCacheEntry :=
      { Label := CleanedLabelName, SizeGB := SizeGB, LastAccessTime := LastAccessTime,
        Files := PDBFiles.map Prod.fst }
    some (NewCacheEntry,
      SortPDBCache
        { c with PDBCacheEntries := MapAdd c.PDBCacheEntries CleanedLabelName NewCacheEntry },
      fs)

/-- The state in which `FPDBCache::TouchPDBCacheEntry` ends, be it by the fatal
error of `FindChecked` or by returning: the same steps as
`TouchPDBCacheEntry`, with the state reached as result. -/
def TouchPDBCacheEntry_StateAtExit (CleanLabelName : String → String) (c : FPDBCache)
    (fs : FFileSystem) (InLabel : String) : FPDBCache × FFileSystem :=
  let CleanedLabelName := CleanLabelName InLabel
  match MapFind c.PDBCacheEntries CleanedLabelName with
  | none => (c, fs)
  | some Entry =>
    let Touched := SetLastAccessTimeToNow Entry fs
    (SortPDBCache
        { c with
          PDBCacheEntries :=
            c.PDBCacheEntries.map (fun p => if p.1 == CleanedLabelName then (p.1, Touched) else p) },
      fs.SetTimeStamp CleanedLabelName Touched.LastAccessTime)

/-- The cache states reachable from an empty map through the operations of
`FPDBCache` that change the map. -/
inductive Reachable (CleanLabelName : String → String) (env : FEngineServices) :
    FPDBCache → Prop
  | empty (c : FPDBCache) (h : c.PDBCacheEntries = []) : Reachable CleanLabelName env c
  | scan (c : FPDBCache) (fs : FFileSystem) (h : Reachable CleanLabelName env c) :
    Reachable CleanLabelName env (InitializePDBCache c fs)
  | create (c c2 : FPDBCache) (fs fs2 : FFileSystem) (OriginalLabelName DepotName : String)
    (SyncedFiles : List String) (e : FPDBCacheEntry) (h : Reachable CleanLabelName env c)
    (hstep : CreateAndAddPDBCacheEntry CleanLabelName env c fs OriginalLabelName DepotName
      SyncedFiles = some (e, c2, fs2)) : Reachable CleanLabelName env c2
  | touch (c c2 : FPDBCache) (fs fs2 : FFileSystem) (InLabel : String)
    (h : Reachable CleanLabelName env c)
    (hstep : TouchPDBCacheEntry CleanLabelName c fs InLabel = some (c2, fs2)) :
    Reachable CleanLabelName env c2
  | remove (c c2 : FPDBCache) (fs fs2 : FFileSystem) (InLabel : String)
    (h : Reachable CleanLabelName env c)
    (hstep : RemovePDBCacheEntry c fs InLabel = some (c2, fs2)) :
    Reachable CleanLabelName env c2
  | clean (c c2 : FPDBCache) (fs fs2 : FFileSystem) (DaysToDelete NumberOfGBsToBeCleaned : Int)
    (h : Reachable CleanLabelName env c)
    (hstep : CleanPDBCache c fs DaysToDelete NumberOfGBsToBeCleaned = some (c2, fs2)) :
    Reachable CleanLabelName env c2

/-! ## Source control

The source control provider is outside the program. Its answers are given by
the functions of `FSourceControlProvider`; every function of the helper
returns the list of the calls it made to the provider, in order. -/

/-- A file revision of the source control system (`ISourceControlRevision`). -/
structure FSourceControlRevision where
  /-- `GetFilename()`. -/
  Filename : String
  /-- `Get( InFile )`: whether the revision was copied to the local file. -/
  Get : String → Bool

/-- A label of the source control system (`ISourceControlLabel`). -/
structure FSourceControlLabel where
  /-- `GetName()`. -/
  Name : String
  /-- `GetFileRevisions( InFile, OutRevisions )`: the returned flag and the
  revisions found. -/
  GetFileRevisions : String → Bool × List FSourceControlRevision
  /-- `Sync( InFilename )`. -/
  Sync : String → Bool

/-- The source control provider (`ISourceControlProvider`). -/
structure FSourceControlProvider where
  /-- `GetLabels( InMatchingSpec )`. -/
  GetLabels : String → List FSourceControlLabel
  /-- `GetLabel( InLabelName )`, `none` for an invalid pointer. -/
  GetLabel : String → Option FSourceControlLabel

/-- A call to the source control system. -/
inductive FSourceControlCall where
  /-- `ISourceControlProvider::GetLabels` with its argument. -/
  | GetLabels (InMatchingSpec : String)
  /-- `ISourceControlProvider::GetLabel` with its argument. -/
  | GetLabel (InLabelName : String)
  /-- `ISourceControlLabel::GetFileRevisions` on the named label. -/
  | GetFileRevisions (Label InFile : String)
  /-- `ISourceControlRevision::Get` on the revision of the named file, with the
  local file to copy to. -/
  | Get (Filename InFile : String)
  /-- `ISourceControlLabel::Sync` on the named label. -/
  | Sync (Label InFilename : String)
deriving DecidableEq, Repr

/-- The members of `ICrashDebugHelper` that the sync functions use. -/
structure ICrashDebugHelper where
  /-- Whether `Init` succeeded. -/
  bInitialized : Bool
  /-- Depot root. -/
  DepotName : String
  /-- Pattern of the build labels. -/
  SourceControlBuildLabelPattern : String
  /-- Directory of the local symbol store. -/
  LocalSymbolStore : String
  /-- The PDB cache. -/
  PDBCache : FPDBCache

/-- Modelled from the spec: `FString::Printf( TEXT( "%d" ), N )` is declared
outside the source file; it gives the decimal form of an integer. -/
def FormatDecimal (N : Int) : String := toString N

/-- Modelled from the spec: `FString::Replace( From, To, ESearchCase::CaseSensitive )`
is declared outside the source file; it replaces every occurrence of `From`
by `To`. -/
def ReplaceCaseSensitive (s From To : String) : String := s.replace From To

/-- `ICrashDebugHelper::RetrieveBuildLabel`: the label found and the calls made
to the source control system. -/
def RetrieveBuildLabel (self : ICrashDebugHelper) (scm : FSourceControlProvider)
    (InEngineVersion InChangelistNumber : Int) : String × List FSourceControlCall :=
  let FoundLabelString := ""
  if InEngineVersion < 0 ∧ InChangelistNumber < 0 then (FoundLabelString, [])
  else if FoundLabelString = "" ∧ InChangelistNumber ≥ 0 ∧
      ¬ self.SourceControlBuildLabelPattern = "" then
    let ChangelistString := FormatDecimal InChangelistNumber
    let TestLabel :=
      ReplaceCaseSensitive self.SourceControlBuildLabelPattern "%CHANGELISTNUMBER%"
        ChangelistString
    let Labels := scm.GetLabels TestLabel
    match Labels with
    | Label :: _ => (Label.Name, [FSourceControlCall.GetLabels TestLabel])
    | [] => (FoundLabelString, [FSourceControlCall.GetLabels TestLabel])
  else (FoundLabelString, [])

/-- The copy loop of `SyncRequiredFilesForDebuggingFromLabel`: `CopyCount` and
the `Get` calls made. -/
def SyncRequiredFiles_CopyLoop (env : FEngineServices) (LocalStoreFolder : String) :
    List FSourceControlRevision → Nat × List FSourceControlCall
  | [] => (0, [])
  | Revision :: rest =>
    let CopyFilename := env.Combine LocalStoreFolder (env.GetCleanFilename Revision.Filename)
    let r := SyncRequiredFiles_CopyLoop env LocalStoreFolder rest
    if Revision.Get CopyFilename = true then
      (r.1 + 1, FSourceControlCall.Get Revision.Filename CopyFilename :: r.2)
    else (r.1, FSourceControlCall.Get Revision.Filename CopyFilename :: r.2)

/-- `ICrashDebugHelper::SyncRequiredFilesForDebuggingFromLabel`: the returned
flag, the helper afterwards and the calls made to the source control
system. -/
def SyncRequiredFilesForDebuggingFromLabel (self : ICrashDebugHelper) (env : FEngineServices)
    (scm : FSourceControlProvider) (InLabel InPlatform : String) :
    Bool × ICrashDebugHelper × List FSourceControlCall :=
  if self.bInitialized = false then (false, self, [])
  else if InLabel.length ≤ 0 then (false, self, [])
  else if InPlatform.length ≤ 0 then (false, self, [])
  else
    let EngineRoot := self.DepotName ++ "/Engine/Binaries/" ++ InPlatform ++ "/"
    let EnginePdbFiles := EngineRoot ++ "...pdb..."
    let EngineExeFiles := EngineRoot ++ "...exe..."
    let EngineDllFiles := EngineRoot ++ "...dll..."
    match scm.GetLabel InLabel with
    | some Label =>
      let EnginePdb := Label.GetFileRevisions EnginePdbFiles
      let EngineExe := Label.GetFileRevisions EngineExeFiles
      let EngineDll := Label.GetFileRevisions EngineDllFiles
      let bGotEngineFiles := true || EnginePdb.1 || EngineExe.1 || EngineDll.1
      let GameRoot := self.DepotName ++ "/...Game/Binaries/" ++ InPlatform ++ "/"
      let GamePdbFiles := GameRoot ++ "...pdb..."
      let GameExeFiles := GameRoot ++ "...exe..."
      let GameDllFiles := GameRoot ++ "...dll..."
      let GamePdb := Label.GetFileRevisions GamePdbFiles
      let GameExe := Label.GetFileRevisions GameExeFiles
      let GameDll := Label.GetFileRevisions GameDllFiles
      let Queries :=
        [FSourceControlCall.GetLabel InLabel,
         FSourceControlCall.GetFileRevisions Label.Name EnginePdbFiles,
         FSourceControlCall.GetFileRevisions Label.Name EngineExeFiles,
         FSourceControlCall.GetFileRevisions Label.Name EngineDllFiles,
         FSourceControlCall.GetFileRevisions Label.Name GamePdbFiles,
         FSourceControlCall.GetFileRevisions Label.Name GameExeFiles,
         FSourceControlCall.GetFileRevisions Label.Name GameDllFiles]
      if bGotEngineFiles = true then
        let CopyFileList :=
          EnginePdb.2 ++ EngineExe.2 ++ EngineDll.2 ++ GamePdb.2 ++ GameExe.2 ++ GameDll.2
        let LocalStoreFolder := self.LocalSymbolStore ++ "/" ++ InPlatform ++ "/"
        let Copied := SyncRequiredFiles_CopyLoop env LocalStoreFolder CopyFileList
        (decide (Copied.1 > 0), self, Queries ++ Copied.2)
      else (false, self, Queries)
    | none => (false, self, [FSourceControlCall.GetLabel InLabel])

/-- The six file patterns of `SyncRequiredFilesForDebuggingFromLabel` for a
depot root and a platform: the engine root and the game root, each with the
wildcards for symbol files, executables and libraries. -/
def RequiredFilePatterns (DepotName InPlatform : String) : List String :=
  [DepotName ++ "/Engine/Binaries/" ++ InPlatform ++ "/" ++ "...pdb...",
   DepotName ++ "/Engine/Binaries/" ++ InPlatform ++ "/" ++ "...exe...",
   DepotName ++ "/Engine/Binaries/" ++ InPlatform ++ "/" ++ "...dll...",
   DepotName ++ "/...Game/Binaries/" ++ InPlatform ++ "/" ++ "...pdb...",
   DepotName ++ "/...Game/Binaries/" ++ InPlatform ++ "/" ++ "...exe...",
   DepotName ++ "/...Game/Binaries/" ++ InPlatform ++ "/" ++ "...dll..."]

/-- The revisions a label answers for a list of patterns, concatenated. -/
def AnsweredRevisions (Label : FSourceControlLabel) (Patterns : List String) :
    List FSourceControlRevision :=
  (Patterns.map (fun Pattern => (Label.GetFileRevisions Pattern).2)).flatten

/-- The local file a revision is copied to by
`SyncRequiredFilesForDebuggingFromLabel`. -/
def LocalCopyFilename (self : ICrashDebugHelper) (env : FEngineServices) (InPlatform : String)
    (Revision : FSourceControlRevision) : String :=
  env.Combine (self.LocalSymbolStore ++ "/" ++ InPlatform ++ "/")
    (env.GetCleanFilename Revision.Filename)

/-! ## Observations and sample states for entry creation and source control -/

/-- Sum of the sizes in bytes of all files found recursively in the entry
directory `Name`. -/
def FFileSystem.EntryDirectoryBytes (fs : FFileSystem) (Name : String) : Nat :=
  ((fs.FindFilesRecursive Name).map Prod.snd).sum

/-- The ceiling of a number of bytes divided by one gigabyte (`2^30` bytes). -/
def CeilingGB (Bytes : Nat) : Int := ⌈(Bytes : ℚ) / 1073741824⌉

/-- The largest number of bytes whose size in gigabytes fits the `int32` field
`SizeGB`: `(2^31 - 1) * 2^30`. -/
def MaxEntryBytes : Nat := 2147483647 * 1073741824

/-- A disk with one directory that holds a single file of `2^61` bytes. -/
def HugeDisk : FFileSystem :=
  { Now := 2592000, TotalNumberOfBytes := 4611686018427387904, NumberOfFreeBytes := 0,
    Directories :=
      [{ Name := "Z", TimeStamp := some 2592000,
         Files := [("Z/Huge.pdb", 2305843009213693952)] }] }

/-- Engine services in which one file of 1024 bytes matches every synced path
and the marker file takes 64 bytes. -/
def SampleServices : FEngineServices :=
  { Replace := fun s _ _ => s
    GetPath := fun s => s
    GetCleanFilename := fun s => s
    Combine := fun a b => a ++ "/" ++ b
    FindFiles := fun _ => ["UE4.pdb"]
    Copy := fun _ _ => some 1024
    SaveStringToFile := fun _ _ => some 64 }

/-- A revision whose copy succeeds. -/
def SampleRevision (Filename : String) : FSourceControlRevision :=
  { Filename := Filename, Get := fun _ => true }

/-- A label that answers every pattern with one revision. -/
def SampleLabel : FSourceControlLabel :=
  { Name := "UE4_CL-2082666"
    GetFileRevisions := fun InFile => (true, [SampleRevision InFile])
    Sync := fun _ => true }

/-- A provider that knows `SampleLabel` under every name. -/
def SampleProvider : FSourceControlProvider :=
  { GetLabels := fun _ => [SampleLabel]
    GetLabel := fun _ => some SampleLabel }

/-- An initialized helper. -/
def SampleHelper : ICrashDebugHelper :=
  { bInitialized := true
    DepotName := "//depot/UE4"
    SourceControlBuildLabelPattern := "UE4_CL-%CHANGELISTNUMBER%"
    LocalSymbolStore := "U:/Symbols"
    PDBCache := RecentCache }

/-- The files the inner loop of `CreateAndAddPDBCacheEntry` writes for one
synced path: destination and size of every copy that succeeds, in order. -/
def CreateAndAddPDBCacheEntry_MatchedWrites (env : FEngineServices)
    (EntryDirectory SourceDirectoryWithSearch : String) : List String → List (String × Nat)
  | [] => []
  | MatchedFilename :: rest =>
    let SrcFilename := env.Combine (env.GetPath SourceDirectoryWithSearch) MatchedFilename
    let DestFilename := env.Combine EntryDirectory (env.Replace SrcFilename RootDir "")
    match env.Copy DestFilename SrcFilename with
    | some Size =>
      (DestFilename, Size) ::
        CreateAndAddPDBCacheEntry_MatchedWrites env EntryDirectory SourceDirectoryWithSearch rest
    | none =>
      CreateAndAddPDBCacheEntry_MatchedWrites env EntryDirectory SourceDirectoryWithSearch rest

/-- The files `CreateAndAddPDBCacheEntry` writes for the synced files, in
order. -/
def CreateAndAddPDBCacheEntry_SyncedWrites (env : FEngineServices)
    (EntryDirectory DepotName : String) : List String → List (String × Nat)
  | [] => []
  | Filename :: rest =>
    CreateAndAddPDBCacheEntry_MatchedWrites env EntryDirectory
        (env.Replace Filename DepotName RootDir)
        (env.FindFiles (env.Replace Filename DepotName RootDir)) ++
      CreateAndAddPDBCacheEntry_SyncedWrites env EntryDirectory DepotName rest

/-- A list of files written one after the other into a directory listing. -/
def WriteFiles (Files : List (String × Nat)) (Writes : List (String × Nat)) :
    List (String × Nat) :=
  Writes.foldl (fun F w => WriteFile F w.1 w.2) Files

/-- The size the last write to `Path` in a list of writes gives the file,
`none` when the list does not write to `Path`. -/
def LastWrite (Path : String) : List (String × Nat) → Option Nat
  | [] => none
  | w :: rest =>
    match LastWrite Path rest with
    | some Size => some Size
    | none => if w.1 = Path then some w.2 else none

/-! ## Syncing the modules of a crash

`ICrashDebugHelper::SyncModules` asks the provider for the labels of the
crash, looks the label up in the PDB cache and, on a miss, syncs the modules
and creates a cache entry. Its embedding returns the calls it made to the
provider and to the cache, in order, also when it ends in a fatal error. -/

/-- The members of `FCrashInfo` that the helper reads and writes. -/
structure FCrashInfo where
  /-- Label of the build the crash comes from. -/
  LabelName : String
  /-- Names of the modules of the crash. -/
  ModuleNames : List String
  /-- Source file of the crash. -/
  SourceFile : String
  /-- Line of the crash in the source file, a `uint64`. -/
  SourceLineNumber : Nat
  /-- Lines of source around the crash. -/
  SourceContext : List String
  /-- Cache entry of the label, `none` for an invalid pointer. -/
  PDBCacheEntry : Option FPDBCacheEntry
deriving DecidableEq, Repr

/-- The source control module (`ISourceControlModule`). -/
structure ISourceControlModule where
  /-- `IsEnabled()`. -/
  bEnabled : Bool
  /-- `GetProvider()`. -/
  Provider : FSourceControlProvider

/-- A call that `SyncModules` makes to the provider or to the PDB cache. -/
inductive FSyncModulesCall where
  /-- `ISourceControlProvider::GetLabels` with its argument. -/
  | GetLabels (InMatchingSpec : String)
  /-- `FPDBCache::ContainsPDBCacheEntry` with its argument. -/
  | ContainsPDBCacheEntry (InLabel : String)
  /-- `FPDBCache::FindPDBCacheEntry` with its argument. -/
  | FindPDBCacheEntry (InLabel : String)
  /-- `FPDBCache::TouchPDBCacheEntry` with its argument. -/
  | TouchPDBCacheEntry (InLabel : String)
  /-- `ISourceControlLabel::Sync`: the position in `Labels` of the label the call
  is made on, the path, and the value the call returned. -/
  | Sync (LabelIndex : Nat) (InFilename : String) (bSynced : Bool)
  /-- `FPDBCache::CreateAndAddPDBCacheEntry` with its arguments. -/
  | CreateAndAddPDBCacheEntry (OriginalLabelName DepotName : String) (SyncedFiles : List String)
deriving DecidableEq, Repr

/-- What `SyncModules` leaves behind. -/
structure FSyncModulesResult where
  /-- The value returned, `none` when the function ends in a fatal error. -/
  ReturnValue : Option Bool
  /-- The crash record. -/
  CrashInfo : FCrashInfo
  /-- The PDB cache of the helper. -/
  PDBCache : FPDBCache
  /-- The disk below the cache. -/
  FileSystem : FFileSystem
  /-- The calls made, in order. -/
  Calls : List FSyncModulesCall
deriving DecidableEq, Repr

/-- Modelled from the spec: `FPDBCache::UsePDBCache` is declared outside the
source file; it tells whether the cache is enabled. -/
def UsePDBCache (c : FPDBCache) : Bool := c.bUsePDBCache

/-- Modelled from the spec: `FPDBCache::ContainsPDBCacheEntry` is declared
outside the source file; a map lookup on the cleaned label that does not touch
the entry. -/
def ContainsPDBCacheEntry (CleanLabelName : String → String) (c : FPDBCache)
    (InLabel : String) : Bool :=
  (MapFind c.PDBCacheEntries (CleanLabelName InLabel)).isSome

/-- Modelled from the spec: `FPDBCache::FindPDBCacheEntry` is declared outside
the source file; the entry stored under the cleaned label, `none` when there
is none. -/
def FindPDBCacheEntry (CleanLabelName : String → String) (c : FPDBCache)
    (InLabel : String) : Option FPDBCacheEntry :=
  MapFind c.PDBCacheEntries (CleanLabelName InLabel)

/-- One `Label->Sync( Path )` of `SyncModules`, made on `Labels[0]`, followed
by `SyncedFiles.Add( Path )`. The state is `SyncedFiles` with the calls made so
far; the value `Sync` returns only decides whether a line is logged. -/
def SyncModules_SyncAndAdd (Label : FSourceControlLabel) (Path : String)
    (st : List String × List FSyncModulesCall) : List String × List FSyncModulesCall :=
  (st.1 ++ [Path], st.2 ++ [FSyncModulesCall.Sync 0 Path (Label.Sync Path)])

/-- Body of the module loop of `SyncModules` for one module name; `Label` is
`Labels[0]`. -/
def SyncModules_SyncModule (env : FEngineServices) (DepotName : String)
    (Label : FSourceControlLabel) (ModuleName : String)
    (st : List String × List FSyncModulesCall) : List String × List FSyncModulesCall :=
  let DepotPath := DepotName ++ "/" ++ ModuleName
  let DepotPath := env.Replace (env.Replace DepotPath ".dll" "*.dll") ".exe" "*.exe"
  let st := SyncModules_SyncAndAdd Label DepotPath st
  let PDBName := env.Replace (env.Replace DepotPath ".dll" ".pdb") ".exe" ".pdb"
  let st := SyncModules_SyncAndAdd Label PDBName st
  let DepotPath := DepotName ++ "/Rocket/Installed/Windows/" ++ ModuleName
  let DepotPath := env.Replace (env.Replace DepotPath ".dll" "*.dll") ".exe" "*.exe"
  let st := SyncModules_SyncAndAdd Label DepotPath st
  let DepotPath := DepotName ++ "/Rocket/Symbols/" ++ ModuleName
  let PDBName := env.Replace (env.Replace DepotPath ".dll" "*.pdb") ".exe" "*.pdb"
  let st := SyncModules_SyncAndAdd Label PDBName st
  let DepotPath := DepotName ++ "/Rocket/LauncherInstalled/Windows/Launcher/" ++ ModuleName
  let DepotPath := env.Replace (env.Replace DepotPath ".dll" "*.dll") ".exe" "*.exe"
  let st := SyncModules_SyncAndAdd Label DepotPath st
  let DepotPath := DepotName ++ "/Rocket/LauncherSymbols/Windows/Launcher/" ++ ModuleName
  let PDBName := env.Replace (env.Replace DepotPath ".dll" "*.pdb") ".exe" "*.pdb"
  SyncModules_SyncAndAdd Label PDBName st

/-- The label loop of `SyncModules` on a cache miss. `Contains` is
`FString::Contains` with the default search case, declared outside the source
file; `Label0` is `Labels[0]`. -/
def SyncModules_SyncLabels (Contains : String → String → Bool) (env : FEngineServices)
    (DepotName : String) (Label0 : FSourceControlLabel) (ModuleNames : List String) :
    List FSourceControlLabel → List String × List FSyncModulesCall →
      List String × List FSyncModulesCall
  | [], st => st
  | Label :: rest, st =>
    if Contains Label.Name "Mac" then
      SyncModules_SyncLabels Contains env DepotName Label0 ModuleNames rest st
    else
      SyncModules_SyncLabels Contains env DepotName Label0 ModuleNames rest
        (ModuleNames.foldl
          (fun st ModuleName => SyncModules_SyncModule env DepotName Label0 ModuleName st) st)

/-- `ICrashDebugHelper::SyncModules`. The handle `CrashInfo->PDBCacheEntry`
shares the entry with the map, so on a cache hit it shows the entry as
touched. -/
def SyncModules (CleanLabelName : String → String) (Contains : String → String → Bool)
    (env : FEngineServices) (self : ICrashDebugHelper) (scm : ISourceControlModule)
    (fs : FFileSystem) (CrashInfo : FCrashInfo) : FSyncModulesResult :=
  if CrashInfo.LabelName.length ≤ 0 then
    { ReturnValue := some false, CrashInfo := CrashInfo, PDBCache := self.PDBCache,
      FileSystem := fs, Calls := [] }
  else if scm.bEnabled = false then
    { ReturnValue := some false, CrashInfo := CrashInfo, PDBCache := self.PDBCache,
      FileSystem := fs, Calls := [] }
  else
    let Labels := scm.Provider.GetLabels CrashInfo.LabelName
    let Queries := [FSyncModulesCall.GetLabels CrashInfo.LabelName]
    match Labels with
    | Label0 :: _ =>
      let bContains := UsePDBCache self.PDBCache &&
        ContainsPDBCacheEntry CleanLabelName self.PDBCache CrashInfo.LabelName
      let Queries :=
        if UsePDBCache self.PDBCache then
          Queries ++ [FSyncModulesCall.ContainsPDBCacheEntry CrashInfo.LabelName]
        else Queries
      if bContains then
        let Queries := Queries ++ [FSyncModulesCall.FindPDBCacheEntry CrashInfo.LabelName]
        match FindPDBCacheEntry CleanLabelName self.PDBCache CrashInfo.LabelName with
        | none =>
          { ReturnValue := none, CrashInfo := CrashInfo, PDBCache := self.PDBCache,
            FileSystem := fs, Calls := Queries }
        | some Entry =>
          let Queries := Queries ++ [FSyncModulesCall.TouchPDBCacheEntry CrashInfo.LabelName]
          match TouchPDBCacheEntry CleanLabelName self.PDBCache fs CrashInfo.LabelName with
          | none =>
            { ReturnValue := none, CrashInfo := { CrashInfo with PDBCacheEntry := some Entry },
              PDBCache := self.PDBCache, FileSystem := fs, Calls := Queries }
          | some Touched =>
            { ReturnValue := some true,
              CrashInfo :=
                { CrashInfo with PDBCacheEntry := some (SetLastAccessTimeToNow Entry fs) },
              PDBCache := Touched.1, FileSystem := Touched.2, Calls := Queries }
      else
        let Synced :=
          SyncModules_SyncLabels Contains env self.DepotName Label0 CrashInfo.ModuleNames Labels
            ([], Queries)
        if UsePDBCache self.PDBCache then
          let Queries := Synced.2 ++
            [FSyncModulesCall.CreateAndAddPDBCacheEntry CrashInfo.LabelName self.DepotName
              Synced.1]
          match CreateAndAddPDBCacheEntry CleanLabelName env self.PDBCache fs CrashInfo.LabelName
              self.DepotName Synced.1 with
          | none =>
            { ReturnValue := none, CrashInfo := CrashInfo, PDBCache := self.PDBCache,
              FileSystem := fs, Calls := Queries }
          | some Created =>
            { ReturnValue := some true,
              CrashInfo := { CrashInfo with PDBCacheEntry := some Created.1 },
              PDBCache := Created.2.1, FileSystem := Created.2.2, Calls := Queries }
        else
          { ReturnValue := some true, CrashInfo := CrashInfo, PDBCache := self.PDBCache,
            FileSystem := fs, Calls := Synced.2 }
    | [] =>
      { ReturnValue := some true, CrashInfo := CrashInfo, PDBCache := self.PDBCache,
        FileSystem := fs, Calls := Queries }

/-! ## The source context of a crash

`ICrashDebugHelper::AddSourceToReport` computes with `uint64` values; they are
natural numbers below `2^64` and the arithmetic of the source is reduced
modulo `2^64`. `TArray::Num` is an `int32`, so the bounds of the loop fit its
`int32` variable. An index outside the array is fatal in the source and
`none` here. -/

/-- The C++ conversion to `uint64`: reduction modulo `2^64`. -/
def toUInt64 (z : Int) : Nat := (z % 18446744073709551616).toNat

/-- Modelled from the spec: `FMath::Clamp` is declared outside the source file;
it limits `X` to the range from `Min` to `Max`. -/
def Clamp (X Min Max : Nat) : Nat :=
  if X < Min then Min else if X < Max then X else Max

/-- `ICrashDebugHelper::ReadSourceFile`: the returned flag and `OutStrings`.
`FFileHelper::LoadFileToString` and `FString::ParseIntoArray` are declared
outside the source file and are parameters. -/
def ReadSourceFile (env : FEngineServices) (LoadFileToString : String → Option String)
    (ParseIntoArray : String → String → List String) (InFilename : String)
    (OutStrings : List String) : Bool × List String :=
  match LoadFileToString InFilename with
  | some Line =>
    let Line := env.Replace Line "\r" ""
    (true, ParseIntoArray Line "\n")
  | none => (false, OutStrings)

/-- The loop of `ICrashDebugHelper::AddSourceToReport` over the values of
`Line`; the state is `SourceContext`. -/
def AddSourceToReport_Loop (Lines : List String) (SourceLineNumber : Nat) :
    List Nat → List String → Option (List String)
  | [], SourceContext => some SourceContext
  | Line :: rest, SourceContext =>
    match Lines[Line]? with
    | none => none
    | some Text =>
      if Line = toUInt64 ((SourceLineNumber : Int) - 1) then
        AddSourceToReport_Loop Lines SourceLineNumber rest (SourceContext ++ ["*****" ++ Text])
      else
        AddSourceToReport_Loop Lines SourceLineNumber rest (SourceContext ++ ["     " ++ Text])

/-- `ICrashDebugHelper::AddSourceToReport`: the crash record afterwards. -/
def AddSourceToReport (env : FEngineServices) (LoadFileToString : String → Option String)
    (ParseIntoArray : String → String → List String) (CrashInfo : FCrashInfo) :
    Option FCrashInfo :=
  if CrashInfo.SourceFile.length > 0 ∧ CrashInfo.SourceLineNumber ≠ 0 then
    let FullPath := "../../../" ++ CrashInfo.SourceFile
    let Lines := (ReadSourceFile env LoadFileToString ParseIntoArray FullPath []).2
    let MinLine := Clamp (toUInt64 ((CrashInfo.SourceLineNumber : Int) - 15)) 1 Lines.length
    let MaxLine := Clamp (toUInt64 ((CrashInfo.SourceLineNumber : Int) + 15)) 1 Lines.length
    match AddSourceToReport_Loop Lines CrashInfo.SourceLineNumber
        (List.range' MinLine (MaxLine - MinLine)) CrashInfo.SourceContext with
    | none => none
    | some SourceContext => some { CrashInfo with SourceContext := SourceContext }
  else some CrashInfo

/-! ## Observations and sample states for `SyncModules`, `CleanPDBCache` and
`AddSourceToReport` -/

/-- The calls of `RemovePDBCacheEntry` that the last loop of `CleanPDBCache`
makes: the label passed, with the keys of the entry map at the moment of the
call. The loop ends at a call that is fatal. -/
def CleanPDBCache_RemoveCalls :
    List String → FPDBCache × FFileSystem → List (String × List String)
  | [], _ => []
  | EntryLabel :: rest, (c, fs) =>
    (EntryLabel, Keys c) ::
      match RemovePDBCacheEntry c fs EntryLabel with
      | none => []
      | some st => CleanPDBCache_RemoveCalls rest st

/-- The six paths `SyncModules` syncs for one module name, in order. -/
def SyncModules_ModulePaths (env : FEngineServices) (DepotName ModuleName : String) :
    List String :=
  [env.Replace (env.Replace (DepotName ++ "/" ++ ModuleName) ".dll" "*.dll") ".exe" "*.exe",
   env.Replace
     (env.Replace
       (env.Replace (env.Replace (DepotName ++ "/" ++ ModuleName) ".dll" "*.dll") ".exe" "*.exe")
       ".dll" ".pdb")
     ".exe" ".pdb",
   env.Replace
     (env.Replace (DepotName ++ "/Rocket/Installed/Windows/" ++ ModuleName) ".dll" "*.dll")
     ".exe" "*.exe",
   env.Replace (env.Replace (DepotName ++ "/Rocket/Symbols/" ++ ModuleName) ".dll" "*.pdb")
     ".exe" "*.pdb",
   env.Replace
     (env.Replace (DepotName ++ "/Rocket/LauncherInstalled/Windows/Launcher/" ++ ModuleName)
       ".dll" "*.dll")
     ".exe" "*.exe",
   env.Replace
     (env.Replace (DepotName ++ "/Rocket/LauncherSymbols/Windows/Launcher/" ++ ModuleName)
       ".dll" "*.pdb")
     ".exe" "*.pdb"]

/-- The paths `SyncModules` syncs on a cache miss, in order: the six paths of
every module name, once for every label whose name does not contain `Mac`. -/
def SyncModules_Paths (Contains : String → String → Bool) (env : FEngineServices)
    (DepotName : String) (ModuleNames : List String) (Labels : List FSourceControlLabel) :
    List String :=
  ((Labels.filter (fun Label => !Contains Label.Name "Mac")).map
    (fun _ => (ModuleNames.map (SyncModules_ModulePaths env DepotName)).flatten)).flatten

/-- Whether a call is a `Sync`. -/
def FSyncModulesCall.IsSync : FSyncModulesCall → Bool
  | FSyncModulesCall.Sync _ _ _ => true
  | _ => false

/-- Whether a call is a `Sync` that returned true. -/
def FSyncModulesCall.IsSyncedFile : FSyncModulesCall → Bool
  | FSyncModulesCall.Sync _ _ true => true
  | _ => false

/-- Whether a call is a `CreateAndAddPDBCacheEntry`. -/
def FSyncModulesCall.IsCreate : FSyncModulesCall → Bool
  | FSyncModulesCall.CreateAndAddPDBCacheEntry _ _ _ => true
  | _ => false

/-- Whether a call is a call to the PDB cache. -/
def FSyncModulesCall.IsCacheCall : FSyncModulesCall → Bool
  | FSyncModulesCall.ContainsPDBCacheEntry _ => true
  | FSyncModulesCall.FindPDBCacheEntry _ => true
  | FSyncModulesCall.TouchPDBCacheEntry _ => true
  | FSyncModulesCall.CreateAndAddPDBCacheEntry _ _ _ => true
  | _ => false

/-- A label on which every `Sync` fails. -/
def FailingLabel : FSourceControlLabel :=
  { Name := "UE4_CL-2082666"
    GetFileRevisions := fun _ => (false, [])
    Sync := fun _ => false }

/-- A label for Mac builds, on which every `Sync` fails. -/
def MacLabel : FSourceControlLabel :=
  { Name := "UE4_CL-2082666-Mac"
    GetFileRevisions := fun _ => (false, [])
    Sync := fun _ => false }

/-- Source control that is enabled and knows `SampleLabel` under every name. -/
def SampleModule : ISourceControlModule :=
  { bEnabled := true, Provider := SampleProvider }

/-- Source control that is enabled and answers every name with `FailingLabel`. -/
def FailingModule : ISourceControlModule :=
  { bEnabled := true
    Provider := { GetLabels := fun _ => [FailingLabel], GetLabel := fun _ => some FailingLabel } }

/-- Source control that answers every name with a Mac label first and
`SampleLabel` second. -/
def MacFirstModule : ISourceControlModule :=
  { bEnabled := true
    Provider :=
      { GetLabels := fun _ => [MacLabel, SampleLabel], GetLabel := fun _ => some MacLabel } }

/-- A substring test on the characters of the two strings, case sensitive. -/
def SampleContains (s Sub : String) : Bool := decide (Sub.data <:+: s.data)

/-- Engine services in which the marker file cannot be saved. -/
def ReadOnlyServices : FEngineServices :=
  { Replace := fun s _ _ => s
    GetPath := fun s => s
    GetCleanFilename := fun s => s
    Combine := fun a b => a ++ "/" ++ b
    FindFiles := fun _ => []
    Copy := fun _ _ => none
    SaveStringToFile := fun _ _ => none }

/-- A crash with one module, built from a label that is not in the cache. -/
def SampleCrash : FCrashInfo :=
  { LabelName := "UE4_CL-2082666"
    ModuleNames := ["UE4Editor-Core.dll"]
    SourceFile := "Engine/Source/Runtime/Core/Private/Misc/Parse.cpp"
    SourceLineNumber := 5
    SourceContext := []
    PDBCacheEntry := none }

/-- A crash built from the label `A`, which is in `RecentCache`. -/
def CachedCrash : FCrashInfo :=
  { LabelName := "A"
    ModuleNames := ["UE4Editor-Core.dll"]
    SourceFile := "Engine/Source/Runtime/Core/Private/Misc/Parse.cpp"
    SourceLineNumber := 16
    SourceContext := []
    PDBCacheEntry := none }

/-- A helper whose PDB cache is disabled. -/
def UncachedHelper : ICrashDebugHelper :=
  { bInitialized := true
    DepotName := "//depot/UE4"
    SourceControlBuildLabelPattern := "UE4_CL-%CHANGELISTNUMBER%"
    LocalSymbolStore := "U:/Symbols"
    PDBCache := { RecentCache with bUsePDBCache := false } }

/-- A source file of twenty lines. -/
def SampleSourceLines : List String :=
  (List.range 20).map (fun i => "line " ++ toString (i + 1))

/-- A file loader that finds every file. -/
def SampleLoadFileToString (_ : String) : Option String := some "line 1"

/-- A line splitter that answers the twenty lines of `SampleSourceLines`. -/
def SampleParseIntoArray (_ _ : String) : List String := SampleSourceLines

/-- A disk with no free byte and two directories of one byte each: `Ahead`,
whose marker file carries a modification time one minute ahead of the clock,
and `Unmarked`, which has no marker file. -/
def FullDisk : FFileSystem :=
  { Now := 2592000, TotalNumberOfBytes := 1099511627776, NumberOfFreeBytes := 0,
    Directories :=
      [{ Name := "Ahead", TimeStamp := some 2592060, Files := [("Ahead/UE4.pdb", 1)] },
       { Name := "Unmarked", TimeStamp := none, Files := [("Unmarked/UE4.pdb", 1)] }] }

/-- The default configuration of the source comment: 64 GB of minimum free
space and an age limit of 14 days. -/
def DefaultConfig : FConfig :=
  { bUsePDBCache := some true, PDBCachePath := some "U:/CrashReport/PDBCache",
    PDBCacheSizeGB := some 128, MinDiskFreeSpaceGB := some 64,
    DaysToDeleteUnusedFilesFromPDBCache := some 14 }

/-- A disk with 1 GB free whose cache root holds three fresh directories: `A`
of `2^61` bytes, `B` of `2^62 - 2^30` bytes and `C` of one byte. Their sizes
in gigabytes are `2^31`, `2^32 - 1` and 1, which the `int32` field `SizeGB`
holds as `-2^31`, `-1` and 1. -/
def WrapDisk : FFileSystem :=
  { Now := 2592000, TotalNumberOfBytes := 9223372036854775808, NumberOfFreeBytes := 1073741824,
    Directories :=
      [{ Name := "A", TimeStamp := some 2591000, Files := [("A/UE4.pdb", 2305843009213693952)] },
       { Name := "B", TimeStamp := some 2591100, Files := [("B/UE4.pdb", 4611686017353646080)] },
       { Name := "C", TimeStamp := some 2591200, Files := [("C/UE4.pdb", 1)] }] }

/-- A disk with 1 GB free whose cache root holds two directories with a marker
file 20 days old, `A` of `2^31 - 1` gigabytes and `B` of one byte, and a fresh
directory `C` of one byte. -/
def OverflowDisk : FFileSystem :=
  { Now := 2592000, TotalNumberOfBytes := 9223372036854775808, NumberOfFreeBytes := 1073741824,
    Directories :=
      [{ Name := "A", TimeStamp := some 864000, Files := [("A/UE4.pdb", 2305843008139952128)] },
       { Name := "B", TimeStamp := some 864100, Files := [("B/UE4.pdb", 1)] },
       { Name := "C", TimeStamp := some 2591000, Files := [("C/UE4.pdb", 1)] }] }

/-- A disk with 1 GB free and one fresh directory of `2^31 - 1` gigabytes. -/
def SumWrapDisk : FFileSystem :=
  { Now := 2592000, TotalNumberOfBytes := 9223372036854775808, NumberOfFreeBytes := 1073741824,
    Directories :=
      [{ Name := "A", TimeStamp := some 2591000,
         Files := [("A/UE4.pdb", 2305843008139952128)] }] }

/-- A disk with `2^61` bytes free, which `Init` measures as `-2^31` gigabytes,
and two fresh directories of `2^31 - 1` and 21 gigabytes. -/
def TargetWrapDisk : FFileSystem :=
  { Now := 2592000, TotalNumberOfBytes := 9223372036854775808,
    NumberOfFreeBytes := 2305843009213693952,
    Directories :=
      [{ Name := "A", TimeStamp := some 2591000, Files := [("A/UE4.pdb", 2305843008139952128)] },
       { Name := "B", TimeStamp := some 2591100, Files := [("B/UE4.pdb", 22548578304)] }] }

/-- A disk with 1 GB free and two fresh directories of `2^61` and
`2^62 - 2^31` bytes, whose `SizeGB` are `-2^31` and `-2`. -/
def NegativeSizeDisk : FFileSystem :=
  { Now := 2592000, TotalNumberOfBytes := 9223372036854775808, NumberOfFreeBytes := 1073741824,
    Directories :=
      [{ Name := "A", TimeStamp := some 2591000, Files := [("A/UE4.pdb", 2305843009213693952)] },
       { Name := "B", TimeStamp := some 2591100,
         Files := [("B/UE4.pdb", 4611686016279904256)] }] }

/-- A configuration that switches the PDB cache off. -/
def DisabledConfig : FConfig :=
  { bUsePDBCache := some false, PDBCachePath := some "U:/CrashReport/PDBCache",
    PDBCacheSizeGB := some 128, MinDiskFreeSpaceGB := some 64,
    DaysToDeleteUnusedFilesFromPDBCache := some 14 }

/-! ## Lemmas on the containers -/

theorem SetAdd_of_mem (s : List String) (x : String) (hx : x ∈ s) : SetAdd s x = s := by
  simp [SetAdd, hx]

theorem SetAdd_of_not_mem (s : List String) (x : String) (hx : x ∉ s) :
    SetAdd s x = s ++ [x] := by
  simp [SetAdd, hx]

theorem mem_SetAdd (s : List String) (x y : String) : y ∈ SetAdd s x ↔ y ∈ s ∨ y = x := by
  by_cases hx : x ∈ s
  · rw [SetAdd_of_mem s x hx]
    constructor
    · exact fun hy => Or.inl hy
    · rintro (hy | rfl)
      · exact hy
      · exact hx
  · rw [SetAdd_of_not_mem s x hx]
    simp

theorem nodup_SetAdd (s : List String) (x : String) (hs : s.Nodup) : (SetAdd s x).Nodup := by
  by_cases hx : x ∈ s
  · rw [SetAdd_of_mem s x hx]
    exact hs
  · rw [SetAdd_of_not_mem s x hx, List.nodup_append]
    refine ⟨hs, List.nodup_singleton x, ?_⟩
    intro a ha hb
    have : a = x := by simpa using hb
    exact hx (this ▸ ha)

theorem sum_filter_split {α : Type} (f : α → Int) (P Q : α → Bool) (l : List α) :
    ((l.filter P).map f).sum =
      ((l.filter (fun x => P x && Q x)).map f).sum +
        ((l.filter (fun x => P x && !Q x)).map f).sum := by
  induction l with
  | nil => simp
  | cons a l ih =>
    by_cases hP : P a = true <;> by_cases hQ : Q a = true <;>
      simp [List.filter_cons, hP, hQ, ih] <;> omega

theorem MapFind_isSome_of_mem_keys (m : List (String × FPDBCacheEntry)) (k : String)
    (h : k ∈ m.map Prod.fst) : ∃ e, MapFind m k = some e := by
  induction m with
  | nil => simp at h
  | cons p m ih =>
    unfold MapFind
    by_cases hp : p.1 = k
    · exact ⟨p.2, by simp [List.find?_cons, hp]⟩
    · have hk : k ∈ m.map Prod.fst := by
        rcases List.mem_map.1 h with ⟨q, hq, rfl⟩
        rcases List.mem_cons.1 hq with rfl | hq
        · exact absurd rfl hp
        · exact List.mem_map.2 ⟨q, hq, rfl⟩
      obtain ⟨e, he⟩ := ih hk
      refine ⟨e, ?_⟩
      have hb : (p.1 == k) = false := by simpa using hp
      simpa [List.find?_cons, hb, MapFind] using he

/-! ## Lemmas on `toInt32` -/

theorem toInt32_eq_self (z : Int) (h0 : -2147483648 ≤ z) (h1 : z ≤ 2147483647) :
    toInt32 z = z := by
  unfold toInt32
  simp only
  split_ifs <;> omega

theorem toInt32_lower (z : Int) : -2147483648 ≤ toInt32 z := by
  unfold toInt32
  simp only
  split_ifs <;> omega

theorem toInt32_upper (z : Int) : toInt32 z ≤ 2147483647 := by
  unfold toInt32
  simp only
  split_ifs <;> omega

theorem toInt32_idem (z : Int) : toInt32 (toInt32 z) = toInt32 z :=
  toInt32_eq_self _ (toInt32_lower z) (toInt32_upper z)

/-- An `int32` sum depends on its first summand only modulo `2^32`. -/
theorem toInt32_add_left (a b : Int) : toInt32 (toInt32 a + b) = toInt32 (a + b) := by
  unfold toInt32
  simp only
  split_ifs <;> omega

theorem toInt32_add_right (a b : Int) : toInt32 (a + toInt32 b) = toInt32 (a + b) := by
  rw [add_comm, toInt32_add_left, add_comm]

/-- Wrapping around never increases a value that is not below `-2^31`. -/
theorem toInt32_le_self (z : Int) (h : -2147483648 ≤ z) : toInt32 z ≤ z := by
  unfold toInt32
  simp only
  split_ifs <;> omega

/-! ## Lemmas on the first loop of `CleanPDBCache` -/

theorem mem_MarkOutdated (fs : FFileSystem) (D : Int) (m : List (String × FPDBCacheEntry))
    (st : List String × Int) (x : String) :
    x ∈ (CleanPDBCache_MarkOutdated fs D m st).1 ↔
      x ∈ st.1 ∨ ∃ p ∈ m, p.2.Label = x ∧ D < fs.GetFileAgeSeconds p.2.Label := by
  induction m generalizing st with
  | nil => simp [CleanPDBCache_MarkOutdated]
  | cons p m ih =>
    obtain ⟨s, n⟩ := st
    simp only [CleanPDBCache_MarkOutdated]
    by_cases h : fs.GetFileAgeSeconds p.2.Label > D
    · rw [if_pos h, ih, mem_SetAdd]
      constructor
      · rintro ((hx | rfl) | ⟨q, hq, hl, ha⟩)
        · exact Or.inl hx
        · exact Or.inr ⟨p, List.mem_cons_self _ _, rfl, h⟩
        · exact Or.inr ⟨q, List.mem_cons_of_mem _ hq, hl, ha⟩
      · rintro (hx | ⟨q, hq, hl, ha⟩)
        · exact Or.inl (Or.inl hx)
        · rcases List.mem_cons.1 hq with rfl | hq
          · exact Or.inl (Or.inr hl.symm)
          · exact Or.inr ⟨q, hq, hl, ha⟩
    · rw [if_neg h, ih]
      constructor
      · rintro (hx | ⟨q, hq, hl, ha⟩)
        · exact Or.inl hx
        · exact Or.inr ⟨q, List.mem_cons_of_mem _ hq, hl, ha⟩
      · rintro (hx | ⟨q, hq, hl, ha⟩)
        · exact Or.inl hx
        · rcases List.mem_cons.1 hq with rfl | hq
          · exact absurd ha h
          · exact Or.inr ⟨q, hq, hl, ha⟩

theorem nodup_MarkOutdated (fs : FFileSystem) (D : Int) (m : List (String × FPDBCacheEntry))
    (st : List String × Int) (hs : st.1.Nodup) :
    (CleanPDBCache_MarkOutdated fs D m st).1.Nodup := by
  induction m generalizing st with
  | nil => simpa [CleanPDBCache_MarkOutdated] using hs
  | cons p m ih =>
    obtain ⟨s, n⟩ := st
    simp only [CleanPDBCache_MarkOutdated]
    by_cases h : fs.GetFileAgeSeconds p.2.Label > D
    · rw [if_pos h]
      exact ih _ (nodup_SetAdd s _ hs)
    · rw [if_neg h]
      exact ih _ hs

/-- The first loop leaves in `NumGBsCleaned` the `int32` sum of the sizes of
the outdated entries. -/
theorem snd_MarkOutdated (fs : FFileSystem) (D : Int) (m : List (String × FPDBCacheEntry))
    (st : List String × Int) (hst : toInt32 st.2 = st.2) :
    (CleanPDBCache_MarkOutdated fs D m st).2 =
      toInt32 (st.2 + ((m.filter (fun p => decide (D < fs.GetFileAgeSeconds p.2.Label))).map
        (fun p => p.2.SizeGB)).sum) := by
  induction m generalizing st with
  | nil => simp [CleanPDBCache_MarkOutdated, hst]
  | cons p m ih =>
    obtain ⟨s, n⟩ := st
    simp only [CleanPDBCache_MarkOutdated]
    by_cases h : fs.GetFileAgeSeconds p.2.Label > D
    · have h2 : D < fs.GetFileAgeSeconds p.2.Label := h
      rw [if_pos h, ih _ (toInt32_idem _), toInt32_add_left]
      simp [List.filter_cons, h2, add_assoc]
    · have h2 : ¬ D < fs.GetFileAgeSeconds p.2.Label := h
      rw [if_neg h, ih _ hst]
      simp [List.filter_cons, h2]

/-! ## Lemmas on the second loop of `CleanPDBCache` -/

theorem mem_SecondPass_of_mem (T : Int) (m : List (String × FPDBCacheEntry))
    (st : List String × Int) (x : String) (hx : x ∈ st.1) :
    x ∈ (CleanPDBCache_SecondPass T m st).1 := by
  induction m generalizing st with
  | nil => simpa [CleanPDBCache_SecondPass] using hx
  | cons p m ih =>
    obtain ⟨s, n⟩ := st
    simp only [CleanPDBCache_SecondPass]
    split_ifs
    · exact (mem_SetAdd s _ x).2 (Or.inl hx)
    · exact ih _ ((mem_SetAdd s _ x).2 (Or.inl hx))
    · exact ih _ hx

theorem mem_SecondPass_origin (T : Int) (m : List (String × FPDBCacheEntry))
    (st : List String × Int) (x : String) (hx : x ∈ (CleanPDBCache_SecondPass T m st).1) :
    x ∈ st.1 ∨ ∃ p ∈ m, p.2.Label = x := by
  induction m generalizing st with
  | nil => exact Or.inl (by simpa [CleanPDBCache_SecondPass] using hx)
  | cons p m ih =>
    obtain ⟨s, n⟩ := st
    simp only [CleanPDBCache_SecondPass] at hx
    split_ifs at hx
    · rcases (mem_SetAdd s _ x).1 hx with h | h
      · exact Or.inl h
      · exact Or.inr ⟨p, List.mem_cons_self _ _, h.symm⟩
    · rcases ih _ hx with h | ⟨q, hq, hl⟩
      · rcases (mem_SetAdd s _ x).1 h with h | h
        · exact Or.inl h
        · exact Or.inr ⟨p, List.mem_cons_self _ _, h.symm⟩
      · exact Or.inr ⟨q, List.mem_cons_of_mem _ hq, hl⟩
    · rcases ih _ hx with h | ⟨q, hq, hl⟩
      · exact Or.inl h
      · exact Or.inr ⟨q, List.mem_cons_of_mem _ hq, hl⟩

theorem nodup_SecondPass (T : Int) (m : List (String × FPDBCacheEntry))
    (st : List String × Int) (hs : st.1.Nodup) :
    (CleanPDBCache_SecondPass T m st).1.Nodup := by
  induction m generalizing st with
  | nil => simpa [CleanPDBCache_SecondPass] using hs
  | cons p m ih =>
    obtain ⟨s, n⟩ := st
    simp only [CleanPDBCache_SecondPass]
    split_ifs
    · exact nodup_SetAdd s _ hs
    · exact ih _ (nodup_SetAdd s _ hs)
    · exact ih _ hs

/-- The second loop ends above the target or with every entry marked. -/
theorem SecondPass_outcome (T : Int) (m : List (String × FPDBCacheEntry))
    (st : List String × Int) :
    T < (CleanPDBCache_SecondPass T m st).2 ∨
      ∀ p ∈ m, p.2.Label ∈ (CleanPDBCache_SecondPass T m st).1 := by
  induction m generalizing st with
  | nil => exact Or.inr (by simp)
  | cons p m ih =>
    obtain ⟨s, n⟩ := st
    simp only [CleanPDBCache_SecondPass]
    split_ifs with h1 h2
    · exact Or.inl h2
    · rcases ih (SetAdd s p.2.Label, toInt32 (n + p.2.SizeGB)) with h | h
      · exact Or.inl h
      · refine Or.inr ?_
        intro q hq
        rcases List.mem_cons.1 hq with rfl | hq
        · exact mem_SecondPass_of_mem T m _ _ ((mem_SetAdd s _ _).2 (Or.inr rfl))
        · exact h q hq
    · rcases ih (s, n) with h | h
      · exact Or.inl h
      · refine Or.inr ?_
        intro q hq
        rcases List.mem_cons.1 hq with rfl | hq
        · have : q.2.Label ∈ s := by simpa using h1
          exact mem_SecondPass_of_mem T m _ _ this
        · exact h q hq

/-- An entry the second loop marks is reached only after all entries before it
have been marked. -/
theorem SecondPass_marks_in_order (T : Int) (l1 l2 : List (String × FPDBCacheEntry))
    (p : String × FPDBCacheEntry) (st : List String × Int)
    (hne : ∀ q ∈ l1, q.2.Label ≠ p.2.Label) (hp : p.2.Label ∉ st.1)
    (hm : p.2.Label ∈ (CleanPDBCache_SecondPass T (l1 ++ p :: l2) st).1) :
    ∀ q ∈ l1, q.2.Label ∈ (CleanPDBCache_SecondPass T (l1 ++ p :: l2) st).1 := by
  induction l1 generalizing st with
  | nil => simp
  | cons a l1 ih =>
    obtain ⟨s, n⟩ := st
    have hap : a.2.Label ≠ p.2.Label := hne a (List.mem_cons_self _ _)
    have hne2 : ∀ q ∈ l1, q.2.Label ≠ p.2.Label := fun q hq => hne q (List.mem_cons_of_mem _ hq)
    simp only [List.cons_append, CleanPDBCache_SecondPass] at hm ⊢
    split_ifs at hm ⊢ with h1 h2
    · rcases (mem_SetAdd s _ _).1 hm with h | h
      · exact absurd h hp
      · exact absurd h.symm hap
    · have hp2 : p.2.Label ∉ (SetAdd s a.2.Label, toInt32 (n + a.2.SizeGB)).1 := by
        intro h
        rcases (mem_SetAdd s _ _).1 h with h | h
        · exact hp h
        · exact hap h.symm
      intro q hq
      rcases List.mem_cons.1 hq with rfl | hq
      · exact mem_SecondPass_of_mem T _ _ _ ((mem_SetAdd s _ _).2 (Or.inr rfl))
      · exact ih _ hne2 hp2 hm q hq
    · intro q hq
      rcases List.mem_cons.1 hq with rfl | hq
      · have : q.2.Label ∈ s := by simpa using h1
        exact mem_SecondPass_of_mem T _ _ _ this
      · exact ih _ hne2 hp hm q hq

/-- The second loop adds to `NumGBsCleaned`, as `int32` sum, exactly the sizes
of the entries it marks. -/
theorem snd_SecondPass (T : Int) (m : List (String × FPDBCacheEntry))
    (st : List String × Int) (hnd : (m.map (fun p => p.2.Label)).Nodup)
    (hst : toInt32 st.2 = st.2) :
    (CleanPDBCache_SecondPass T m st).2 =
      toInt32 (st.2 + ((m.filter (fun p =>
          decide (p.2.Label ∈ (CleanPDBCache_SecondPass T m st).1) &&
            !decide (p.2.Label ∈ st.1))).map (fun p => p.2.SizeGB)).sum) := by
  induction m generalizing st with
  | nil => simp [CleanPDBCache_SecondPass, hst]
  | cons a m ih =>
    obtain ⟨s, n⟩ := st
    have hnd2 : (m.map (fun p => p.2.Label)).Nodup := (List.nodup_cons.1 hnd).2
    have hfresh : ∀ q ∈ m, q.2.Label ≠ a.2.Label := by
      intro q hq h
      exact (List.nodup_cons.1 hnd).1 (List.mem_map.2 ⟨q, hq, h⟩)
    simp only [CleanPDBCache_SecondPass]
    split_ifs with h1 h2
    · have ha : a.2.Label ∉ s := by simpa using h1
      have hrest : m.filter (fun p =>
          decide (p.2.Label ∈ SetAdd s a.2.Label) && !decide (p.2.Label ∈ s)) = [] := by
        rw [List.filter_eq_nil_iff]
        intro q hq
        have := hfresh q hq
        simp only [mem_SetAdd, Bool.and_eq_true, decide_eq_true_eq, Bool.not_eq_true',
          decide_eq_false_iff_not, not_and, not_not]
        rintro (h | h)
        · exact h
        · exact absurd h this
      have hin : a.2.Label ∈ SetAdd s a.2.Label := (mem_SetAdd s _ _).2 (Or.inr rfl)
      rw [List.filter_cons, hrest]
      simp [hin, ha]
    · have ha : a.2.Label ∉ s := by simpa using h1
      rw [ih _ hnd2 (toInt32_idem _)]
      have hin : a.2.Label ∈
          (CleanPDBCache_SecondPass T m (SetAdd s a.2.Label, toInt32 (n + a.2.SizeGB))).1 :=
        mem_SecondPass_of_mem T m _ _ ((mem_SetAdd s _ _).2 (Or.inr rfl))
      have hcongr : m.filter (fun p =>
          decide (p.2.Label ∈
              (CleanPDBCache_SecondPass T m
                (SetAdd s a.2.Label, toInt32 (n + a.2.SizeGB))).1) &&
            !decide (p.2.Label ∈ (SetAdd s a.2.Label, toInt32 (n + a.2.SizeGB)).1)) =
          m.filter (fun p =>
          decide (p.2.Label ∈
              (CleanPDBCache_SecondPass T m
                (SetAdd s a.2.Label, toInt32 (n + a.2.SizeGB))).1) &&
            !decide (p.2.Label ∈ s)) := by
        apply List.filter_congr
        intro q hq
        have := hfresh q hq
        simp [mem_SetAdd, this]
      rw [hcongr, toInt32_add_left]
      simp [List.filter_cons, hin, ha, add_assoc]
    · have ha : a.2.Label ∈ s := by simpa using h1
      rw [ih _ hnd2 hst]
      simp [List.filter_cons, ha]

/-! ## Lemmas on the removal loop of `CleanPDBCache` -/

theorem RemoveMarked_eq (ls : List String) (c : FPDBCache) (fs : FFileSystem)
    (hkeys : ∀ x ∈ ls, x ∈ c.PDBCacheEntries.map Prod.fst) (hnd : ls.Nodup) :
    CleanPDBCache_RemoveMarked ls (c, fs) =
      some ({ c with
          PDBCacheEntries := c.PDBCacheEntries.filter (fun p => !decide (p.1 ∈ ls)) },
        ls.foldl FFileSystem.DeleteDirectory fs) := by
  induction ls generalizing c fs with
  | nil => simp [CleanPDBCache_RemoveMarked]
  | cons x ls ih =>
    obtain ⟨e, he⟩ := MapFind_isSome_of_mem_keys c.PDBCacheEntries x
      (hkeys x (List.mem_cons_self _ _))
    have hx : x ∉ ls := (List.nodup_cons.1 hnd).1
    simp only [CleanPDBCache_RemoveMarked, RemovePDBCacheEntry, he]
    rw [ih]
    · simp only [MapRemove, List.filter_filter, List.foldl_cons]
      congr 2
      congr 1
      apply List.filter_congr
      intro q _
      by_cases h1 : q.1 = x <;> by_cases h2 : q.1 ∈ ls <;> simp [h1, h2]
    · intro y hy
      have hyx : y ≠ x := fun h => hx (h ▸ hy)
      rcases List.mem_map.1 (hkeys y (List.mem_cons_of_mem _ hy)) with ⟨q, hq, rfl⟩
      refine List.mem_map.2 ⟨q, ?_, rfl⟩
      simp only [MapRemove, List.mem_filter]
      exact ⟨hq, by simpa using hyx⟩
    · exact (List.nodup_cons.1 hnd).2

/-! ## `CleanPDBCache` as a filter of the entry map -/

theorem Marked_nodup (c : FPDBCache) (fs : FFileSystem) (D T : Int) :
    (CleanPDBCache_Marked c fs D T).1.Nodup := by
  unfold CleanPDBCache_Marked
  have h1 := nodup_MarkOutdated fs (TimespanDaysTotalSeconds D) c.PDBCacheEntries ([], 0)
    List.nodup_nil
  simp only
  split_ifs
  · exact nodup_SecondPass T _ _ h1
  · exact h1

theorem Marked_is_label (c : FPDBCache) (fs : FFileSystem) (D T : Int) (x : String)
    (hx : x ∈ (CleanPDBCache_Marked c fs D T).1) : ∃ p ∈ c.PDBCacheEntries, p.2.Label = x := by
  unfold CleanPDBCache_Marked at hx
  simp only at hx
  have hout : ∀ y, y ∈ (CleanPDBCache_MarkOutdated fs (TimespanDaysTotalSeconds D)
      c.PDBCacheEntries ([], 0)).1 → ∃ p ∈ c.PDBCacheEntries, p.2.Label = y := by
    intro y hy
    rcases (mem_MarkOutdated fs _ _ _ y).1 hy with h | ⟨q, hq, hl, _⟩
    · simp at h
    · exact ⟨q, hq, hl⟩
  split_ifs at hx
  · rcases mem_SecondPass_origin T _ _ x hx with h | h
    · exact hout x h
    · exact h
  · exact hout x hx

/-- An outdated entry is marked, whatever the space target. -/
theorem Marked_of_outdated (c : FPDBCache) (fs : FFileSystem) (D T : Int)
    (p : String × FPDBCacheEntry) (hp : p ∈ c.PDBCacheEntries)
    (hage : TimespanDaysTotalSeconds D < fs.GetFileAgeSeconds p.2.Label) :
    p.2.Label ∈ (CleanPDBCache_Marked c fs D T).1 := by
  have h1 : p.2.Label ∈ (CleanPDBCache_MarkOutdated fs (TimespanDaysTotalSeconds D)
      c.PDBCacheEntries ([], 0)).1 :=
    (mem_MarkOutdated fs _ _ _ _).2 (Or.inr ⟨p, hp, rfl, hage⟩)
  unfold CleanPDBCache_Marked
  simp only
  split_ifs
  · exact mem_SecondPass_of_mem T _ _ _ h1
  · exact h1

/-- When the second loop is not entered only outdated entries are marked. -/
theorem Marked_outdated_of_no_second_pass (c : FPDBCache) (fs : FFileSystem) (D T : Int)
    (hT : ¬ (T > 0 ∧ (CleanPDBCache_MarkOutdated fs (TimespanDaysTotalSeconds D)
      c.PDBCacheEntries ([], 0)).2 < T))
    (x : String) (hx : x ∈ (CleanPDBCache_Marked c fs D T).1) :
    TimespanDaysTotalSeconds D < fs.GetFileAgeSeconds x := by
  unfold CleanPDBCache_Marked at hx
  simp only at hx
  rw [if_neg hT] at hx
  rcases (mem_MarkOutdated fs _ _ _ x).1 hx with h | ⟨q, _, hl, ha⟩
  · simp at h
  · exact hl ▸ ha

theorem CleanPDBCache_eq (c : FPDBCache) (fs : FFileSystem) (D T : Int)
    (hwf : WellFormed c.PDBCacheEntries) :
    CleanPDBCache c fs D T =
      some ({ c with
          PDBCacheEntries := c.PDBCacheEntries.filter
            (fun p => !decide (p.1 ∈ (CleanPDBCache_Marked c fs D T).1)) },
        (CleanPDBCache_Marked c fs D T).1.foldl FFileSystem.DeleteDirectory fs) := by
  unfold CleanPDBCache
  apply RemoveMarked_eq
  · intro x hx
    obtain ⟨q, hq, hl⟩ := Marked_is_label c fs D T x hx
    exact List.mem_map.2 ⟨q, hq, (hwf.2 q hq).trans hl⟩
  · exact Marked_nodup c fs D T

theorem WellFormed_filter (m : List (String × FPDBCacheEntry)) (f : String × FPDBCacheEntry → Bool)
    (hwf : WellFormed m) : WellFormed (m.filter f) := by
  refine ⟨?_, fun p hp => hwf.2 p (List.mem_of_mem_filter hp)⟩
  exact (hwf.1.sublist ((List.filter_sublist m).map Prod.fst))

theorem Directories_foldl_DeleteDirectory (ls : List String) (fs : FFileSystem) :
    (ls.foldl FFileSystem.DeleteDirectory fs).Directories =
      fs.Directories.filter (fun d => !decide (d.Name ∈ ls)) := by
  induction ls generalizing fs with
  | nil => simp
  | cons x ls ih =>
    rw [List.foldl_cons, ih]
    simp only [FFileSystem.DeleteDirectory, List.filter_filter]
    apply List.filter_congr
    intro d _
    by_cases h1 : d.Name = x <;> by_cases h2 : d.Name ∈ ls <;> simp [h1, h2]

theorem MapFind_of_mem (m : List (String × FPDBCacheEntry)) (hnd : (m.map Prod.fst).Nodup)
    (p : String × FPDBCacheEntry) (hp : p ∈ m) : MapFind m p.1 = some p.2 := by
  induction m with
  | nil => simp at hp
  | cons a m ih =>
    have hnd2 := List.nodup_cons.1 hnd
    rcases List.mem_cons.1 hp with rfl | hp
    · simp [MapFind, List.find?_cons]
    · have hne : a.1 ≠ p.1 := by
        intro h
        exact hnd2.1 (List.mem_map.2 ⟨p, hp, h.symm⟩)
      have hb : (a.1 == p.1) = false := by simpa using hne
      have := ih hnd2.2 hp
      simpa [MapFind, List.find?_cons, hb] using this

theorem MapFind_eq_none (m : List (String × FPDBCacheEntry)) (k : String)
    (hk : k ∉ m.map Prod.fst) : MapFind m k = none := by
  unfold MapFind
  rw [Option.map_eq_none', List.find?_eq_none]
  intro q hq
  have : q.1 ≠ k := fun h => hk (List.mem_map.2 ⟨q, hq, h⟩)
  simpa using this

theorem not_mem_keys_filter (m : List (String × FPDBCacheEntry)) (ls : List String)
    (k : String) (hk : k ∈ ls) :
    k ∉ (m.filter (fun p => !decide (p.1 ∈ ls))).map Prod.fst := by
  intro h
  rcases List.mem_map.1 h with ⟨q, hq, rfl⟩
  have := (List.mem_filter.1 hq).2
  simp [hk] at this

theorem mem_filter_of_not_marked (m : List (String × FPDBCacheEntry)) (ls : List String)
    (p : String × FPDBCacheEntry) (hp : p ∈ m) (hk : p.1 ∉ ls) :
    p ∈ m.filter (fun q => !decide (q.1 ∈ ls)) := by
  rw [List.mem_filter]
  exact ⟨hp, by simp [hk]⟩

theorem Marked_snd_aux (m : List (String × FPDBCacheEntry)) (fs : FFileSystem) (S T : Int)
    (st1 : List String × Int) (hlab : (m.map (fun p => p.2.Label)).Nodup)
    (h1 : st1.2 = toInt32 ((m.filter (fun p => decide (S < fs.GetFileAgeSeconds p.2.Label))).map
      (fun p => p.2.SizeGB)).sum)
    (hmem : ∀ x, x ∈ st1.1 ↔ ∃ p ∈ m, p.2.Label = x ∧ S < fs.GetFileAgeSeconds p.2.Label) :
    (if T > 0 ∧ st1.2 < T then CleanPDBCache_SecondPass T m st1 else st1).2 =
      toInt32 ((m.filter (fun p => decide (p.2.Label ∈
        (if T > 0 ∧ st1.2 < T then CleanPDBCache_SecondPass T m st1 else st1).1))).map
          (fun p => p.2.SizeGB)).sum := by
  have hst : toInt32 st1.2 = st1.2 := by rw [h1, toInt32_idem]
  have hout : ∀ ls : List String, (∀ x, x ∈ st1.1 → x ∈ ls) →
      m.filter (fun p => decide (p.2.Label ∈ ls) && decide (p.2.Label ∈ st1.1)) =
      m.filter (fun p => decide (S < fs.GetFileAgeSeconds p.2.Label)) := by
    intro ls hsub
    apply List.filter_congr
    intro q hq
    by_cases ha : S < fs.GetFileAgeSeconds q.2.Label
    · have h2 : q.2.Label ∈ st1.1 := (hmem q.2.Label).2 ⟨q, hq, rfl, ha⟩
      simp [ha, h2, hsub _ h2]
    · have h2 : q.2.Label ∉ st1.1 := by
        intro h
        obtain ⟨r, _, hl, hr⟩ := (hmem q.2.Label).1 h
        exact ha (hl ▸ hr)
      simp [ha, h2]
  split_ifs with hT
  · rw [snd_SecondPass T _ st1 hlab hst, h1, toInt32_add_left]
    have hs := sum_filter_split (fun p : String × FPDBCacheEntry => p.2.SizeGB)
      (fun p => decide (p.2.Label ∈ (CleanPDBCache_SecondPass T m st1).1))
      (fun p => decide (p.2.Label ∈ st1.1)) m
    rw [hs, hout _ (fun x hx => mem_SecondPass_of_mem T _ _ x hx)]
  · rw [h1]
    have h3 := hout st1.1 (fun x hx => hx)
    simp only [Bool.and_self] at h3
    rw [h3]

/-- The final `NumGBsCleaned` is the total size of the entries whose label is
marked, as an `int32` sum. -/
theorem Marked_snd_eq (c : FPDBCache) (fs : FFileSystem) (D T : Int)
    (hwf : WellFormed c.PDBCacheEntries) :
    (CleanPDBCache_Marked c fs D T).2 =
      toInt32 (TotalSizeGB (c.PDBCacheEntries.filter
        (fun p => decide (p.2.Label ∈ (CleanPDBCache_Marked c fs D T).1)))) := by
  have hlab : (c.PDBCacheEntries.map (fun p => p.2.Label)).Nodup := by
    have : c.PDBCacheEntries.map (fun p => p.2.Label) = c.PDBCacheEntries.map Prod.fst :=
      List.map_congr_left (fun q hq => (hwf.2 q hq).symm)
    rw [this]
    exact hwf.1
  unfold CleanPDBCache_Marked TotalSizeGB
  apply Marked_snd_aux _ fs (TimespanDaysTotalSeconds D) T _ hlab
  · rw [snd_MarkOutdated _ _ _ _ (by decide)]
    simp
  · intro x
    rw [mem_MarkOutdated]
    simp

/-- The removed entries are the entries with a marked label. -/
theorem RemovedEntries_eq (c : FPDBCache) (fs : FFileSystem) (D T : Int)
    (hwf : WellFormed c.PDBCacheEntries) (c2 : FPDBCache) (fs2 : FFileSystem)
    (h : CleanPDBCache c fs D T = some (c2, fs2)) :
    RemovedEntries c c2 = c.PDBCacheEntries.filter
      (fun p => decide (p.2.Label ∈ (CleanPDBCache_Marked c fs D T).1)) := by
  rw [CleanPDBCache_eq c fs D T hwf] at h
  have hc : c2.PDBCacheEntries = c.PDBCacheEntries.filter
      (fun p => !decide (p.1 ∈ (CleanPDBCache_Marked c fs D T).1)) := by
    have := congrArg (fun r => r.map (fun x => x.1.PDBCacheEntries)) h
    simpa using this.symm
  unfold RemovedEntries Keys
  apply List.filter_congr
  intro q hq
  rw [hc, ← hwf.2 q hq]
  by_cases hm : q.1 ∈ (CleanPDBCache_Marked c fs D T).1
  · have := not_mem_keys_filter c.PDBCacheEntries _ q.1 hm
    simp [hm, this]
  · have hk : q.1 ∈ (c.PDBCacheEntries.filter
        (fun p => !decide (p.1 ∈ (CleanPDBCache_Marked c fs D T).1))).map Prod.fst :=
      List.mem_map.2 ⟨q, mem_filter_of_not_marked c.PDBCacheEntries _ q hq hm, rfl⟩
    simp [hm, hk]

/-! ## Lemmas on `SortPDBCache`, `MapAdd` and `TouchPDBCacheEntry` -/

theorem WellFormed_of_perm (m1 m2 : List (String × FPDBCacheEntry)) (hp : m1.Perm m2)
    (hwf : WellFormed m2) : WellFormed m1 := by
  refine ⟨?_, fun p hp1 => hwf.2 p (hp.mem_iff.1 hp1)⟩
  exact ((hp.map Prod.fst).nodup_iff).2 hwf.1

theorem WellFormed_SortPDBCache (c : FPDBCache) (hwf : WellFormed c.PDBCacheEntries) :
    WellFormed (SortPDBCache c).PDBCacheEntries :=
  WellFormed_of_perm _ _ (List.perm_insertionSort _ _) hwf

theorem Keys_SortPDBCache_mem (c : FPDBCache) (k : String) :
    k ∈ Keys (SortPDBCache c) ↔ k ∈ Keys c := by
  unfold Keys SortPDBCache
  exact ((List.perm_insertionSort _ _).map Prod.fst).mem_iff

theorem Label_of_MapFind (m : List (String × FPDBCacheEntry)) (hwf : WellFormed m) (k : String)
    (e : FPDBCacheEntry) (h : MapFind m k = some e) : e.Label = k := by
  unfold MapFind at h
  rcases Option.map_eq_some'.1 h with ⟨q, hq, rfl⟩
  have hmem := List.mem_of_find?_eq_some hq
  have hkey : q.1 = k := by simpa using List.find?_some hq
  rw [← hwf.2 q hmem, hkey]

theorem WellFormed_touch (m : List (String × FPDBCacheEntry)) (hwf : WellFormed m) (k : String)
    (e : FPDBCacheEntry) (he : e.Label = k) :
    WellFormed (m.map (fun p => if p.1 == k then (p.1, e) else p)) := by
  constructor
  · have : (m.map (fun p => if p.1 == k then (p.1, e) else p)).map Prod.fst =
        m.map Prod.fst := by
      rw [List.map_map]
      apply List.map_congr_left
      intro q _
      by_cases h : q.1 = k <;> simp [h]
    rw [this]
    exact hwf.1
  · intro p hp
    rcases List.mem_map.1 hp with ⟨q, hq, rfl⟩
    by_cases h : q.1 = k
    · simp [h, he]
    · simpa [h] using hwf.2 q hq

theorem GetFileAgeSeconds_SetTimeStamp_now (fs : FFileSystem) (k : String) :
    (fs.SetTimeStamp k fs.Now).GetFileAgeSeconds k ≤ 0 := by
  unfold FFileSystem.GetFileAgeSeconds FFileSystem.FindDirectory FFileSystem.SetTimeStamp
  simp only
  generalize fs.Directories = ds
  induction ds with
  | nil => simp
  | cons d ds ih =>
    by_cases hd : d.Name = k
    · cases hts : d.TimeStamp <;> simp [List.find?_cons, hd, hts]
    · simpa [List.find?_cons, hd] using ih

/-- For a label in the cache `TouchPDBCacheEntry` returns; the map keeps its
keys and stays well formed, and the marker file is stamped with the current
time. -/
theorem TouchPDBCacheEntry_eq (CleanLabelName : String → String) (c : FPDBCache)
    (fs : FFileSystem) (InLabel : String) (hwf : WellFormed c.PDBCacheEntries)
    (hin : CleanLabelName InLabel ∈ Keys c) :
    ∃ c1 fs1, TouchPDBCacheEntry CleanLabelName c fs InLabel = some (c1, fs1) ∧
      WellFormed c1.PDBCacheEntries ∧ (∀ k, k ∈ Keys c1 ↔ k ∈ Keys c) ∧
      fs1 = fs.SetTimeStamp (CleanLabelName InLabel) fs.Now := by
  obtain ⟨e, he⟩ := MapFind_isSome_of_mem_keys c.PDBCacheEntries _ hin
  have hlabel : e.Label = CleanLabelName InLabel := Label_of_MapFind _ hwf _ _ he
  refine ⟨_, _, by simp only [TouchPDBCacheEntry, he]; rfl, ?_, ?_, rfl⟩
  · exact WellFormed_SortPDBCache _
      (WellFormed_touch c.PDBCacheEntries hwf (CleanLabelName InLabel) _ hlabel)
  · intro k
    rw [Keys_SortPDBCache_mem]
    unfold Keys
    simp only [List.map_map]
    have : c.PDBCacheEntries.map (Prod.fst ∘ fun p =>
        if p.1 == CleanLabelName InLabel
          then (p.1, SetLastAccessTimeToNow e fs) else p) =
        c.PDBCacheEntries.map Prod.fst := by
      apply List.map_congr_left
      intro q _
      by_cases h : q.1 = CleanLabelName InLabel <;> simp [h]
    rw [this]

/-! ## Lemmas on `Init` -/

theorem WellFormed_MapAdd (m : List (String × FPDBCacheEntry)) (hwf : WellFormed m)
    (k : String) (e : FPDBCacheEntry) (he : e.Label = k) : WellFormed (MapAdd m k e) := by
  unfold MapAdd
  split_ifs with h
  · constructor
    · have : (m.map (fun p => if p.1 == k then (k, e) else p)).map Prod.fst =
          m.map Prod.fst := by
        rw [List.map_map]
        apply List.map_congr_left
        intro q _
        by_cases hq : q.1 = k <;> simp [hq]
      rw [this]
      exact hwf.1
    · intro p hp
      rcases List.mem_map.1 hp with ⟨q, hq, rfl⟩
      by_cases hqk : q.1 = k
      · simp [hqk, he]
      · simpa [hqk] using hwf.2 q hq
  · constructor
    · rw [List.map_append, List.nodup_append]
      refine ⟨hwf.1, by simp, ?_⟩
      intro a ha hb
      have hak : a = k := by simpa using hb
      rcases List.mem_map.1 ha with ⟨q, hq, hqa⟩
      apply h
      rw [List.any_eq_true]
      exact ⟨q, hq, by simp [hqa, hak]⟩
    · intro p hp
      rcases List.mem_append.1 hp with hp | hp
      · exact hwf.2 p hp
      · have : p = (k, e) := by simpa using hp
        rw [this]
        exact he.symm

theorem WellFormed_InitializePDBCache (c : FPDBCache) (fs : FFileSystem)
    (hwf : WellFormed c.PDBCacheEntries) :
    WellFormed (InitializePDBCache c fs).PDBCacheEntries := by
  unfold InitializePDBCache
  apply WellFormed_SortPDBCache
  simp only
  generalize fs.FindDirectories = dirs
  generalize c.PDBCacheEntries = m at hwf
  induction dirs generalizing m with
  | nil => exact hwf
  | cons d dirs ih =>
    rw [List.foldl_cons]
    exact ih _ (WellFormed_MapAdd m hwf d _ rfl)

/-- On a well-formed map `CleanPDBCache` returns; it changes the entry map
only and leaves it well formed. -/
theorem CleanPDBCache_returns (c : FPDBCache) (fs : FFileSystem) (D T : Int)
    (hwf : WellFormed c.PDBCacheEntries) :
    ∃ c2 fs2, CleanPDBCache c fs D T = some (c2, fs2) ∧ WellFormed c2.PDBCacheEntries ∧
      c2.bUsePDBCache = c.bUsePDBCache ∧ c2.MinDiskFreeSpaceGB = c.MinDiskFreeSpaceGB ∧
      c2.DaysToDeleteUnusedFilesFromPDBCache = c.DaysToDeleteUnusedFilesFromPDBCache ∧
      c2.PDBCacheSizeGB = c.PDBCacheSizeGB :=
  ⟨_, _, CleanPDBCache_eq c fs D T hwf, WellFormed_filter _ _ hwf, rfl, rfl, rfl, rfl⟩

theorem Init_ReadUsage_enabled (self : FPDBCache) (cfg : FConfig)
    (huse : cfg.bUsePDBCache.getD self.bUsePDBCache = true) (Path : String)
    (hpath : cfg.PDBCachePath = some Path) :
    (Init_ReadUsage self cfg).bUsePDBCache = true ∧
      (Init_ReadUsage self cfg).PDBCacheEntries = self.PDBCacheEntries := by
  unfold Init_ReadUsage
  simp [huse, hpath]

theorem Init_ReadUsage_entries (self : FPDBCache) (cfg : FConfig) :
    (Init_ReadUsage self cfg).PDBCacheEntries = self.PDBCacheEntries := by
  unfold Init_ReadUsage
  simp only
  split_ifs
  · cases cfg.PDBCachePath <;> rfl
  · rfl

/-- `Init` on an enabled cache, from the state after the age-based cleanup. -/
theorem Init_of_enabled (self : FPDBCache) (cfg : FConfig) (fs : FFileSystem)
    (huse : (Init_ReadUsage self cfg).bUsePDBCache = true) (c1 : FPDBCache) (fs1 : FFileSystem)
    (h1 : Init_AfterAgeCleanup self cfg fs = some (c1, fs1)) :
    Init self cfg fs =
      if DiskFreeSpaceGB fs1 < c1.MinDiskFreeSpaceGB then
        if toInt32 (DiskFreeSpaceGB fs1 + toInt32 (GetPDBCacheSizeGB c1)) <
            c1.MinDiskFreeSpaceGB then
          CleanPDBCache { c1 with bUsePDBCache := false } fs1 0 0
        else
          CleanPDBCache c1 fs1 c1.DaysToDeleteUnusedFilesFromPDBCache
            (toInt32 (c1.MinDiskFreeSpaceGB - DiskFreeSpaceGB fs1))
      else some (c1, fs1) := by
  unfold Init_AfterAgeCleanup at h1
  unfold Init
  simp only [huse, if_true]
  rw [h1]
  rfl

theorem Init_eq_VerifyFreeSpace (self : FPDBCache) (cfg : FConfig) (fs : FFileSystem)
    (huse : (Init_ReadUsage self cfg).bUsePDBCache = true) (c1 : FPDBCache) (fs1 : FFileSystem)
    (h1 : Init_AfterAgeCleanup self cfg fs = some (c1, fs1)) :
    Init self cfg fs = Init_VerifyFreeSpace c1 fs1 := by
  unfold Init_AfterAgeCleanup at h1
  unfold Init
  simp only [huse, if_true]
  rw [h1]

/-- The age-based cleanup of `Init` returns on an enabled cache. -/
theorem Init_AfterAgeCleanup_returns (self : FPDBCache) (cfg : FConfig) (fs : FFileSystem)
    (hwf : WellFormed self.PDBCacheEntries)
    (huse : (Init_ReadUsage self cfg).bUsePDBCache = true) :
    ∃ c1 fs1, Init_AfterAgeCleanup self cfg fs = some (c1, fs1) ∧
      WellFormed c1.PDBCacheEntries ∧ c1.bUsePDBCache = true ∧
      c1.MinDiskFreeSpaceGB = cfg.MinDiskFreeSpaceGB.getD self.MinDiskFreeSpaceGB := by
  have hwf0 : WellFormed
      (InitializePDBCache (Init_ReadLimits (Init_ReadUsage self cfg) cfg) fs).PDBCacheEntries := by
    apply WellFormed_InitializePDBCache
    show WellFormed (Init_ReadUsage self cfg).PDBCacheEntries
    rw [Init_ReadUsage_entries]
    exact hwf
  obtain ⟨c1, fs1, h, hwf1, hb, hm, _, _⟩ := CleanPDBCache_returns _ fs
    (InitializePDBCache (Init_ReadLimits (Init_ReadUsage self cfg) cfg)
      fs).DaysToDeleteUnusedFilesFromPDBCache 0 hwf0
  refine ⟨c1, fs1, h, hwf1, ?_, ?_⟩
  · rw [hb]
    exact huse
  · rw [hm]
    unfold Init_ReadUsage
    simp only [InitializePDBCache, SortPDBCache, Init_ReadLimits]
    split_ifs
    · cases cfg.PDBCachePath <;> rfl
    · rfl

theorem TotalSizeGB_nonneg (m : List (String × FPDBCacheEntry))
    (hpos : ∀ p ∈ m, 0 ≤ p.2.SizeGB) : 0 ≤ TotalSizeGB m := by
  unfold TotalSizeGB
  apply List.sum_nonneg
  intro x hx
  obtain ⟨p, hp, rfl⟩ := List.mem_map.1 hx
  exact hpos p hp

/-- With no negative `SizeGB` the final `NumGBsCleaned` is at most the total
size of the entries whose label is marked. -/
theorem Marked_snd_le (c : FPDBCache) (fs : FFileSystem) (D T : Int)
    (hwf : WellFormed c.PDBCacheEntries) (hpos : ∀ p ∈ c.PDBCacheEntries, 0 ≤ p.2.SizeGB) :
    (CleanPDBCache_Marked c fs D T).2 ≤
      TotalSizeGB (c.PDBCacheEntries.filter
        (fun p => decide (p.2.Label ∈ (CleanPDBCache_Marked c fs D T).1))) := by
  rw [Marked_snd_eq c fs D T hwf]
  apply toInt32_le_self
  have := TotalSizeGB_nonneg (c.PDBCacheEntries.filter
    (fun p => decide (p.2.Label ∈ (CleanPDBCache_Marked c fs D T).1)))
    (fun p hp => hpos p (List.mem_of_mem_filter hp))
  omega

/-- For a target `T > 0` and no negative `SizeGB` the removed entries sum up to
at least `T` or the map ends empty. -/
theorem CleanPDBCache_target_or_empty (c : FPDBCache) (fs : FFileSystem) (D T : Int)
    (hwf : WellFormed c.PDBCacheEntries) (hpos : ∀ p ∈ c.PDBCacheEntries, 0 ≤ p.2.SizeGB)
    (hT : 0 < T) :
    ∃ c2 fs2, CleanPDBCache c fs D T = some (c2, fs2) ∧
      (T ≤ TotalSizeGB (RemovedEntries c c2) ∨ c2.PDBCacheEntries = []) := by
  refine ⟨_, _, CleanPDBCache_eq c fs D T hwf, ?_⟩
  rw [RemovedEntries_eq c fs D T hwf _ _ (CleanPDBCache_eq c fs D T hwf)]
  have hle := Marked_snd_le c fs D T hwf hpos
  by_cases hsecond : T > 0 ∧ (CleanPDBCache_MarkOutdated fs (TimespanDaysTotalSeconds D)
      c.PDBCacheEntries ([], 0)).2 < T
  · have hM : CleanPDBCache_Marked c fs D T = CleanPDBCache_SecondPass T c.PDBCacheEntries
        (CleanPDBCache_MarkOutdated fs (TimespanDaysTotalSeconds D)
          c.PDBCacheEntries ([], 0)) := by
      unfold CleanPDBCache_Marked
      simp only
      rw [if_pos hsecond]
    rcases SecondPass_outcome T c.PDBCacheEntries (CleanPDBCache_MarkOutdated fs
      (TimespanDaysTotalSeconds D) c.PDBCacheEntries ([], 0)) with h | h
    · left
      have h2 : T < (CleanPDBCache_Marked c fs D T).2 := by
        rw [hM]
        exact h
      omega
    · right
      rw [List.filter_eq_nil_iff]
      intro a ha
      have := h a ha
      rw [← hM, ← hwf.2 a ha] at this
      simp [this]
  · left
    have hM : CleanPDBCache_Marked c fs D T = CleanPDBCache_MarkOutdated fs
        (TimespanDaysTotalSeconds D) c.PDBCacheEntries ([], 0) := by
      unfold CleanPDBCache_Marked
      simp only
      rw [if_neg hsecond]
    have h2 : T ≤ (CleanPDBCache_Marked c fs D T).2 := by
      rw [hM]
      by_contra hn
      exact hsecond ⟨hT, lt_of_not_le hn⟩
    omega

theorem RemoveMarked_WithCacheSize (ls : List String) (c : FPDBCache) (fs : FFileSystem)
    (Size : Int) :
    CleanPDBCache_RemoveMarked ls (c.WithCacheSize Size, fs) =
      (CleanPDBCache_RemoveMarked ls (c, fs)).map (fun r => (r.1.WithCacheSize Size, r.2)) := by
  induction ls generalizing c fs with
  | nil => rfl
  | cons x ls ih =>
    simp only [CleanPDBCache_RemoveMarked, RemovePDBCacheEntry]
    have hF : MapFind (c.WithCacheSize Size).PDBCacheEntries x = MapFind c.PDBCacheEntries x :=
      rfl
    rw [hF]
    cases MapFind c.PDBCacheEntries x with
    | none => rfl
    | some e =>
      exact ih { c with PDBCacheEntries := MapRemove c.PDBCacheEntries x }
        (fs.DeleteDirectory x)

theorem CleanPDBCache_WithCacheSize (c : FPDBCache) (fs : FFileSystem) (D T Size : Int) :
    CleanPDBCache (c.WithCacheSize Size) fs D T =
      (CleanPDBCache c fs D T).map (fun r => (r.1.WithCacheSize Size, r.2)) := by
  unfold CleanPDBCache
  have hM : CleanPDBCache_Marked (c.WithCacheSize Size) fs D T = CleanPDBCache_Marked c fs D T :=
    rfl
  rw [hM]
  exact RemoveMarked_WithCacheSize _ c fs Size

theorem Init_of_age_cleanup_none (self : FPDBCache) (cfg : FConfig) (fs : FFileSystem)
    (huse : (Init_ReadUsage self cfg).bUsePDBCache = true)
    (h1 : Init_AfterAgeCleanup self cfg fs = none) : Init self cfg fs = none := by
  unfold Init_AfterAgeCleanup at h1
  unfold Init
  simp only [huse, if_true]
  rw [h1]

theorem Init_of_disabled (self : FPDBCache) (cfg : FConfig) (fs : FFileSystem)
    (huse : (Init_ReadUsage self cfg).bUsePDBCache = false) :
    Init self cfg fs = some (Init_ReadUsage self cfg, fs) := by
  unfold Init
  simp [huse]

theorem InitOutcome_CleanPDBCache_WithCacheSize (c : FPDBCache) (fs : FFileSystem)
    (D T Size : Int) :
    InitOutcome (CleanPDBCache (c.WithCacheSize Size) fs D T) =
      InitOutcome (CleanPDBCache c fs D T) := by
  rw [CleanPDBCache_WithCacheSize]
  unfold InitOutcome
  cases CleanPDBCache c fs D T <;> rfl

theorem Init_VerifyFreeSpace_WithCacheSize (c : FPDBCache) (fs : FFileSystem) (Size : Int) :
    InitOutcome (Init_VerifyFreeSpace (c.WithCacheSize Size) fs) =
      InitOutcome (Init_VerifyFreeSpace c fs) := by
  unfold Init_VerifyFreeSpace
  have hg : GetPDBCacheSizeGB (c.WithCacheSize Size) = GetPDBCacheSizeGB c := rfl
  have hm : (c.WithCacheSize Size).MinDiskFreeSpaceGB = c.MinDiskFreeSpaceGB := rfl
  have hd : (c.WithCacheSize Size).DaysToDeleteUnusedFilesFromPDBCache =
      c.DaysToDeleteUnusedFilesFromPDBCache := rfl
  simp only [hg, hm, hd]
  split_ifs
  · exact InitOutcome_CleanPDBCache_WithCacheSize { c with bUsePDBCache := false } fs 0 0 Size
  · exact InitOutcome_CleanPDBCache_WithCacheSize c fs _ _ Size
  · rfl

theorem Init_ReadUsage_WithCacheSize (self : FPDBCache) (cfg : FConfig) (z : Int)
    (Size : Option Int) :
    Init_ReadUsage (self.WithCacheSize z) (cfg.WithCacheSize Size) =
      (Init_ReadUsage self cfg).WithCacheSize z := by
  unfold Init_ReadUsage FConfig.WithCacheSize FPDBCache.WithCacheSize
  simp only
  split_ifs
  · cases cfg.PDBCachePath <;> rfl
  · rfl

theorem Init_AfterAgeCleanup_WithCacheSize (self : FPDBCache) (cfg : FConfig)
    (fs : FFileSystem) (z : Int) (Size : Option Int) :
    Init_AfterAgeCleanup (self.WithCacheSize z) (cfg.WithCacheSize Size) fs =
      (Init_AfterAgeCleanup self cfg fs).map (fun r =>
        (r.1.WithCacheSize (Size.getD z), r.2)) := by
  have h0 : InitializePDBCache
      (Init_ReadLimits ((Init_ReadUsage self cfg).WithCacheSize z) (cfg.WithCacheSize Size))
      fs = (InitializePDBCache (Init_ReadLimits (Init_ReadUsage self cfg) cfg) fs).WithCacheSize
        (Size.getD z) := rfl
  unfold Init_AfterAgeCleanup
  rw [Init_ReadUsage_WithCacheSize, h0]
  exact CleanPDBCache_WithCacheSize _ fs _ 0 _

/-! ## Lemmas for the scenario of `Init` -/

/-- The map that `InitializePDBCache` builds from a disk with a 20 day old and
a 2 day old directory. -/
theorem InitializePDBCache_two_directories (self : FPDBCache) (cfg : FConfig) (fs : FFileSystem)
    (dA dB : FCacheDirectory) (hself : self.PDBCacheEntries = [])
    (hdirs : fs.Directories = [dA, dB] ∨ fs.Directories = [dB, dA]) (hne : dA.Name ≠ dB.Name)
    (hA : dA.TimeStamp = some (fs.Now - 20 * 86400))
    (hB : dB.TimeStamp = some (fs.Now - 2 * 86400)) :
    (InitializePDBCache (Init_ReadLimits (Init_ReadUsage self cfg) cfg) fs).PDBCacheEntries =
      [(dA.Name, ReadPDBCacheEntry fs dA.Name), (dB.Name, ReadPDBCacheEntry fs dB.Name)] := by
  have hne2 : dB.Name ≠ dA.Name := fun h => hne h.symm
  have hLA : (ReadPDBCacheEntry fs dA.Name).LastAccessTime = fs.Now - 20 * 86400 := by
    rcases hdirs with h | h <;>
      simp [ReadPDBCacheEntry, FFileSystem.GetTimeStamp, FFileSystem.FindDirectory, h, hA, hne2]
  have hLB : (ReadPDBCacheEntry fs dB.Name).LastAccessTime = fs.Now - 2 * 86400 := by
    rcases hdirs with h | h <;>
      simp [ReadPDBCacheEntry, FFileSystem.GetTimeStamp, FFileSystem.FindDirectory, h, hB, hne]
  have hle : (ReadPDBCacheEntry fs dA.Name).LastAccessTime ≤
      (ReadPDBCacheEntry fs dB.Name).LastAccessTime := by rw [hLA, hLB]; omega
  have hnle : ¬ (ReadPDBCacheEntry fs dB.Name).LastAccessTime ≤
      (ReadPDBCacheEntry fs dA.Name).LastAccessTime := by rw [hLA, hLB]; omega
  have hent : (Init_ReadLimits (Init_ReadUsage self cfg) cfg).PDBCacheEntries = [] := by
    show (Init_ReadUsage self cfg).PDBCacheEntries = []
    rw [Init_ReadUsage_entries, hself]
  unfold InitializePDBCache SortPDBCache
  simp only [hent, FFileSystem.FindDirectories]
  rcases hdirs with h | h
  · simp [h, MapAdd, hne, List.insertionSort, List.orderedInsert, hle]
  · simp [h, MapAdd, hne2, List.insertionSort, List.orderedInsert, hnle]


/-- Under an age limit of 14 days only the 20 day old directory is marked. -/
theorem Marked_two_directories (c0 : FPDBCache) (fs : FFileSystem)
    (dA dB : FCacheDirectory)
    (hent : c0.PDBCacheEntries =
      [(dA.Name, ReadPDBCacheEntry fs dA.Name), (dB.Name, ReadPDBCacheEntry fs dB.Name)])
    (hdirs : fs.Directories = [dA, dB] ∨ fs.Directories = [dB, dA]) (hne : dA.Name ≠ dB.Name)
    (hA : dA.TimeStamp = some (fs.Now - 20 * 86400))
    (hB : dB.TimeStamp = some (fs.Now - 2 * 86400)) :
    (CleanPDBCache_Marked c0 fs 14 0).1 = [dA.Name] := by
  have hne2 : dB.Name ≠ dA.Name := fun h => hne h.symm
  have hageA : fs.GetFileAgeSeconds dA.Name = 20 * 86400 := by
    rcases hdirs with h | h <;>
      simp [FFileSystem.GetFileAgeSeconds, FFileSystem.FindDirectory, h, hA, hne2]
  have hageB : fs.GetFileAgeSeconds dB.Name = 2 * 86400 := by
    rcases hdirs with h | h <;>
      simp [FFileSystem.GetFileAgeSeconds, FFileSystem.FindDirectory, h, hB, hne]
  have hlA : (ReadPDBCacheEntry fs dA.Name).Label = dA.Name := rfl
  have hlB : (ReadPDBCacheEntry fs dB.Name).Label = dB.Name := rfl
  unfold CleanPDBCache_Marked
  simp [hent, CleanPDBCache_MarkOutdated, hlA, hlB, hageA, hageB, TimespanDaysTotalSeconds,
    SetAdd]

/-- With 8 GB free, freeing more than 4 GB and at most 5 GB leaves at least
10 GB free. -/
theorem toInt32_free_after_delete (free bytes : Nat) (hfree : free >>> 30 = 8)
    (hlo : 4 * 1073741824 < bytes) (hhi : bytes ≤ 5 * 1073741824) :
    10 ≤ toInt32 (((free + bytes) >>> 30 : Nat) : Int) := by
  rw [Nat.shiftRight_eq_div_pow] at hfree ⊢
  have h1 : 12 ≤ (free + bytes) / 2 ^ 30 := by
    norm_num at hfree ⊢
    omega
  have h2 : (free + bytes) / 2 ^ 30 ≤ 13 := by
    norm_num at hfree ⊢
    omega
  unfold toInt32
  simp only
  have h3 : (((free + bytes) / 2 ^ 30 : Nat) : Int) % 4294967296 =
      (((free + bytes) / 2 ^ 30 : Nat) : Int) := by
    apply Int.emod_eq_of_lt <;> omega
  rw [h3]
  split_ifs <;> omega

/-- A directory of more than `n - 1` and at most `n` gigabytes is read as an
entry of `n` GB. -/
theorem ReadPDBCacheEntry_SizeGB_of_bytes (fs : FFileSystem) (d : FCacheDirectory) (n : Nat)
    (hfind : fs.FindDirectory d.Name = some d)
    (hlo : (n - 1) * 1073741824 < FFileSystem.DirectoryBytes d)
    (hhi : FFileSystem.DirectoryBytes d ≤ n * 1073741824) (hn : 1 ≤ n) (hn2 : n < 2147483648) :
    (ReadPDBCacheEntry fs d.Name).SizeGB = n := by
  unfold ReadPDBCacheEntry FFileSystem.FindFilesRecursive
  simp only [hfind]
  have hsum : ((d.Files.map (fun Filename => (Filename.2 : Int))).sum) =
      ((FFileSystem.DirectoryBytes d : Nat) : Int) := by
    unfold FFileSystem.DirectoryBytes
    generalize d.Files = l
    induction l with
    | nil => simp
    | cons a l ih => simp [ih]
  rw [hsum]
  unfold DivideAndRoundUp NUM_BYTES_PER_GB toInt32
  have hq : ((FFileSystem.DirectoryBytes d : Nat) + 1073741824 - 1 : Int) / 1073741824 = n := by
    omega
  rw [hq]
  simp only
  have h3 : (n : Int) % 4294967296 = n := by
    apply Int.emod_eq_of_lt <;> omega
  rw [h3]
  split_ifs <;> omega

/-! ## The claims on `CleanPDBCache` -/

/-- C1: the second loop of `CleanPDBCache` does not stop when the reclaimed
size reaches the target. At `RecentCache` with a target of 5 GB the age loop
reclaims nothing, marking `A` alone brings `NumGBsCleaned` to exactly 5, and
the loop still goes on to mark `B` (the break tests `>`), so the reclaimed
size before the last marked entry is 5, not strictly below the target, and
the cache ends empty. -/
theorem CleanPDBCache_second_pass_overshoots :
    CleanPDBCache_MarkOutdated RecentDisk (TimespanDaysTotalSeconds 14)
        RecentCache.PDBCacheEntries ([], 0) = ([], 0) ∧
      CleanPDBCache_SecondPass 5 (RecentCache.PDBCacheEntries.take 1) ([], 0) = (["A"], 5) ∧
      CleanPDBCache_Marked RecentCache RecentDisk 14 5 = (["A", "B"], 8) ∧
      (CleanPDBCache RecentCache RecentDisk 14 5).map (fun r => Keys r.1) = some [] := by
  decide

/-- C2: on a map ordered by ascending `LastAccessTime`, `CleanPDBCache` removes
the entries that are not outdated oldest first, for every target (so for every
`T > 0`): when an entry `p` that is not outdated is removed, every entry `q`
with a strictly older `LastAccessTime` is removed as well (so every such `q`
that is not outdated). -/
theorem CleanPDBCache_space_pass_oldest_first (c : FPDBCache) (fs : FFileSystem) (D T : Int)
    (hwf : WellFormed c.PDBCacheEntries)
    (hsorted : c.PDBCacheEntries.Pairwise
      (fun a b => a.2.LastAccessTime ≤ b.2.LastAccessTime))
    (p q : String × FPDBCacheEntry)
    (hp : p ∈ c.PDBCacheEntries) (hq : q ∈ c.PDBCacheEntries)
    (hpa : fs.GetFileAgeSeconds p.2.Label ≤ D * 86400)
    (hlt : q.2.LastAccessTime < p.2.LastAccessTime) :
    ∃ c2 fs2, CleanPDBCache c fs D T = some (c2, fs2) ∧ (p.1 ∉ Keys c2 → q.1 ∉ Keys c2) := by
  refine ⟨_, _, CleanPDBCache_eq c fs D T hwf, ?_⟩
  intro hrem
  have hpm : p.2.Label ∈ (CleanPDBCache_Marked c fs D T).1 := by
    by_contra hn
    rw [← hwf.2 p hp] at hn
    exact hrem (List.mem_map.2 ⟨p, mem_filter_of_not_marked _ _ p hp hn, rfl⟩)
  have hsecond : T > 0 ∧ (CleanPDBCache_MarkOutdated fs (TimespanDaysTotalSeconds D)
      c.PDBCacheEntries ([], 0)).2 < T := by
    by_contra hn
    have := Marked_outdated_of_no_second_pass c fs D T hn _ hpm
    unfold TimespanDaysTotalSeconds at this
    omega
  have hpout : p.2.Label ∉ (CleanPDBCache_MarkOutdated fs (TimespanDaysTotalSeconds D)
      c.PDBCacheEntries ([], 0)).1 := by
    intro h
    rcases (mem_MarkOutdated fs _ _ _ _).1 h with h | ⟨r, _, hl, hr⟩
    · simp at h
    · rw [hl] at hr
      unfold TimespanDaysTotalSeconds at hr
      omega
  obtain ⟨l1, l2, hsplit⟩ := List.append_of_mem hp
  have hql1 : q ∈ l1 := by
    rw [hsplit] at hq hsorted
    rcases List.mem_append.1 hq with h | h
    · exact h
    · rcases List.mem_cons.1 h with rfl | h
      · exact absurd hlt (lt_irrefl _)
      · have := (List.pairwise_cons.1 (List.pairwise_append.1 hsorted).2.1).1 q h
        omega
  have hne : ∀ a ∈ l1, a.2.Label ≠ p.2.Label := by
    intro a ha hlab
    have hnd := hwf.1
    have ha2 : a ∈ c.PDBCacheEntries := by rw [hsplit]; exact List.mem_append_left _ ha
    rw [hsplit, List.map_append, List.map_cons, List.nodup_append] at hnd
    refine hnd.2.2 (List.mem_map.2 ⟨a, ha, rfl⟩) ?_
    rw [hwf.2 a ha2, hlab, ← hwf.2 p hp]
    exact List.mem_cons_self _ _
  have hqm : q.2.Label ∈ (CleanPDBCache_Marked c fs D T).1 := by
    unfold CleanPDBCache_Marked at hpm ⊢
    simp only at hpm ⊢
    rw [if_pos hsecond] at hpm ⊢
    rw [hsplit] at hpm ⊢
    rw [hsplit] at hpout
    exact SecondPass_marks_in_order T l1 l2 p _ hne hpout hpm q hql1
  rw [← hwf.2 q hq] at hqm
  exact not_mem_keys_filter _ _ _ hqm

/-- Witness of C2 at `RecentCache` with a target of 5 GB: `B` is removed and so
is the older `A`. -/
theorem CleanPDBCache_space_pass_oldest_first_witness :
    ∃ c2 fs2, CleanPDBCache RecentCache RecentDisk 14 5 = some (c2, fs2) ∧
      ("B" ∉ Keys c2 → "A" ∉ Keys c2) :=
  CleanPDBCache_space_pass_oldest_first RecentCache RecentDisk 14 5 (by decide) (by decide)
    ("B", RecentEntryB) ("A", RecentEntryA) (by decide) (by decide) (by decide) (by decide)

/-- C3, as stated, fails: the entries read from `WrapDisk` have `SizeGB`
`-2^31`, `-1` and 1; with a target of 5 GB the `int32` sum `NumGBsCleaned`
wraps around to `2^31 - 1` at the second entry and the loop breaks, so `A` and
`B` are removed, their sizes sum up to `-2147483649`, and `C` stays. -/
theorem CleanPDBCache_wraps_above_target :
    (InitializePDBCache (SampleCache []) WrapDisk).PDBCacheEntries.map
        (fun p => (p.1, p.2.SizeGB)) = [("A", -2147483648), ("B", -1), ("C", 1)] ∧
      (CleanPDBCache (InitializePDBCache (SampleCache []) WrapDisk) WrapDisk 14 5).map
        (fun r => (Keys r.1,
          TotalSizeGB (RemovedEntries (InitializePDBCache (SampleCache []) WrapDisk) r.1))) =
        some (["C"], -2147483649) := by
  decide

/-- C3, amended: in a cache state where no entry has a negative `SizeGB`, for
a target `T > 0`, `CleanPDBCache` returns, and afterwards the removed entries
sum up to at least `T` gigabytes or the entry map is empty. -/
theorem CleanPDBCache_reaches_target_or_empties (c : FPDBCache) (fs : FFileSystem) (D T : Int)
    (hwf : WellFormed c.PDBCacheEntries) (hpos : ∀ p ∈ c.PDBCacheEntries, 0 ≤ p.2.SizeGB)
    (hT : 0 < T) :
    ∃ c2 fs2, CleanPDBCache c fs D T = some (c2, fs2) ∧
      (T ≤ TotalSizeGB (RemovedEntries c c2) ∨ c2.PDBCacheEntries = []) :=
  CleanPDBCache_target_or_empty c fs D T hwf hpos hT

/-- Witness of C3 (amended) at `RecentCache` with a target of 5 GB. -/
theorem CleanPDBCache_reaches_target_or_empties_witness :
    ∃ c2 fs2, CleanPDBCache RecentCache RecentDisk 14 5 = some (c2, fs2) ∧
      (5 ≤ TotalSizeGB (RemovedEntries RecentCache c2) ∨ c2.PDBCacheEntries = []) :=
  CleanPDBCache_reaches_target_or_empties RecentCache RecentDisk 14 5 (by decide) (by decide)
    (by decide)

/-- C4: `CleanPDBCache` removes every entry whose marker file is older than
`D` days, for every space target: the call returns, the key of the entry is no
longer in the map and its directory is gone. -/
theorem CleanPDBCache_removes_outdated (c : FPDBCache) (fs : FFileSystem) (D T : Int)
    (hwf : WellFormed c.PDBCacheEntries) (p : String × FPDBCacheEntry)
    (hp : p ∈ c.PDBCacheEntries) (hage : fs.GetFileAgeSeconds p.2.Label > D * 86400) :
    ∃ c2 fs2, CleanPDBCache c fs D T = some (c2, fs2) ∧ p.1 ∉ Keys c2 ∧
      MapFind c2.PDBCacheEntries p.1 = none ∧ fs2.FindDirectory p.2.Label = none := by
  have hm : p.2.Label ∈ (CleanPDBCache_Marked c fs D T).1 :=
    Marked_of_outdated c fs D T p hp hage
  have hk : p.1 ∉ (c.PDBCacheEntries.filter
      (fun a => !decide (a.1 ∈ (CleanPDBCache_Marked c fs D T).1))).map Prod.fst := by
    rw [hwf.2 p hp]
    exact not_mem_keys_filter _ _ _ hm
  refine ⟨_, _, CleanPDBCache_eq c fs D T hwf, hk, MapFind_eq_none _ _ hk, ?_⟩
  unfold FFileSystem.FindDirectory
  rw [Directories_foldl_DeleteDirectory, List.find?_eq_none]
  intro d hd
  have := (List.mem_filter.1 hd).2
  intro hname
  have hname2 : d.Name = p.2.Label := by simpa using hname
  rw [hname2] at this
  simp [hm] at this

/-- Witness of C4 at `ScenarioCache`: the 20 day old entry `A` is removed under
an age limit of 14 days. -/
theorem CleanPDBCache_removes_outdated_witness :
    ∃ c2 fs2, CleanPDBCache ScenarioCache ScenarioDisk 14 0 = some (c2, fs2) ∧ "A" ∉ Keys c2 ∧
      MapFind c2.PDBCacheEntries "A" = none ∧ fs2.FindDirectory "A" = none :=
  CleanPDBCache_removes_outdated ScenarioCache ScenarioDisk 14 0 (by decide)
    ("A", ScenarioEntryA) (by decide) (by decide)

/-- C5, as stated, fails: the outdated entries `A` and `B` read from
`OverflowDisk` sum up to `2^31` GB, which is above the target of 1 GB, but the
`int32` sum `NumGBsCleaned` wraps around to `-2^31`; the second loop runs and
the entry `C`, whose marker file is 1000 seconds old, is removed as well. -/
theorem CleanPDBCache_tops_up_after_wrap :
    TotalSizeGB (OutdatedEntries (InitializePDBCache (SampleCache []) OverflowDisk)
        OverflowDisk 14) = 2147483648 ∧
      OverflowDisk.GetFileAgeSeconds "C" = 1000 ∧
      Keys (InitializePDBCache (SampleCache []) OverflowDisk) = ["A", "B", "C"] ∧
      (CleanPDBCache (InitializePDBCache (SampleCache []) OverflowDisk) OverflowDisk 14 1).map
        (fun r => Keys r.1) = some [] := by
  decide

/-- C5, amended: when the target is 0, or the outdated entries sum up to at
least the target and to at most `2^31 - 1` gigabytes, `CleanPDBCache` removes
no entry whose marker age is within the limit: such an entry is still in the
map, under its key and with all its fields, and its directory is untouched. -/
theorem CleanPDBCache_top_up_only (c : FPDBCache) (fs : FFileSystem) (D T : Int)
    (hwf : WellFormed c.PDBCacheEntries)
    (hmet : T = 0 ∨ (T ≤ TotalSizeGB (OutdatedEntries c fs D) ∧
      TotalSizeGB (OutdatedEntries c fs D) ≤ 2147483647))
    (p : String × FPDBCacheEntry) (hp : p ∈ c.PDBCacheEntries)
    (hage : fs.GetFileAgeSeconds p.2.Label ≤ D * 86400) :
    ∃ c2 fs2, CleanPDBCache c fs D T = some (c2, fs2) ∧ p ∈ c2.PDBCacheEntries ∧
      MapFind c2.PDBCacheEntries p.1 = some p.2 ∧
      fs2.FindDirectory p.2.Label = fs.FindDirectory p.2.Label := by
  have hno : ¬ (T > 0 ∧ (CleanPDBCache_MarkOutdated fs (TimespanDaysTotalSeconds D)
      c.PDBCacheEntries ([], 0)).2 < T) := by
    rintro ⟨h1, h2⟩
    rcases hmet with h | ⟨h, hr⟩
    · omega
    · rw [snd_MarkOutdated _ _ _ _ (by decide)] at h2
      unfold TotalSizeGB OutdatedEntries at h hr
      unfold TimespanDaysTotalSeconds at h2
      simp only [zero_add] at h2
      rw [toInt32_eq_self _ (by omega) hr] at h2
      omega
  have hm : p.2.Label ∉ (CleanPDBCache_Marked c fs D T).1 := by
    intro h
    have := Marked_outdated_of_no_second_pass c fs D T hno _ h
    unfold TimespanDaysTotalSeconds at this
    omega
  have hk : p.1 ∉ (CleanPDBCache_Marked c fs D T).1 := by
    rw [hwf.2 p hp]
    exact hm
  have hin := mem_filter_of_not_marked c.PDBCacheEntries _ p hp hk
  refine ⟨_, _, CleanPDBCache_eq c fs D T hwf, hin,
    MapFind_of_mem _ (WellFormed_filter _ _ hwf).1 p hin, ?_⟩
  unfold FFileSystem.FindDirectory
  rw [Directories_foldl_DeleteDirectory]
  generalize fs.Directories = ds
  induction ds with
  | nil => rfl
  | cons d ds ih =>
    by_cases hd : d.Name = p.2.Label
    · simp [List.filter_cons, List.find?_cons, hd, hm]
    · by_cases hd2 : d.Name ∈ (CleanPDBCache_Marked c fs D T).1
      · simp [List.filter_cons, List.find?_cons, hd, hd2, ih]
      · simp [List.filter_cons, List.find?_cons, hd, hd2, ih]

/-- Witness of C5 (amended) at `ScenarioCache` with a target of 4 GB: the age
pass reclaims the 5 GB of the outdated entry `A`, and the 2 day old entry `B`
stays. -/
theorem CleanPDBCache_top_up_only_witness :
    TotalSizeGB (OutdatedEntries ScenarioCache ScenarioDisk 14) = 5 ∧
      ∃ c2 fs2, CleanPDBCache ScenarioCache ScenarioDisk 14 4 = some (c2, fs2) ∧
        ("B", ScenarioEntryB) ∈ c2.PDBCacheEntries ∧
        MapFind c2.PDBCacheEntries "B" = some ScenarioEntryB ∧
        fs2.FindDirectory "B" = ScenarioDisk.FindDirectory "B" :=
  ⟨by decide, CleanPDBCache_top_up_only ScenarioCache ScenarioDisk 14 4 (by decide)
    (Or.inr ⟨by decide, by decide⟩) ("B", ScenarioEntryB) (by decide) (by decide)⟩

/-- C6: for a label present in the cache, `TouchPDBCacheEntry` followed at once
by `CleanPDBCache` with an age limit of 0 days and no space target returns and
keeps the label as a key of the entry map. -/
theorem Touch_then_Clean_keeps_label (CleanLabelName : String → String) (c : FPDBCache)
    (fs : FFileSystem) (InLabel : String) (hwf : WellFormed c.PDBCacheEntries)
    (hin : CleanLabelName InLabel ∈ Keys c) :
    ∃ c1 fs1 c2 fs2, TouchPDBCacheEntry CleanLabelName c fs InLabel = some (c1, fs1) ∧
      CleanPDBCache c1 fs1 0 0 = some (c2, fs2) ∧ CleanLabelName InLabel ∈ Keys c2 := by
  obtain ⟨c1, fs1, htouch, hwf1, hkeys, hfs⟩ :=
    TouchPDBCacheEntry_eq CleanLabelName c fs InLabel hwf hin
  refine ⟨c1, fs1, _, _, htouch, CleanPDBCache_eq c1 fs1 0 0 hwf1, ?_⟩
  rcases List.mem_map.1 ((hkeys _).2 hin) with ⟨q, hq, hqk⟩
  have hnot : q.1 ∉ (CleanPDBCache_Marked c1 fs1 0 0).1 := by
    intro hm
    have hage := Marked_outdated_of_no_second_pass c1 fs1 0 0 (fun h => lt_irrefl _ h.1) _ hm
    have hle := GetFileAgeSeconds_SetTimeStamp_now fs (CleanLabelName InLabel)
    rw [hqk, hfs] at hage
    unfold TimespanDaysTotalSeconds at hage
    omega
  rw [← hqk]
  exact List.mem_map.2 ⟨q, mem_filter_of_not_marked _ _ q hq hnot, rfl⟩

/-- Witness of C6 at `ScenarioCache`: the 20 day old entry `A` survives a
cleanup with an age limit of 0 days right after it has been touched. -/
theorem Touch_then_Clean_keeps_label_witness :
    ∃ c1 fs1 c2 fs2,
      TouchPDBCacheEntry (fun s => s) ScenarioCache ScenarioDisk "A" = some (c1, fs1) ∧
      CleanPDBCache c1 fs1 0 0 = some (c2, fs2) ∧ "A" ∈ Keys c2 :=
  Touch_then_Clean_keeps_label (fun s => s) ScenarioCache ScenarioDisk "A" (by decide)
    (by decide)

/-! ## The claims on `Init` -/

/-- C7: the scenario of `Init` with an age limit of 14 days, 10 GB of minimum
free space, 8 GB free, a directory `dA` of 5 GB whose marker is 20 days old
and a directory `dB` of 3 GB whose marker is 2 days old, found in either
order: the two entries are read with `SizeGB` 5 and 3, `Init` returns with the
cache enabled, the 20 day old entry and its directory are gone and the 2 day
old entry is still in the map. -/
theorem Init_scenario (self : FPDBCache) (cfg : FConfig) (fs : FFileSystem)
    (dA dB : FCacheDirectory) (Path : String)
    (hself : self.PDBCacheEntries = [])
    (huse : cfg.bUsePDBCache = some true) (hpath : cfg.PDBCachePath = some Path)
    (hdays : cfg.DaysToDeleteUnusedFilesFromPDBCache = some 14)
    (hmin : cfg.MinDiskFreeSpaceGB = some 10)
    (hdirs : fs.Directories = [dA, dB] ∨ fs.Directories = [dB, dA]) (hne : dA.Name ≠ dB.Name)
    (hA : dA.TimeStamp = some (fs.Now - 20 * 86400))
    (hB : dB.TimeStamp = some (fs.Now - 2 * 86400))
    (hAlo : 4 * 1073741824 < FFileSystem.DirectoryBytes dA)
    (hAhi : FFileSystem.DirectoryBytes dA ≤ 5 * 1073741824)
    (hBlo : 2 * 1073741824 < FFileSystem.DirectoryBytes dB)
    (hBhi : FFileSystem.DirectoryBytes dB ≤ 3 * 1073741824)
    (hfree : fs.NumberOfFreeBytes >>> 30 = 8) :
    (ReadPDBCacheEntry fs dA.Name).SizeGB = 5 ∧ (ReadPDBCacheEntry fs dB.Name).SizeGB = 3 ∧
    ∃ c2 fs2, Init self cfg fs = some (c2, fs2) ∧ c2.bUsePDBCache = true ∧
      c2.PDBCacheEntries = [(dB.Name, ReadPDBCacheEntry fs dB.Name)] ∧
      fs2.Directories = [dB] := by
  have hne2 : dB.Name ≠ dA.Name := fun h => hne h.symm
  have hfA : fs.FindDirectory dA.Name = some dA := by
    rcases hdirs with h | h <;> simp [FFileSystem.FindDirectory, h, hne2]
  have hfB : fs.FindDirectory dB.Name = some dB := by
    rcases hdirs with h | h <;> simp [FFileSystem.FindDirectory, h, hne]
  refine ⟨ReadPDBCacheEntry_SizeGB_of_bytes fs dA 5 hfA (by omega) (by omega) (by omega) (by omega),
    ReadPDBCacheEntry_SizeGB_of_bytes fs dB 3 hfB (by omega) (by omega) (by omega) (by omega), ?_⟩
  have hen : (Init_ReadUsage self cfg).bUsePDBCache = true :=
    (Init_ReadUsage_enabled self cfg (by simp [huse]) Path hpath).1
  have hent := InitializePDBCache_two_directories self cfg fs dA dB hself hdirs hne hA hB
  have hwf0 : WellFormed
      (InitializePDBCache (Init_ReadLimits (Init_ReadUsage self cfg) cfg) fs).PDBCacheEntries := by
    rw [hent]
    refine ⟨by simp [hne], ?_⟩
    intro p hp
    simp only [List.mem_cons, List.mem_singleton, List.not_mem_nil, or_false] at hp
    rcases hp with rfl | rfl <;> rfl
  have hD : (InitializePDBCache (Init_ReadLimits (Init_ReadUsage self cfg) cfg)
      fs).DaysToDeleteUnusedFilesFromPDBCache = 14 := by
    simp [InitializePDBCache, SortPDBCache, Init_ReadLimits, hdays]
  have hM : (InitializePDBCache (Init_ReadLimits (Init_ReadUsage self cfg) cfg)
      fs).MinDiskFreeSpaceGB = 10 := by
    simp [InitializePDBCache, SortPDBCache, Init_ReadLimits, hmin]
  have hmk := Marked_two_directories _ fs dA dB hent hdirs hne hA hB
  have hdef : Init_AfterAgeCleanup self cfg fs = CleanPDBCache
      (InitializePDBCache (Init_ReadLimits (Init_ReadUsage self cfg) cfg) fs) fs 14 0 := by
    unfold Init_AfterAgeCleanup
    rw [hD]
  have hcl := CleanPDBCache_eq
    (InitializePDBCache (Init_ReadLimits (Init_ReadUsage self cfg) cfg) fs) fs 14 0 hwf0
  rw [hmk] at hcl
  rw [Init_eq_VerifyFreeSpace self cfg fs hen _ _ (hdef.trans hcl)]
  have hfs1 : (fs.DeleteDirectory dA.Name).NumberOfFreeBytes =
      fs.NumberOfFreeBytes + FFileSystem.DirectoryBytes dA := by
    rcases hdirs with h | h <;> simp [FFileSystem.DeleteDirectory, h, hne2]
  have hdir1 : (fs.DeleteDirectory dA.Name).Directories = [dB] := by
    rcases hdirs with h | h <;> simp [FFileSystem.DeleteDirectory, h, hne2]
  have hspace : ¬ DiskFreeSpaceGB (fs.DeleteDirectory dA.Name) < 10 := by
    unfold DiskFreeSpaceGB
    rw [hfs1]
    exact not_lt.2 (toInt32_free_after_delete _ _ hfree hAlo hAhi)
  unfold Init_VerifyFreeSpace
  simp only [List.foldl_cons, List.foldl_nil, hM, hspace, if_false]
  refine ⟨_, _, rfl, ?_, ?_, hdir1⟩
  · show (InitializePDBCache (Init_ReadLimits (Init_ReadUsage self cfg) cfg)
      fs).bUsePDBCache = true
    exact hen
  · simp [hent, hne, hne2]

/-- Witness of C7 at `ScenarioDisk`. -/
theorem Init_scenario_witness :
    (ReadPDBCacheEntry ScenarioDisk ScenarioDirectoryA.Name).SizeGB = 5 ∧
    (ReadPDBCacheEntry ScenarioDisk ScenarioDirectoryB.Name).SizeGB = 3 ∧
    ∃ c2 fs2, Init FreshCache ScenarioConfig ScenarioDisk = some (c2, fs2) ∧
      c2.bUsePDBCache = true ∧
      c2.PDBCacheEntries =
        [(ScenarioDirectoryB.Name, ReadPDBCacheEntry ScenarioDisk ScenarioDirectoryB.Name)] ∧
      fs2.Directories = [ScenarioDirectoryB] :=
  Init_scenario FreshCache ScenarioConfig ScenarioDisk ScenarioDirectoryA ScenarioDirectoryB
    "U:/CrashReport/PDBCache" rfl rfl rfl rfl rfl (Or.inl rfl) (by decide) (by decide)
    (by decide) (by decide) (by decide) (by decide) (by decide) (by decide)

/-- C8, as stated, fails in both of its parts. On `SumWrapDisk` there is 1 GB
free and one remaining entry of `2^31 - 1` GB, their sum is not below the
minimum of 10 GB, but the `int32` sum wraps around to `-2^31` and `Init`
disables the cache. On `TargetWrapDisk` the free space is measured as `-2^31`
GB and the remaining entries have `2^31 + 20` GB, the cache stays enabled, but
the `int32` target `MinDiskFreeSpaceGB - DiskFreeSpaceGB` is `-2147483638`
instead of the shortfall `2147483658`, and nothing is removed, where
`CleanPDBCache` with the shortfall as target removes both entries. -/
theorem Init_free_space_check_wraps :
    (Init_AfterAgeCleanup FreshCache ScenarioConfig SumWrapDisk).map
        (fun r => (DiskFreeSpaceGB r.2, TotalSizeGB r.1.PDBCacheEntries,
          r.1.MinDiskFreeSpaceGB)) = some (1, 2147483647, 10) ∧
      (Init FreshCache ScenarioConfig SumWrapDisk).map (fun r => r.1.bUsePDBCache) =
        some false ∧
      (Init_AfterAgeCleanup FreshCache ScenarioConfig TargetWrapDisk).map
        (fun r => (DiskFreeSpaceGB r.2, TotalSizeGB r.1.PDBCacheEntries,
          r.1.MinDiskFreeSpaceGB, r.1.MinDiskFreeSpaceGB - DiskFreeSpaceGB r.2,
          toInt32 (r.1.MinDiskFreeSpaceGB - DiskFreeSpaceGB r.2))) =
        some (-2147483648, 2147483668, 10, 2147483658, -2147483638) ∧
      (Init FreshCache ScenarioConfig TargetWrapDisk).map
        (fun r => (r.1.bUsePDBCache, Keys r.1)) = some (true, ["A", "B"]) ∧
      ((Init_AfterAgeCleanup FreshCache ScenarioConfig TargetWrapDisk).bind
        (fun r => CleanPDBCache r.1 r.2 r.1.DaysToDeleteUnusedFilesFromPDBCache
          (r.1.MinDiskFreeSpaceGB - DiskFreeSpaceGB r.2))).map (fun r => Keys r.1) =
        some [] := by
  decide

/-- C8, amended: with the cache enabled by the configuration and a cache path
present, `Init` reaches the free space check in the state `(c1, fs1)` left by
the age-based cleanup. When the free gigabytes are below `MinDiskFreeSpaceGB`
and neither the sum of the free gigabytes and the total `SizeGB` of the
remaining entries nor the difference `MinDiskFreeSpaceGB - DiskFreeSpaceGB`
leaves the range of `int32`, `Init` returns and disables the cache exactly
when the free gigabytes plus the total `SizeGB` of the remaining entries are
still below the minimum, and otherwise its result is that of `CleanPDBCache`
with the shortfall as space target. When the free gigabytes reach the
minimum, `Init` returns `(c1, fs1)` itself, with the cache enabled. -/
theorem Init_free_space_check (self : FPDBCache) (cfg : FConfig) (fs : FFileSystem)
    (hwf : WellFormed self.PDBCacheEntries)
    (huse : cfg.bUsePDBCache.getD self.bUsePDBCache = true) (Path : String)
    (hpath : cfg.PDBCachePath = some Path) :
    ∃ c1 fs1, Init_AfterAgeCleanup self cfg fs = some (c1, fs1) ∧
      c1.MinDiskFreeSpaceGB = cfg.MinDiskFreeSpaceGB.getD self.MinDiskFreeSpaceGB ∧
      (DiskFreeSpaceGB fs1 < c1.MinDiskFreeSpaceGB →
        -2147483648 ≤ DiskFreeSpaceGB fs1 + TotalSizeGB c1.PDBCacheEntries →
        DiskFreeSpaceGB fs1 + TotalSizeGB c1.PDBCacheEntries ≤ 2147483647 →
        c1.MinDiskFreeSpaceGB - DiskFreeSpaceGB fs1 ≤ 2147483647 →
        ∃ c2 fs2, Init self cfg fs = some (c2, fs2) ∧
          (c2.bUsePDBCache = false ↔
            DiskFreeSpaceGB fs1 + TotalSizeGB c1.PDBCacheEntries < c1.MinDiskFreeSpaceGB) ∧
          (¬ DiskFreeSpaceGB fs1 + TotalSizeGB c1.PDBCacheEntries < c1.MinDiskFreeSpaceGB →
            CleanPDBCache c1 fs1 c1.DaysToDeleteUnusedFilesFromPDBCache
              (c1.MinDiskFreeSpaceGB - DiskFreeSpaceGB fs1) = some (c2, fs2))) ∧
      (c1.MinDiskFreeSpaceGB ≤ DiskFreeSpaceGB fs1 →
        Init self cfg fs = some (c1, fs1) ∧ c1.bUsePDBCache = true) := by
  have hen := (Init_ReadUsage_enabled self cfg huse Path hpath).1
  obtain ⟨c1, fs1, h1, hwf1, hb1, hmin⟩ := Init_AfterAgeCleanup_returns self cfg fs hwf hen
  have hInit := Init_of_enabled self cfg fs hen c1 fs1 h1
  have hsize : GetPDBCacheSizeGB c1 = TotalSizeGB c1.PDBCacheEntries := rfl
  rw [hsize] at hInit
  refine ⟨c1, fs1, h1, hmin, ?_, ?_⟩
  · intro hlow hlo hhi htarget
    have hsum : toInt32 (DiskFreeSpaceGB fs1 + toInt32 (TotalSizeGB c1.PDBCacheEntries)) =
        DiskFreeSpaceGB fs1 + TotalSizeGB c1.PDBCacheEntries := by
      rw [toInt32_add_right, toInt32_eq_self _ hlo hhi]
    have hdiff : toInt32 (c1.MinDiskFreeSpaceGB - DiskFreeSpaceGB fs1) =
        c1.MinDiskFreeSpaceGB - DiskFreeSpaceGB fs1 :=
      toInt32_eq_self _ (by omega) htarget
    rw [if_pos hlow, hsum, hdiff] at hInit
    by_cases hshort :
        DiskFreeSpaceGB fs1 + TotalSizeGB c1.PDBCacheEntries < c1.MinDiskFreeSpaceGB
    · rw [if_pos hshort] at hInit
      obtain ⟨c2, fs2, h2, _, hb2, _⟩ :=
        CleanPDBCache_returns { c1 with bUsePDBCache := false } fs1 0 0 hwf1
      refine ⟨c2, fs2, hInit.trans h2, ?_, fun hn => absurd hshort hn⟩
      exact ⟨fun _ => hshort, fun _ => hb2⟩
    · rw [if_neg hshort] at hInit
      obtain ⟨c2, fs2, h2, _, hb2, _⟩ :=
        CleanPDBCache_returns c1 fs1 c1.DaysToDeleteUnusedFilesFromPDBCache
          (c1.MinDiskFreeSpaceGB - DiskFreeSpaceGB fs1) hwf1
      refine ⟨c2, fs2, hInit.trans h2, ?_, fun _ => h2⟩
      constructor
      · intro hf
        rw [hb2, hb1] at hf
        exact absurd hf (by decide)
      · intro hs
        exact absurd hs hshort
  · intro hhigh
    rw [if_neg (not_lt.2 hhigh)] at hInit
    exact ⟨hInit, hb1⟩

/-- Witness of C8 (amended) at `RoundingDisk` with 10 GB of minimum free
space. -/
theorem Init_free_space_check_witness :
    ∃ c1 fs1, Init_AfterAgeCleanup FreshCache ScenarioConfig RoundingDisk = some (c1, fs1) ∧
      c1.MinDiskFreeSpaceGB =
        ScenarioConfig.MinDiskFreeSpaceGB.getD FreshCache.MinDiskFreeSpaceGB ∧
      (DiskFreeSpaceGB fs1 < c1.MinDiskFreeSpaceGB →
        -2147483648 ≤ DiskFreeSpaceGB fs1 + TotalSizeGB c1.PDBCacheEntries →
        DiskFreeSpaceGB fs1 + TotalSizeGB c1.PDBCacheEntries ≤ 2147483647 →
        c1.MinDiskFreeSpaceGB - DiskFreeSpaceGB fs1 ≤ 2147483647 →
        ∃ c2 fs2, Init FreshCache ScenarioConfig RoundingDisk = some (c2, fs2) ∧
          (c2.bUsePDBCache = false ↔
            DiskFreeSpaceGB fs1 + TotalSizeGB c1.PDBCacheEntries < c1.MinDiskFreeSpaceGB) ∧
          (¬ DiskFreeSpaceGB fs1 + TotalSizeGB c1.PDBCacheEntries < c1.MinDiskFreeSpaceGB →
            CleanPDBCache c1 fs1 c1.DaysToDeleteUnusedFilesFromPDBCache
              (c1.MinDiskFreeSpaceGB - DiskFreeSpaceGB fs1) = some (c2, fs2))) ∧
      (c1.MinDiskFreeSpaceGB ≤ DiskFreeSpaceGB fs1 →
        Init FreshCache ScenarioConfig RoundingDisk = some (c1, fs1) ∧
          c1.bUsePDBCache = true) :=
  Init_free_space_check FreshCache ScenarioConfig RoundingDisk (by decide) (by decide)
    "U:/CrashReport/PDBCache" rfl

/-- The amended C9 needs its two conditions. On `NegativeSizeDisk` the two
entries have `SizeGB` `-2^31` and `-2`; `Init` keeps the cache enabled and
removes both, and the measured 1 GB plus the removed `SizeGB` is far below the
minimum of 10 GB. On `TargetWrapDisk` the `int32` space target is negative,
`Init` keeps the cache enabled and removes nothing, and the measured free
space of `-2^31` GB is below the minimum. -/
theorem Init_enabled_after_wrap :
    (Init FreshCache ScenarioConfig NegativeSizeDisk).map
        (fun r => (r.1.bUsePDBCache, Keys r.1, r.1.MinDiskFreeSpaceGB)) =
        some (true, [], 10) ∧
      (Init_AfterAgeCleanup FreshCache ScenarioConfig NegativeSizeDisk).map
        (fun r => (DiskFreeSpaceGB r.2, r.1.PDBCacheEntries.map (fun p => p.2.SizeGB))) =
        some (1, [-2147483648, -2]) ∧
      (Init FreshCache ScenarioConfig TargetWrapDisk).map
        (fun r => (r.1.bUsePDBCache, Keys r.1, r.1.MinDiskFreeSpaceGB)) =
        some (true, ["A", "B"], 10) ∧
      (Init_AfterAgeCleanup FreshCache ScenarioConfig TargetWrapDisk).map
        (fun r => (DiskFreeSpaceGB r.2, Keys r.1)) = some (-2147483648, ["A", "B"]) := by
  decide

/-- C10, as stated, fails: with `PDBCacheSizeGB` set to 1 and enough free
space, `Init` on `RecentDisk` returns with the cache enabled and entries of
8 GB in total. -/
theorem Init_exceeds_PDBCacheSizeGB :
    (Init FreshCache SmallCacheConfig RecentDisk).map
        (fun r => (r.1.bUsePDBCache, r.1.PDBCacheSizeGB, Keys r.1,
          TotalSizeGB r.1.PDBCacheEntries)) =
      some (true, 1, ["A", "B"], 8) := by
  decide

/-- C10, amended: `Init` stores `PDBCacheSizeGB` and enforces no bound with it:
the entry map, the enabled flag and the disk after `Init` are the same for
every value of the key `PDBCacheSizeGB`, present or missing, and for every
previous value of the member `PDBCacheSizeGB`. -/
theorem Init_ignores_PDBCacheSizeGB (self : FPDBCache) (cfg : FConfig) (fs : FFileSystem)
    (z : Int) (Size : Option Int) :
    InitOutcome (Init (self.WithCacheSize z) (cfg.WithCacheSize Size) fs) =
      InitOutcome (Init self cfg fs) := by
  have hU := Init_ReadUsage_WithCacheSize self cfg z Size
  have hb : (Init_ReadUsage (self.WithCacheSize z) (cfg.WithCacheSize Size)).bUsePDBCache =
      (Init_ReadUsage self cfg).bUsePDBCache := by
    rw [hU]
    rfl
  by_cases hen : (Init_ReadUsage self cfg).bUsePDBCache = true
  · have hen2 := hb.trans hen
    have hA := Init_AfterAgeCleanup_WithCacheSize self cfg fs z Size
    cases h1 : Init_AfterAgeCleanup self cfg fs with
    | none =>
      rw [h1] at hA
      rw [Init_of_age_cleanup_none self cfg fs hen h1,
        Init_of_age_cleanup_none _ _ fs hen2 hA]
    | some r =>
      obtain ⟨c1, fs1⟩ := r
      rw [h1] at hA
      rw [Init_eq_VerifyFreeSpace self cfg fs hen c1 fs1 h1,
        Init_eq_VerifyFreeSpace _ _ fs hen2 _ fs1 hA]
      exact Init_VerifyFreeSpace_WithCacheSize c1 fs1 _
  · have hdis : (Init_ReadUsage self cfg).bUsePDBCache = false := by
      simpa using hen
    have hdis2 := hb.trans hdis
    rw [Init_of_disabled self cfg fs hdis, Init_of_disabled _ _ fs hdis2, hU]
    rfl

/-! ## Lemmas on the size of an entry -/

theorem toInt32_of_range (z : Int) (h0 : 0 ≤ z) (h1 : z < 2147483648) : toInt32 z = z := by
  unfold toInt32
  have h3 : z % 4294967296 = z := by
    apply Int.emod_eq_of_lt <;> omega
  simp only [h3]
  split_ifs
  rfl

theorem DivideAndRoundUp_eq_CeilingGB (n : Nat) :
    DivideAndRoundUp (n : Int) NUM_BYTES_PER_GB = CeilingGB n := by
  unfold DivideAndRoundUp NUM_BYTES_PER_GB CeilingGB
  symm
  rw [Int.ceil_eq_iff]
  have hq1 : (((n : Int) + 1073741824 - 1) / 1073741824 - 1) * 1073741824 < (n : Int) := by
    omega
  have hq2 : (n : Int) ≤ (((n : Int) + 1073741824 - 1) / 1073741824) * 1073741824 := by
    omega
  generalize ((n : Int) + 1073741824 - 1) / 1073741824 = q at hq1 hq2 ⊢
  constructor
  · rw [lt_div_iff₀ (by norm_num)]
    have hc : (((q - 1) * 1073741824 : Int) : ℚ) < ((n : Int) : ℚ) := Int.cast_lt.2 hq1
    push_cast at hc
    linarith
  · rw [div_le_iff₀ (by norm_num)]
    have hc : (((n : Int)) : ℚ) ≤ ((q * 1073741824 : Int) : ℚ) := Int.cast_le.2 hq2
    push_cast at hc
    linarith

theorem sum_cast_sizes (l : List (String × Nat)) :
    (l.map (fun Filename => (Filename.2 : Int))).sum = (((l.map Prod.snd).sum : Nat) : Int) := by
  induction l with
  | nil => simp
  | cons a l ih => simp [ih]

/-- `ReadPDBCacheEntry` computes `SizeGB` as the `int32` of the ceiling. -/
theorem ReadPDBCacheEntry_SizeGB (fs : FFileSystem) (InLabel : String) :
    (ReadPDBCacheEntry fs InLabel).SizeGB = toInt32 (CeilingGB (fs.EntryDirectoryBytes InLabel)) := by
  unfold ReadPDBCacheEntry FFileSystem.EntryDirectoryBytes
  simp only
  rw [sum_cast_sizes, DivideAndRoundUp_eq_CeilingGB]

theorem CeilingGB_range (n : Nat) (h : n ≤ MaxEntryBytes) :
    0 ≤ CeilingGB n ∧ CeilingGB n < 2147483648 := by
  rw [← DivideAndRoundUp_eq_CeilingGB]
  unfold DivideAndRoundUp NUM_BYTES_PER_GB
  unfold MaxEntryBytes at h
  constructor <;> omega

theorem CeilingGB_one : CeilingGB 1 = 1 := by
  rw [← DivideAndRoundUp_eq_CeilingGB]
  decide

/-! ## Lemmas on writing into a directory -/

theorem FindDirectory_WriteToDirectory (fs : FFileSystem) (N P : String) (S : Nat) (m : Bool) :
    (fs.WriteToDirectory N P S m).FindDirectory N =
      some (match fs.FindDirectory N with
        | some d =>
          { d with
            TimeStamp := if m then some fs.Now else d.TimeStamp
            Files := WriteFile d.Files P S }
        | none =>
          { Name := N
            TimeStamp := if m then some fs.Now else none
            Files := [(P, S)] }) := by
  unfold FFileSystem.WriteToDirectory FFileSystem.FindDirectory
  simp only
  by_cases hany : fs.Directories.any (fun d => d.Name == N) = true
  · rw [if_pos hany, List.find?_map]
    have hcomp : ((fun d : FCacheDirectory => d.Name == N) ∘ fun d : FCacheDirectory =>
        if (d.Name == N) = true then
          ({ d with
            TimeStamp := if m then some fs.Now else d.TimeStamp
            Files := WriteFile d.Files P S } : FCacheDirectory)
        else d) = fun d => d.Name == N := by
      funext d
      by_cases hd : d.Name = N <;> simp [hd]
    rw [hcomp]
    obtain ⟨d, hd, hdn⟩ := List.any_eq_true.1 hany
    cases hf : fs.Directories.find? (fun d => d.Name == N) with
    | none =>
      rw [List.find?_eq_none] at hf
      exact absurd hdn (hf d hd)
    | some d0 =>
      have h0 := List.find?_some hf
      simp only [Option.map_some']
      rw [if_pos h0]
  · rw [if_neg hany]
    have hnone : fs.Directories.find? (fun d => d.Name == N) = none := by
      rw [List.find?_eq_none]
      intro d hd hdn
      exact hany (List.any_eq_true.2 ⟨d, hd, hdn⟩)
    rw [List.find?_append, hnone]
    simp

theorem find?_map_other_name (ds : List FCacheDirectory) (upd : FCacheDirectory → FCacheDirectory)
    (N M : String) (hname : ∀ d, (upd d).Name = d.Name) (hother : ∀ d, d.Name ≠ N → upd d = d)
    (hne : M ≠ N) :
    (ds.map upd).find? (fun d => d.Name == M) = ds.find? (fun d => d.Name == M) := by
  induction ds with
  | nil => rfl
  | cons d ds ih =>
    by_cases hdm : d.Name = M
    · have hdn : d.Name ≠ N := fun h => hne (hdm.symm.trans h)
      simp [List.find?_cons, hother d hdn, hdm]
    · have hu : ¬ (upd d).Name = M := by rw [hname]; exact hdm
      simp [List.find?_cons, hdm, hu, ih]

theorem FindDirectory_WriteToDirectory_other (fs : FFileSystem) (N M P : String) (S : Nat)
    (m : Bool) (hne : M ≠ N) :
    (fs.WriteToDirectory N P S m).FindDirectory M = fs.FindDirectory M := by
  unfold FFileSystem.WriteToDirectory FFileSystem.FindDirectory
  simp only
  have hne2 : N ≠ M := fun h => hne h.symm
  by_cases hany : fs.Directories.any (fun d => d.Name == N) = true
  · rw [if_pos hany]
    apply find?_map_other_name _ _ N M _ _ hne
    · intro d
      by_cases hd : d.Name = N <;> simp [hd]
    · intro d hd
      simp [hd]
  · rw [if_neg hany, List.find?_append]
    cases hf : fs.Directories.find? (fun d => d.Name == M) with
    | none => simp [hne2]
    | some d => simp

theorem FindFilesRecursive_WriteToDirectory (fs : FFileSystem) (N P : String) (S : Nat)
    (m : Bool) :
    (fs.WriteToDirectory N P S m).FindFilesRecursive N =
      WriteFile (fs.FindFilesRecursive N) P S := by
  unfold FFileSystem.FindFilesRecursive
  rw [FindDirectory_WriteToDirectory]
  cases fs.FindDirectory N with
  | none => simp [WriteFile]
  | some d => rfl

theorem GetTimeStamp_WriteToDirectory_copy (fs : FFileSystem) (N M P : String) (S : Nat) :
    (fs.WriteToDirectory N P S false).GetTimeStamp M = fs.GetTimeStamp M := by
  unfold FFileSystem.GetTimeStamp
  by_cases h : M = N
  · rw [h, FindDirectory_WriteToDirectory]
    cases fs.FindDirectory N with
    | none => rfl
    | some d => rfl
  · rw [FindDirectory_WriteToDirectory_other fs N M P S false h]

theorem GetTimeStamp_WriteToDirectory_marker (fs : FFileSystem) (N P : String) (S : Nat) :
    (fs.WriteToDirectory N P S true).GetTimeStamp N = fs.Now := by
  unfold FFileSystem.GetTimeStamp
  rw [FindDirectory_WriteToDirectory]
  cases fs.FindDirectory N with
  | none => rfl
  | some d => rfl

/-! ## Lemmas on lists of writes -/

theorem WriteFile_of_mem (F : List (String × Nat)) (p : String) (n : Nat)
    (h : p ∈ F.map Prod.fst) :
    WriteFile F p n = F.map (fun f => if f.1 == p then (p, n) else f) := by
  unfold WriteFile
  have hany : F.any (fun f => f.1 == p) = true := by
    rcases List.mem_map.1 h with ⟨q, hq, hqp⟩
    exact List.any_eq_true.2 ⟨q, hq, by simp [hqp]⟩
  rw [if_pos hany]

theorem WriteFile_of_not_mem (F : List (String × Nat)) (p : String) (n : Nat)
    (h : p ∉ F.map Prod.fst) : WriteFile F p n = F ++ [(p, n)] := by
  unfold WriteFile
  have hany : ¬ F.any (fun f => f.1 == p) = true := by
    intro ha
    obtain ⟨q, hq, hqp⟩ := List.any_eq_true.1 ha
    exact h (List.mem_map.2 ⟨q, hq, by simpa using hqp⟩)
  rw [if_neg hany]

theorem keys_WriteFile_of_mem (F : List (String × Nat)) (p : String) (n : Nat)
    (h : p ∈ F.map Prod.fst) : (WriteFile F p n).map Prod.fst = F.map Prod.fst := by
  rw [WriteFile_of_mem F p n h, List.map_map]
  apply List.map_congr_left
  intro q _
  by_cases hq : q.1 = p <;> simp [hq]

theorem mem_keys_WriteFile (F : List (String × Nat)) (p k : String) (n : Nat) :
    k ∈ (WriteFile F p n).map Prod.fst ↔ k ∈ F.map Prod.fst ∨ k = p := by
  by_cases h : p ∈ F.map Prod.fst
  · rw [keys_WriteFile_of_mem F p n h]
    constructor
    · exact Or.inl
    · rintro (hk | rfl)
      · exact hk
      · exact h
  · rw [WriteFile_of_not_mem F p n h]
    simp

theorem mem_WriteFile_other (F : List (String × Nat)) (p : String) (n : Nat)
    (q : String × Nat) (hq : q ∈ WriteFile F p n) (hne : q.1 ≠ p) : q ∈ F := by
  by_cases h : p ∈ F.map Prod.fst
  · rw [WriteFile_of_mem F p n h] at hq
    rcases List.mem_map.1 hq with ⟨f, hf, hfq⟩
    by_cases hfp : f.1 = p
    · simp only [hfp, beq_self_eq_true, if_true] at hfq
      exact absurd (by rw [← hfq]) hne
    · have hb : (f.1 == p) = false := by simpa using hfp
      simp only [hb] at hfq
      exact hfq ▸ hf
  · rw [WriteFile_of_not_mem F p n h] at hq
    rcases List.mem_append.1 hq with hq | hq
    · exact hq
    · have : q = (p, n) := by simpa using hq
      exact absurd (by rw [this]) hne

theorem mem_WriteFile_same (F : List (String × Nat)) (p : String) (n : Nat)
    (q : String × Nat) (hq : q ∈ WriteFile F p n) (he : q.1 = p) : q.2 = n := by
  by_cases h : p ∈ F.map Prod.fst
  · rw [WriteFile_of_mem F p n h] at hq
    rcases List.mem_map.1 hq with ⟨f, hf, hfq⟩
    by_cases hfp : f.1 = p
    · simp only [hfp, beq_self_eq_true, if_true] at hfq
      rw [← hfq]
    · have hb : (f.1 == p) = false := by simpa using hfp
      have hfq2 : f = q := by simpa [hb] using hfq
      exact absurd (hfq2 ▸ he) hfp
  · rw [WriteFile_of_not_mem F p n h] at hq
    rcases List.mem_append.1 hq with hq | hq
    · exact absurd (List.mem_map.2 ⟨q, hq, he⟩) h
    · have : q = (p, n) := by simpa using hq
      rw [this]

theorem WriteFiles_cons (F : List (String × Nat)) (w : String × Nat)
    (W : List (String × Nat)) : WriteFiles F (w :: W) = WriteFiles (WriteFile F w.1 w.2) W :=
  rfl

theorem WriteFiles_append (F W1 W2 : List (String × Nat)) :
    WriteFiles F (W1 ++ W2) = WriteFiles (WriteFiles F W1) W2 := by
  unfold WriteFiles
  rw [List.foldl_append]

theorem mem_keys_WriteFiles_of_mem (F W : List (String × Nat)) (k : String)
    (h : k ∈ F.map Prod.fst) : k ∈ (WriteFiles F W).map Prod.fst := by
  induction W generalizing F with
  | nil => exact h
  | cons w W ih =>
    rw [WriteFiles_cons]
    exact ih _ ((mem_keys_WriteFile F w.1 k w.2).2 (Or.inl h))

theorem mem_keys_WriteFiles_of_write (F W : List (String × Nat)) (w : String × Nat)
    (h : w ∈ W) : w.1 ∈ (WriteFiles F W).map Prod.fst := by
  induction W generalizing F with
  | nil => simp at h
  | cons a W ih =>
    rw [WriteFiles_cons]
    rcases List.mem_cons.1 h with rfl | h
    · exact mem_keys_WriteFiles_of_mem _ W _ ((mem_keys_WriteFile F w.1 w.1 w.2).2 (Or.inr rfl))
    · exact ih _ h

theorem LastWrite_cons_none (k : String) (w : String × Nat) (W : List (String × Nat))
    (h : LastWrite k (w :: W) = none) : LastWrite k W = none ∧ w.1 ≠ k := by
  unfold LastWrite at h
  cases hl : LastWrite k W with
  | some v => simp [hl] at h
  | none =>
    simp only [hl] at h
    refine ⟨rfl, ?_⟩
    intro hk
    simp [hk] at h

/-- A file that no write of the list touches is left as it was. -/
theorem mem_WriteFiles_untouched (F W : List (String × Nat)) (q : String × Nat)
    (hq : q ∈ WriteFiles F W) (hl : LastWrite q.1 W = none) : q ∈ F := by
  induction W generalizing F with
  | nil => exact hq
  | cons w W ih =>
    obtain ⟨h1, h2⟩ := LastWrite_cons_none q.1 w W hl
    rw [WriteFiles_cons] at hq
    exact mem_WriteFile_other F w.1 w.2 q (ih _ hq h1) (fun h => h2 h.symm)

/-- After a list of writes every written file has the size of its last write. -/
theorem mem_WriteFiles_written (F W : List (String × Nat)) (q : String × Nat) (v : Nat)
    (hq : q ∈ WriteFiles F W) (hl : LastWrite q.1 W = some v) : q.2 = v := by
  induction W generalizing F with
  | nil => simp [LastWrite] at hl
  | cons w W ih =>
    rw [WriteFiles_cons] at hq
    cases h1 : LastWrite q.1 W with
    | some s =>
      have hv : v = s := by
        unfold LastWrite at hl
        simp only [h1] at hl
        exact (Option.some.inj hl).symm
      exact ih _ hq (hv ▸ h1)
    | none =>
      have hw : w.1 = q.1 ∧ w.2 = v := by
        unfold LastWrite at hl
        simp only [h1] at hl
        by_cases hk : w.1 = q.1
        · rw [if_pos hk] at hl
          exact ⟨hk, Option.some.inj hl⟩
        · rw [if_neg hk] at hl
          exact absurd hl (by simp)
      have hin := mem_WriteFiles_untouched _ W q hq h1
      rw [← hw.2]
      exact mem_WriteFile_same F w.1 w.2 q hin hw.1.symm

/-- Writes to files that are all present change sizes only. -/
theorem WriteFiles_of_present (G W : List (String × Nat))
    (h : ∀ w ∈ W, w.1 ∈ G.map Prod.fst) :
    WriteFiles G W = G.map (fun q => (q.1, (LastWrite q.1 W).getD q.2)) := by
  induction W generalizing G with
  | nil => simp [WriteFiles, LastWrite]
  | cons w W ih =>
    have hw : w.1 ∈ G.map Prod.fst := h w (List.mem_cons_self _ _)
    rw [WriteFiles_cons, ih]
    · rw [WriteFile_of_mem G w.1 w.2 hw, List.map_map]
      apply List.map_congr_left
      intro f _
      by_cases hf : f.1 = w.1
      · have hf2 : w.1 = f.1 := hf.symm
        cases hl : LastWrite f.1 W with
        | none => simp [LastWrite, hf, hf2 ▸ hl]
        | some s => simp [LastWrite, hf, hf2 ▸ hl]
      · have hf2 : ¬ w.1 = f.1 := fun h => hf h.symm
        cases hl : LastWrite f.1 W with
        | none => simp [LastWrite, hf, hf2, hl]
        | some s => simp [LastWrite, hf, hf2, hl]
    · intro a ha
      rw [keys_WriteFile_of_mem G w.1 w.2 hw]
      exact h a (List.mem_cons_of_mem _ ha)

/-- Writing the same list of files a second time changes nothing. -/
theorem WriteFiles_idempotent (F W : List (String × Nat)) :
    WriteFiles (WriteFiles F W) W = WriteFiles F W := by
  rw [WriteFiles_of_present (WriteFiles F W) W
    (fun w hw => mem_keys_WriteFiles_of_write F W w hw)]
  conv_rhs => rw [← List.map_id (WriteFiles F W)]
  apply List.map_congr_left
  intro q hq
  cases hl : LastWrite q.1 W with
  | none => rfl
  | some v =>
    have := mem_WriteFiles_written F W q v hq hl
    simp [← this]

/-! ## Lemmas on `CreateAndAddPDBCacheEntry` -/

theorem FindFilesRecursive_CopyMatched (env : FEngineServices) (N ED S : String)
    (ms : List String) (fs : FFileSystem) :
    (CreateAndAddPDBCacheEntry_CopyMatched env N ED S ms fs).FindFilesRecursive N =
      WriteFiles (fs.FindFilesRecursive N)
        (CreateAndAddPDBCacheEntry_MatchedWrites env ED S ms) := by
  induction ms generalizing fs with
  | nil => rfl
  | cons m ms ih =>
    simp only [CreateAndAddPDBCacheEntry_CopyMatched, CreateAndAddPDBCacheEntry_MatchedWrites]
    cases env.Copy (env.Combine ED (env.Replace (env.Combine (env.GetPath S) m) RootDir ""))
        (env.Combine (env.GetPath S) m) with
    | none => exact ih fs
    | some Size =>
      simp only
      rw [ih, FindFilesRecursive_WriteToDirectory, WriteFiles_cons]

theorem GetTimeStamp_CopyMatched (env : FEngineServices) (N ED S M : String)
    (ms : List String) (fs : FFileSystem) :
    (CreateAndAddPDBCacheEntry_CopyMatched env N ED S ms fs).GetTimeStamp M =
      fs.GetTimeStamp M := by
  induction ms generalizing fs with
  | nil => rfl
  | cons m ms ih =>
    simp only [CreateAndAddPDBCacheEntry_CopyMatched]
    cases env.Copy (env.Combine ED (env.Replace (env.Combine (env.GetPath S) m) RootDir ""))
        (env.Combine (env.GetPath S) m) with
    | none => exact ih fs
    | some Size =>
      simp only
      rw [ih, GetTimeStamp_WriteToDirectory_copy]

theorem FindFilesRecursive_CopySynced (env : FEngineServices) (N ED Depot : String)
    (Synced : List String) (fs : FFileSystem) :
    (CreateAndAddPDBCacheEntry_CopySynced env N ED Depot Synced fs).FindFilesRecursive N =
      WriteFiles (fs.FindFilesRecursive N)
        (CreateAndAddPDBCacheEntry_SyncedWrites env ED Depot Synced) := by
  induction Synced generalizing fs with
  | nil => rfl
  | cons f Synced ih =>
    simp only [CreateAndAddPDBCacheEntry_CopySynced, CreateAndAddPDBCacheEntry_SyncedWrites]
    rw [ih, FindFilesRecursive_CopyMatched, WriteFiles_append]

theorem GetTimeStamp_CopySynced (env : FEngineServices) (N ED Depot M : String)
    (Synced : List String) (fs : FFileSystem) :
    (CreateAndAddPDBCacheEntry_CopySynced env N ED Depot Synced fs).GetTimeStamp M =
      fs.GetTimeStamp M := by
  induction Synced generalizing fs with
  | nil => rfl
  | cons f Synced ih =>
    simp only [CreateAndAddPDBCacheEntry_CopySynced]
    rw [ih, GetTimeStamp_CopyMatched]

/-- When the marker file can be saved, `CreateAndAddPDBCacheEntry` returns. Its
entry is what `ReadPDBCacheEntry` reads from the disk it leaves; the entry is
added to the map under the cleaned label and the files of the entry directory
are the former ones with the marker file and the copies written over them. -/
theorem CreateAndAddPDBCacheEntry_eq (CleanLabelName : String → String) (env : FEngineServices)
    (c : FPDBCache) (fs : FFileSystem) (Orig Depot : String) (Synced : List String)
    (Saved : Nat)
    (hsave : env.SaveStringToFile
      (env.Combine (env.Combine c.PDBCachePath (CleanLabelName Orig)) PDBTimeStampFile)
      (env.Combine (env.Combine c.PDBCachePath (CleanLabelName Orig)) PDBTimeStampFile) =
        some Saved) :
    ∃ e c2 fs2, CreateAndAddPDBCacheEntry CleanLabelName env c fs Orig Depot Synced =
        some (e, c2, fs2) ∧
      e = ReadPDBCacheEntry fs2 (CleanLabelName Orig) ∧
      e.LastAccessTime = fs.Now ∧
      c2 = SortPDBCache
        { c with PDBCacheEntries := MapAdd c.PDBCacheEntries (CleanLabelName Orig) e } ∧
      fs2.FindFilesRecursive (CleanLabelName Orig) =
        WriteFiles (fs.FindFilesRecursive (CleanLabelName Orig))
          ((env.Combine (env.Combine c.PDBCachePath (CleanLabelName Orig)) PDBTimeStampFile,
              Saved) ::
            CreateAndAddPDBCacheEntry_SyncedWrites env
              (env.Combine c.PDBCachePath (CleanLabelName Orig)) Depot Synced) := by
  refine ⟨_, _, _, by simp only [CreateAndAddPDBCacheEntry, hsave]; rfl, ?_, ?_, rfl, ?_⟩
  · unfold ReadPDBCacheEntry
    simp only [GetTimeStamp_CopySynced]
  · simp only [GetTimeStamp_WriteToDirectory_marker]
  · rw [FindFilesRecursive_CopySynced, FindFilesRecursive_WriteToDirectory, WriteFiles_cons]

theorem mem_of_MapFind (m : List (String × FPDBCacheEntry)) (k : String) (e : FPDBCacheEntry)
    (h : MapFind m k = some e) : (k, e) ∈ m := by
  unfold MapFind at h
  rcases Option.map_eq_some'.1 h with ⟨q, hq, rfl⟩
  have hmem := List.mem_of_find?_eq_some hq
  have hkey : q.1 = k := by simpa using List.find?_some hq
  rw [← hkey]
  exact hmem

theorem MapFind_eq_none_iff (m : List (String × FPDBCacheEntry)) (k : String) :
    MapFind m k = none ↔ k ∉ m.map Prod.fst := by
  constructor
  · intro h hk
    obtain ⟨e, he⟩ := MapFind_isSome_of_mem_keys m k hk
    rw [h] at he
    exact absurd he (by simp)
  · exact MapFind_eq_none m k

theorem filter_key_length_one (m : List (String × FPDBCacheEntry)) (k : String)
    (hnd : (m.map Prod.fst).Nodup) (hk : k ∈ m.map Prod.fst) :
    (m.filter (fun p => p.1 == k)).length = 1 := by
  induction m with
  | nil => simp at hk
  | cons a m ih =>
    have hnd2 := List.nodup_cons.1 hnd
    by_cases ha : a.1 = k
    · have hnone : m.filter (fun p => p.1 == k) = [] := by
        rw [List.filter_eq_nil_iff]
        intro q hq hqk
        have : q.1 = k := by simpa using hqk
        exact hnd2.1 (List.mem_map.2 ⟨q, hq, this.trans ha.symm⟩)
      simp [List.filter_cons, ha, hnone]
    · have hk2 : k ∈ m.map Prod.fst := by
        rcases List.mem_map.1 hk with ⟨q, hq, hqk⟩
        rcases List.mem_cons.1 hq with rfl | hq
        · exact absurd hqk ha
        · exact List.mem_map.2 ⟨q, hq, hqk⟩
      simpa [List.filter_cons, ha] using ih hnd2.2 hk2

theorem mem_MapAdd_self (m : List (String × FPDBCacheEntry)) (k : String)
    (e : FPDBCacheEntry) : (k, e) ∈ MapAdd m k e := by
  unfold MapAdd
  split_ifs with h
  · obtain ⟨q, hq, hqk⟩ := List.any_eq_true.1 h
    exact List.mem_map.2 ⟨q, hq, by simp [hqk]⟩
  · simp

theorem mem_MapAdd_other (m : List (String × FPDBCacheEntry)) (k : String)
    (e : FPDBCacheEntry) (p : String × FPDBCacheEntry) (hp : p ∈ m) (hne : p.1 ≠ k) :
    p ∈ MapAdd m k e := by
  unfold MapAdd
  split_ifs with h
  · exact List.mem_map.2 ⟨p, hp, by simp [hne]⟩
  · exact List.mem_append_left _ hp

/-- The scan of `InitializePDBCache` stores under every directory name the
entry read from that directory. -/
theorem mem_InitializePDBCache (c : FPDBCache) (fs : FFileSystem) (Name : String)
    (h : Name ∈ fs.FindDirectories) :
    (Name, ReadPDBCacheEntry fs Name) ∈ (InitializePDBCache c fs).PDBCacheEntries := by
  unfold InitializePDBCache SortPDBCache
  simp only
  rw [List.mem_insertionSort]
  generalize fs.FindDirectories = dirs at h
  generalize c.PDBCacheEntries = m
  induction dirs using List.reverseRecOn with
  | nil => simp at h
  | append_singleton dirs d ih =>
    rw [List.foldl_append, List.foldl_cons, List.foldl_nil]
    by_cases hd : Name = d
    · rw [hd]
      exact mem_MapAdd_self _ _ _
    · have hin : Name ∈ dirs := by
        rcases List.mem_append.1 h with h | h
        · exact h
        · exact absurd (by simpa using h) hd
      exact mem_MapAdd_other _ _ _ _ (ih hin) hd

theorem FindDirectory_isSome_CopyMatched (env : FEngineServices) (N ED S : String)
    (ms : List String) (fs : FFileSystem) (h : (fs.FindDirectory N).isSome = true) :
    ((CreateAndAddPDBCacheEntry_CopyMatched env N ED S ms fs).FindDirectory N).isSome = true := by
  induction ms generalizing fs with
  | nil => exact h
  | cons m ms ih =>
    simp only [CreateAndAddPDBCacheEntry_CopyMatched]
    cases env.Copy (env.Combine ED (env.Replace (env.Combine (env.GetPath S) m) RootDir ""))
        (env.Combine (env.GetPath S) m) with
    | none => exact ih fs h
    | some Size =>
      simp only
      apply ih
      rw [FindDirectory_WriteToDirectory]
      rfl

theorem FindDirectory_isSome_CopySynced (env : FEngineServices) (N ED Depot : String)
    (Synced : List String) (fs : FFileSystem) (h : (fs.FindDirectory N).isSome = true) :
    ((CreateAndAddPDBCacheEntry_CopySynced env N ED Depot Synced fs).FindDirectory N).isSome =
      true := by
  induction Synced generalizing fs with
  | nil => exact h
  | cons f Synced ih =>
    simp only [CreateAndAddPDBCacheEntry_CopySynced]
    exact ih _ (FindDirectory_isSome_CopyMatched env N ED _ _ fs h)

theorem mem_FindDirectories_of_FindDirectory (fs : FFileSystem) (N : String)
    (h : (fs.FindDirectory N).isSome = true) : N ∈ fs.FindDirectories := by
  unfold FFileSystem.FindDirectory at h
  unfold FFileSystem.FindDirectories
  cases hf : fs.Directories.find? (fun d => d.Name == N) with
  | none => simp [hf] at h
  | some d =>
    have hmem := List.mem_of_find?_eq_some hf
    have hname : d.Name = N := by simpa using List.find?_some hf
    exact List.mem_map.2 ⟨d, hmem, hname⟩

/-- The entry directory exists after `CreateAndAddPDBCacheEntry`. -/
theorem CreateAndAddPDBCacheEntry_directory (CleanLabelName : String → String)
    (env : FEngineServices) (c : FPDBCache) (fs : FFileSystem) (Orig Depot : String)
    (Synced : List String) (e : FPDBCacheEntry) (c2 : FPDBCache) (fs2 : FFileSystem)
    (h : CreateAndAddPDBCacheEntry CleanLabelName env c fs Orig Depot Synced = some (e, c2, fs2)) :
    CleanLabelName Orig ∈ fs2.FindDirectories := by
  unfold CreateAndAddPDBCacheEntry at h
  simp only at h
  cases hs : env.SaveStringToFile
      (env.Combine (env.Combine c.PDBCachePath (CleanLabelName Orig)) PDBTimeStampFile)
      (env.Combine (env.Combine c.PDBCachePath (CleanLabelName Orig)) PDBTimeStampFile) with
  | none => simp [hs] at h
  | some Saved =>
    simp only [hs, Option.some.injEq, Prod.mk.injEq] at h
    rw [← h.2.2]
    apply mem_FindDirectories_of_FindDirectory
    apply FindDirectory_isSome_CopySynced
    rw [FindDirectory_WriteToDirectory]
    rfl

/-- `CreateAndAddPDBCacheEntry` keeps the map well formed. -/
theorem WellFormed_CreateAndAddPDBCacheEntry (CleanLabelName : String → String)
    (env : FEngineServices) (c : FPDBCache) (fs : FFileSystem) (Orig Depot : String)
    (Synced : List String) (e : FPDBCacheEntry) (c2 : FPDBCache) (fs2 : FFileSystem)
    (hwf : WellFormed c.PDBCacheEntries)
    (h : CreateAndAddPDBCacheEntry CleanLabelName env c fs Orig Depot Synced = some (e, c2, fs2)) :
    WellFormed c2.PDBCacheEntries ∧ CleanLabelName Orig ∈ Keys c2 ∧
      (CleanLabelName Orig, e) ∈ c2.PDBCacheEntries ∧ c2.PDBCachePath = c.PDBCachePath := by
  unfold CreateAndAddPDBCacheEntry at h
  simp only at h
  cases hs : env.SaveStringToFile
      (env.Combine (env.Combine c.PDBCachePath (CleanLabelName Orig)) PDBTimeStampFile)
      (env.Combine (env.Combine c.PDBCachePath (CleanLabelName Orig)) PDBTimeStampFile) with
  | none => simp [hs] at h
  | some Saved =>
    simp only [hs, Option.some.injEq, Prod.mk.injEq] at h
    obtain ⟨he, hc, _⟩ := h
    have hmem : (CleanLabelName Orig, e) ∈ c2.PDBCacheEntries := by
      rw [← hc, ← he]
      unfold SortPDBCache
      simp only
      rw [List.mem_insertionSort]
      exact mem_MapAdd_self _ _ _
    refine ⟨?_, List.mem_map.2 ⟨_, hmem, rfl⟩, hmem, ?_⟩
    · rw [← hc]
      apply WellFormed_SortPDBCache
      exact WellFormed_MapAdd _ hwf _ _ rfl
    · rw [← hc]
      rfl

/-! ## The claims on entries: size, touch, creation -/

/-- C11, as stated, fails: on `HugeDisk` the files of directory `Z` total
`2^61` bytes, the ceiling of that in gigabytes is `2^31`, and the entry that
`ReadPDBCacheEntry` builds has `SizeGB = -2^31`, because the quotient is cast
to `int32`. -/
theorem ReadPDBCacheEntry_SizeGB_wraps :
    (ReadPDBCacheEntry HugeDisk "Z").SizeGB = -2147483648 ∧
      CeilingGB (HugeDisk.EntryDirectoryBytes "Z") = 2147483648 := by
  refine ⟨by decide, ?_⟩
  have h : HugeDisk.EntryDirectoryBytes "Z" = 2305843009213693952 := by decide
  rw [h, ← DivideAndRoundUp_eq_CeilingGB]
  decide

/-- C11, amended: when the files found in the entry directory total at most
`(2^31 - 1) * 2^30` bytes, the entry built by `ReadPDBCacheEntry` has `SizeGB`
equal to the ceiling of that total divided by `2^30`, and so has the entry
returned by `CreateAndAddPDBCacheEntry` for the directory as it is after the
copies; an entry whose files total 1 byte has `SizeGB` 1. -/
theorem SizeGB_eq_ceiling_in_range (CleanLabelName : String → String) (env : FEngineServices)
    (c : FPDBCache) (fs : FFileSystem) (Orig Depot : String) (Synced : List String)
    (Saved : Nat) (InLabel : String)
    (hsave : env.SaveStringToFile
      (env.Combine (env.Combine c.PDBCachePath (CleanLabelName Orig)) PDBTimeStampFile)
      (env.Combine (env.Combine c.PDBCachePath (CleanLabelName Orig)) PDBTimeStampFile) =
        some Saved)
    (hrange : fs.EntryDirectoryBytes InLabel ≤ MaxEntryBytes) :
    (ReadPDBCacheEntry fs InLabel).SizeGB = CeilingGB (fs.EntryDirectoryBytes InLabel) ∧
      (fs.EntryDirectoryBytes InLabel = 1 → (ReadPDBCacheEntry fs InLabel).SizeGB = 1) ∧
      ∃ e c2 fs2, CreateAndAddPDBCacheEntry CleanLabelName env c fs Orig Depot Synced =
          some (e, c2, fs2) ∧
        (fs2.EntryDirectoryBytes (CleanLabelName Orig) ≤ MaxEntryBytes →
          e.SizeGB = CeilingGB (fs2.EntryDirectoryBytes (CleanLabelName Orig)) ∧
          (fs2.EntryDirectoryBytes (CleanLabelName Orig) = 1 → e.SizeGB = 1)) := by
  have hread : ∀ (fs0 : FFileSystem) (L : String), fs0.EntryDirectoryBytes L ≤ MaxEntryBytes →
      (ReadPDBCacheEntry fs0 L).SizeGB = CeilingGB (fs0.EntryDirectoryBytes L) := by
    intro fs0 L h
    rw [ReadPDBCacheEntry_SizeGB]
    exact toInt32_of_range _ (CeilingGB_range _ h).1 (CeilingGB_range _ h).2
  refine ⟨hread fs InLabel hrange, ?_, ?_⟩
  · intro h1
    rw [hread fs InLabel hrange, h1, CeilingGB_one]
  · obtain ⟨e, c2, fs2, hc, he, _⟩ :=
      CreateAndAddPDBCacheEntry_eq CleanLabelName env c fs Orig Depot Synced Saved hsave
    refine ⟨e, c2, fs2, hc, fun h2 => ⟨?_, fun h1 => ?_⟩⟩
    · rw [he]
      exact hread fs2 _ h2
    · rw [he, hread fs2 _ h2, h1, CeilingGB_one]

/-- Witness of C11 (amended) at `RoundingDisk`, whose directory `X` holds one
byte. -/
theorem SizeGB_eq_ceiling_in_range_witness :
    (ReadPDBCacheEntry RoundingDisk "X").SizeGB =
        CeilingGB (RoundingDisk.EntryDirectoryBytes "X") ∧
      (RoundingDisk.EntryDirectoryBytes "X" = 1 →
        (ReadPDBCacheEntry RoundingDisk "X").SizeGB = 1) ∧
      ∃ e c2 fs2, CreateAndAddPDBCacheEntry (fun s => s) SampleServices FreshCache RoundingDisk
          "Label" "//depot/UE4" ["//depot/UE4/Engine/Binaries/Win64/UE4.pdb"] =
          some (e, c2, fs2) ∧
        (fs2.EntryDirectoryBytes "Label" ≤ MaxEntryBytes →
          e.SizeGB = CeilingGB (fs2.EntryDirectoryBytes "Label") ∧
          (fs2.EntryDirectoryBytes "Label" = 1 → e.SizeGB = 1)) :=
  SizeGB_eq_ceiling_in_range (fun s => s) SampleServices FreshCache RoundingDisk "Label"
    "//depot/UE4" ["//depot/UE4/Engine/Binaries/Win64/UE4.pdb"] 64 "X" rfl (by decide)

/-- C12: `TouchPDBCacheEntry` ends in the fatal error exactly when the cleaned
label is not a key of the entry map, and then it ends in the state it started
in: no entry and no marker file has been changed. When it returns, the state
it ends in is the one it returns. -/
theorem TouchPDBCacheEntry_fatal_iff (CleanLabelName : String → String) (c : FPDBCache)
    (fs : FFileSystem) (InLabel : String) :
    (TouchPDBCacheEntry CleanLabelName c fs InLabel = none ↔
        CleanLabelName InLabel ∉ Keys c) ∧
      (TouchPDBCacheEntry CleanLabelName c fs InLabel = none →
        TouchPDBCacheEntry_StateAtExit CleanLabelName c fs InLabel = (c, fs)) ∧
      (∀ r, TouchPDBCacheEntry CleanLabelName c fs InLabel = some r →
        TouchPDBCacheEntry_StateAtExit CleanLabelName c fs InLabel = r) := by
  unfold TouchPDBCacheEntry TouchPDBCacheEntry_StateAtExit Keys
  simp only
  cases hf : MapFind c.PDBCacheEntries (CleanLabelName InLabel) with
  | none =>
    refine ⟨⟨fun _ => (MapFind_eq_none_iff _ _).1 hf, fun _ => rfl⟩, fun _ => rfl, ?_⟩
    intro r hr
    exact absurd hr (by simp)
  | some e =>
    have hk : CleanLabelName InLabel ∈ c.PDBCacheEntries.map Prod.fst :=
      List.mem_map.2 ⟨_, mem_of_MapFind _ _ _ hf, rfl⟩
    refine ⟨⟨fun h => absurd h (by simp), fun h => absurd hk h⟩, fun h => absurd h (by simp), ?_⟩
    intro r hr
    exact Option.some.inj hr

/-- C14: the entry returned by `CreateAndAddPDBCacheEntry` is the entry that
`ReadPDBCacheEntry` reads for the cleaned label from the disk left behind, at
any later time: same `Label`, `Files`, `SizeGB` and `LastAccessTime`; and the
scan of `InitializePDBCache` on an empty map finds exactly this entry under
the cleaned label. -/
theorem CreateAndAdd_then_Read_round_trip (CleanLabelName : String → String)
    (env : FEngineServices) (c : FPDBCache) (fs : FFileSystem) (Orig Depot : String)
    (Synced : List String) (Saved : Nat) (t : Int)
    (hsave : env.SaveStringToFile
      (env.Combine (env.Combine c.PDBCachePath (CleanLabelName Orig)) PDBTimeStampFile)
      (env.Combine (env.Combine c.PDBCachePath (CleanLabelName Orig)) PDBTimeStampFile) =
        some Saved) :
    ∃ e c2 fs2, CreateAndAddPDBCacheEntry CleanLabelName env c fs Orig Depot Synced =
        some (e, c2, fs2) ∧
      ReadPDBCacheEntry (fs2.AtTime t) (CleanLabelName Orig) = e ∧
      ∀ c0 : FPDBCache, c0.PDBCacheEntries = [] →
        MapFind (InitializePDBCache c0 (fs2.AtTime t)).PDBCacheEntries (CleanLabelName Orig) =
          some e := by
  obtain ⟨e, c2, fs2, hc, he, _⟩ :=
    CreateAndAddPDBCacheEntry_eq CleanLabelName env c fs Orig Depot Synced Saved hsave
  have hread : ReadPDBCacheEntry (fs2.AtTime t) (CleanLabelName Orig) = e := by
    rw [he]
    rfl
  refine ⟨e, c2, fs2, hc, hread, ?_⟩
  intro c0 h0
  have hdir : CleanLabelName Orig ∈ (fs2.AtTime t).FindDirectories :=
    CreateAndAddPDBCacheEntry_directory CleanLabelName env c fs Orig Depot Synced e c2 fs2 hc
  have hmem := mem_InitializePDBCache c0 (fs2.AtTime t) _ hdir
  have hwf : WellFormed (InitializePDBCache c0 (fs2.AtTime t)).PDBCacheEntries := by
    apply WellFormed_InitializePDBCache
    rw [h0]
    exact ⟨List.nodup_nil, fun p hp => absurd hp (List.not_mem_nil p)⟩
  rw [← hread]
  exact MapFind_of_mem _ hwf.1 _ hmem

/-- Witness of C14 at `RoundingDisk` with `SampleServices`. -/
theorem CreateAndAdd_then_Read_round_trip_witness :
    ∃ e c2 fs2, CreateAndAddPDBCacheEntry (fun s => s) SampleServices FreshCache RoundingDisk
        "Label" "//depot/UE4" ["//depot/UE4/Engine/Binaries/Win64/UE4.pdb"] =
        some (e, c2, fs2) ∧
      ReadPDBCacheEntry (fs2.AtTime 2600000) "Label" = e ∧
      ∀ c0 : FPDBCache, c0.PDBCacheEntries = [] →
        MapFind (InitializePDBCache c0 (fs2.AtTime 2600000)).PDBCacheEntries "Label" =
          some e :=
  CreateAndAdd_then_Read_round_trip (fun s => s) SampleServices FreshCache RoundingDisk "Label"
    "//depot/UE4" ["//depot/UE4/Engine/Binaries/Win64/UE4.pdb"] 64 2600000 rfl

/-- C15: running `CreateAndAddPDBCacheEntry` a second time with the same
arguments, at any later time and with the local workspace unchanged, returns
an entry with the same `Files` and the same `SizeGB` as the first run, and the
map then holds exactly one entry under the cleaned label, the second one. -/
theorem CreateAndAdd_twice (CleanLabelName : String → String) (env : FEngineServices)
    (c : FPDBCache) (fs : FFileSystem) (Orig Depot : String) (Synced : List String)
    (Saved : Nat) (t : Int) (hwf : WellFormed c.PDBCacheEntries)
    (hsave : env.SaveStringToFile
      (env.Combine (env.Combine c.PDBCachePath (CleanLabelName Orig)) PDBTimeStampFile)
      (env.Combine (env.Combine c.PDBCachePath (CleanLabelName Orig)) PDBTimeStampFile) =
        some Saved) :
    ∃ e1 c1 fs1 e2 c2 fs2,
      CreateAndAddPDBCacheEntry CleanLabelName env c fs Orig Depot Synced = some (e1, c1, fs1) ∧
      CreateAndAddPDBCacheEntry CleanLabelName env c1 (fs1.AtTime t) Orig Depot Synced =
        some (e2, c2, fs2) ∧
      e2.Files = e1.Files ∧ e2.SizeGB = e1.SizeGB ∧
      (c2.PDBCacheEntries.filter (fun p => p.1 == CleanLabelName Orig)).length = 1 ∧
      MapFind c2.PDBCacheEntries (CleanLabelName Orig) = some e2 := by
  obtain ⟨e1, c1, fs1, hc1, he1, _, _, hf1⟩ :=
    CreateAndAddPDBCacheEntry_eq CleanLabelName env c fs Orig Depot Synced Saved hsave
  obtain ⟨hwf1, _, _, hpath⟩ := WellFormed_CreateAndAddPDBCacheEntry CleanLabelName env c fs
    Orig Depot Synced e1 c1 fs1 hwf hc1
  have hsave2 : env.SaveStringToFile
      (env.Combine (env.Combine c1.PDBCachePath (CleanLabelName Orig)) PDBTimeStampFile)
      (env.Combine (env.Combine c1.PDBCachePath (CleanLabelName Orig)) PDBTimeStampFile) =
        some Saved := by
    rw [hpath]
    exact hsave
  obtain ⟨e2, c2, fs2, hc2, he2, _, _, hf2⟩ :=
    CreateAndAddPDBCacheEntry_eq CleanLabelName env c1 (fs1.AtTime t) Orig Depot Synced Saved
      hsave2
  obtain ⟨hwf2, hk2, hm2, _⟩ := WellFormed_CreateAndAddPDBCacheEntry CleanLabelName env c1
    (fs1.AtTime t) Orig Depot Synced e2 c2 fs2 hwf1 hc2
  have hfiles : fs2.FindFilesRecursive (CleanLabelName Orig) =
      fs1.FindFilesRecursive (CleanLabelName Orig) := by
    have hat : (fs1.AtTime t).FindFilesRecursive (CleanLabelName Orig) =
        fs1.FindFilesRecursive (CleanLabelName Orig) := rfl
    rw [hf2, hat, hpath, hf1, WriteFiles_idempotent]
  refine ⟨e1, c1, fs1, e2, c2, fs2, hc1, hc2, ?_, ?_,
    filter_key_length_one _ _ hwf2.1 hk2, MapFind_of_mem _ hwf2.1 _ hm2⟩
  · rw [he1, he2]
    unfold ReadPDBCacheEntry
    simp only [hfiles]
  · rw [he1, he2]
    unfold ReadPDBCacheEntry
    simp only [hfiles]

/-- Witness of C15 at `RecentCache` with `SampleServices`. -/
theorem CreateAndAdd_twice_witness :
    ∃ e1 c1 fs1 e2 c2 fs2,
      CreateAndAddPDBCacheEntry (fun s => s) SampleServices RecentCache RecentDisk "Label"
        "//depot/UE4" ["//depot/UE4/Engine/Binaries/Win64/UE4.pdb"] = some (e1, c1, fs1) ∧
      CreateAndAddPDBCacheEntry (fun s => s) SampleServices c1 (fs1.AtTime 5000) "Label"
        "//depot/UE4" ["//depot/UE4/Engine/Binaries/Win64/UE4.pdb"] = some (e2, c2, fs2) ∧
      e2.Files = e1.Files ∧ e2.SizeGB = e1.SizeGB ∧
      (c2.PDBCacheEntries.filter (fun p => p.1 == "Label")).length = 1 ∧
      MapFind c2.PDBCacheEntries "Label" = some e2 :=
  CreateAndAdd_twice (fun s => s) SampleServices RecentCache RecentDisk "Label" "//depot/UE4"
    ["//depot/UE4/Engine/Binaries/Win64/UE4.pdb"] 64 5000 (by decide) rfl

theorem FindDirectory_SetTimeStamp (fs : FFileSystem) (N : String) (t : Int) :
    (fs.SetTimeStamp N t).FindDirectory N =
      (fs.FindDirectory N).map
        (fun d => { d with TimeStamp := d.TimeStamp.map (fun _ => t) }) := by
  unfold FFileSystem.SetTimeStamp FFileSystem.FindDirectory
  simp only
  generalize fs.Directories = ds
  induction ds with
  | nil => rfl
  | cons d ds ih =>
    rw [List.map_cons]
    by_cases hd : d.Name = N
    · have hb : (d.Name == N) = true := by simpa using hd
      rw [if_pos hb]
      simp only [List.find?_cons, hb, Option.map_some']
    · have hb : (d.Name == N) = false := by simpa using hd
      have hb2 : ¬ (d.Name == N) = true := by simp [hb]
      rw [if_neg hb2]
      simp only [List.find?_cons, hb]
      exact ih

/-- The entries of the map after `TouchPDBCacheEntry`. -/
theorem TouchPDBCacheEntry_entries (CleanLabelName : String → String) (c : FPDBCache)
    (fs : FFileSystem) (InLabel : String) (e : FPDBCacheEntry)
    (he : MapFind c.PDBCacheEntries (CleanLabelName InLabel) = some e) :
    ∃ c1 fs1, TouchPDBCacheEntry CleanLabelName c fs InLabel = some (c1, fs1) ∧
      (∀ p, p ∈ c1.PDBCacheEntries ↔
        p ∈ c.PDBCacheEntries.map (fun q =>
          if q.1 == CleanLabelName InLabel then (q.1, SetLastAccessTimeToNow e fs) else q)) ∧
      fs1 = fs.SetTimeStamp (CleanLabelName InLabel) fs.Now := by
  refine ⟨_, _, by simp only [TouchPDBCacheEntry, he]; rfl, ?_, rfl⟩
  intro p
  unfold SortPDBCache
  simp only
  rw [List.mem_insertionSort]

/-- `TouchPDBCacheEntry` keeps the map well formed. -/
theorem WellFormed_TouchPDBCacheEntry (CleanLabelName : String → String) (c c2 : FPDBCache)
    (fs fs2 : FFileSystem) (InLabel : String) (hwf : WellFormed c.PDBCacheEntries)
    (h : TouchPDBCacheEntry CleanLabelName c fs InLabel = some (c2, fs2)) :
    WellFormed c2.PDBCacheEntries := by
  have hin : CleanLabelName InLabel ∈ Keys c := by
    by_contra hn
    have := (MapFind_eq_none_iff c.PDBCacheEntries (CleanLabelName InLabel)).2 hn
    simp [TouchPDBCacheEntry, this] at h
  obtain ⟨c1, fs1, h1, hwf1, _, _⟩ := TouchPDBCacheEntry_eq CleanLabelName c fs InLabel hwf hin
  rw [h] at h1
  have : c2 = c1 := congrArg Prod.fst (Option.some.inj h1)
  rw [this]
  exact hwf1

/-- `RemovePDBCacheEntry` keeps the map well formed. -/
theorem WellFormed_RemovePDBCacheEntry (c c2 : FPDBCache) (fs fs2 : FFileSystem)
    (InLabel : String) (hwf : WellFormed c.PDBCacheEntries)
    (h : RemovePDBCacheEntry c fs InLabel = some (c2, fs2)) :
    WellFormed c2.PDBCacheEntries := by
  unfold RemovePDBCacheEntry at h
  cases hf : MapFind c.PDBCacheEntries InLabel with
  | none => simp [hf] at h
  | some e =>
    simp only [hf, Option.some.injEq, Prod.mk.injEq] at h
    rw [← h.1]
    exact WellFormed_filter _ _ hwf

/-- Every reachable map is well formed. -/
theorem WellFormed_of_Reachable (CleanLabelName : String → String) (env : FEngineServices)
    (c : FPDBCache) (h : Reachable CleanLabelName env c) : WellFormed c.PDBCacheEntries := by
  induction h with
  | empty c h0 =>
    rw [h0]
    exact ⟨List.nodup_nil, fun p hp => absurd hp (List.not_mem_nil p)⟩
  | scan c fs _ ih => exact WellFormed_InitializePDBCache c fs ih
  | create c c2 fs fs2 Orig Depot Synced e _ hstep ih =>
    exact (WellFormed_CreateAndAddPDBCacheEntry CleanLabelName env c fs Orig Depot Synced e c2
      fs2 ih hstep).1
  | touch c c2 fs fs2 InLabel _ hstep ih =>
    exact WellFormed_TouchPDBCacheEntry CleanLabelName c c2 fs fs2 InLabel ih hstep
  | remove c c2 fs fs2 InLabel _ hstep ih =>
    exact WellFormed_RemovePDBCacheEntry c c2 fs fs2 InLabel ih hstep
  | clean c c2 fs fs2 D T _ hstep ih =>
    obtain ⟨c3, fs3, h3, hwf3, _⟩ := CleanPDBCache_returns c fs D T ih
    rw [hstep] at h3
    have : c2 = c3 := congrArg Prod.fst (Option.some.inj h3)
    rw [this]
    exact hwf3

/-- C13, as stated, fails: the entry `Unmarked` that `InitializePDBCache`
reads from `FullDisk` has no marker file. `TouchPDBCacheEntry` sets its
`LastAccessTime` to the current time 2592000, `SetTimeStamp` finds no file to
change and its result is ignored, so the directory has no marker file
afterwards and `GetTimeStamp` still answers 0. -/
theorem TouchPDBCacheEntry_without_marker :
    "Unmarked" ∈ Keys (InitializePDBCache (SampleCache []) FullDisk) ∧
      (TouchPDBCacheEntry (fun s => s) (InitializePDBCache (SampleCache []) FullDisk) FullDisk
        "Unmarked").map
        (fun r => ((MapFind r.1.PDBCacheEntries "Unmarked").map (fun e => e.LastAccessTime),
          (r.2.FindDirectory "Unmarked").map (fun d => d.TimeStamp),
          r.2.GetTimeStamp "Unmarked")) =
        some (some 2592000, some none, 0) := by
  decide

/-- C13, amended: for a label present in the cache whose marker file exists,
`TouchPDBCacheEntry` returns; the entry under the cleaned label then has the
current time as `LastAccessTime` and its former `Label`, `Files` and `SizeGB`,
the marker file of the entry directory has that `LastAccessTime` as
modification time, the map has the same keys, and every entry under another
key is in the map as before. -/
theorem TouchPDBCacheEntry_effect (CleanLabelName : String → String) (c : FPDBCache)
    (fs : FFileSystem) (InLabel : String) (e : FPDBCacheEntry) (d : FCacheDirectory) (t : Int)
    (hwf : WellFormed c.PDBCacheEntries)
    (he : MapFind c.PDBCacheEntries (CleanLabelName InLabel) = some e)
    (hdir : fs.FindDirectory (CleanLabelName InLabel) = some d)
    (hmarker : d.TimeStamp = some t) :
    ∃ c1 fs1 e1 d1, TouchPDBCacheEntry CleanLabelName c fs InLabel = some (c1, fs1) ∧
      MapFind c1.PDBCacheEntries (CleanLabelName InLabel) = some e1 ∧
      e1.LastAccessTime = fs.Now ∧
      fs1.FindDirectory (CleanLabelName InLabel) = some d1 ∧
      d1.TimeStamp = some e1.LastAccessTime ∧
      e1.Label = e.Label ∧ e1.Files = e.Files ∧ e1.SizeGB = e.SizeGB ∧
      (∀ k, k ∈ Keys c1 ↔ k ∈ Keys c) ∧
      (∀ p : String × FPDBCacheEntry, p.1 ≠ CleanLabelName InLabel →
        (p ∈ c1.PDBCacheEntries ↔ p ∈ c.PDBCacheEntries)) := by
  have hmem : (CleanLabelName InLabel, e) ∈ c.PDBCacheEntries := mem_of_MapFind _ _ _ he
  have hin : CleanLabelName InLabel ∈ Keys c := List.mem_map.2 ⟨_, hmem, rfl⟩
  obtain ⟨c1, fs1, h1, hent, hfs⟩ := TouchPDBCacheEntry_entries CleanLabelName c fs InLabel e he
  obtain ⟨c1b, fs1b, h1b, hwf1, hkeys, _⟩ :=
    TouchPDBCacheEntry_eq CleanLabelName c fs InLabel hwf hin
  have hcc : c1b = c1 := by
    rw [h1] at h1b
    exact (congrArg Prod.fst (Option.some.inj h1b)).symm
  rw [hcc] at hwf1 hkeys
  have hnew : (CleanLabelName InLabel, SetLastAccessTimeToNow e fs) ∈ c1.PDBCacheEntries := by
    rw [hent]
    exact List.mem_map.2 ⟨_, hmem, by simp⟩
  refine ⟨c1, fs1, SetLastAccessTimeToNow e fs,
    { d with TimeStamp := d.TimeStamp.map (fun _ => fs.Now) }, h1,
    MapFind_of_mem _ hwf1.1 _ hnew, rfl, ?_, ?_, rfl, rfl, rfl, hkeys, ?_⟩
  · rw [hfs, FindDirectory_SetTimeStamp, hdir]
    rfl
  · rw [hmarker]
    rfl
  · intro p hp
    rw [hent]
    constructor
    · intro h
      rcases List.mem_map.1 h with ⟨q, hq, hqp⟩
      by_cases hqk : q.1 = CleanLabelName InLabel
      · simp only [hqk, beq_self_eq_true, if_true] at hqp
        exact absurd (by rw [← hqp]) hp
      · have hb : (q.1 == CleanLabelName InLabel) = false := by simpa using hqk
        have hqp2 : q = p := by simpa [hb] using hqp
        exact hqp2 ▸ hq
    · intro h
      have hb : (p.1 == CleanLabelName InLabel) = false := by simpa using hp
      exact List.mem_map.2 ⟨p, h, by simp [hb]⟩

/-- Witness of C13 (amended) at `ScenarioCache`: touching `A`. -/
theorem TouchPDBCacheEntry_effect_witness :
    ∃ c1 fs1 e1 d1, TouchPDBCacheEntry (fun s => s) ScenarioCache ScenarioDisk "A" =
        some (c1, fs1) ∧
      MapFind c1.PDBCacheEntries "A" = some e1 ∧
      e1.LastAccessTime = ScenarioDisk.Now ∧
      fs1.FindDirectory "A" = some d1 ∧
      d1.TimeStamp = some e1.LastAccessTime ∧
      e1.Label = ScenarioEntryA.Label ∧ e1.Files = ScenarioEntryA.Files ∧
      e1.SizeGB = ScenarioEntryA.SizeGB ∧
      (∀ k, k ∈ Keys c1 ↔ k ∈ Keys ScenarioCache) ∧
      (∀ p : String × FPDBCacheEntry, p.1 ≠ "A" →
        (p ∈ c1.PDBCacheEntries ↔ p ∈ ScenarioCache.PDBCacheEntries)) :=
  TouchPDBCacheEntry_effect (fun s => s) ScenarioCache ScenarioDisk "A" ScenarioEntryA
    ScenarioDirectoryA 864000 (by decide) (by decide) (by decide) rfl

/-- C16: in every cache state reachable from an empty map through
`InitializePDBCache`, `CreateAndAddPDBCacheEntry`, `TouchPDBCacheEntry`,
`RemovePDBCacheEntry` and `CleanPDBCache`, every key is the `Label` of the
entry stored under it, no two entries have the same `Label` and no key occurs
twice. -/
theorem Reachable_one_entry_per_label (CleanLabelName : String → String)
    (env : FEngineServices) (c : FPDBCache) (h : Reachable CleanLabelName env c) :
    (∀ p ∈ c.PDBCacheEntries, p.1 = p.2.Label) ∧
      (c.PDBCacheEntries.map (fun p => p.2.Label)).Nodup ∧ (Keys c).Nodup := by
  have hwf := WellFormed_of_Reachable CleanLabelName env c h
  refine ⟨hwf.2, ?_, hwf.1⟩
  have : c.PDBCacheEntries.map (fun p => p.2.Label) = c.PDBCacheEntries.map Prod.fst :=
    List.map_congr_left (fun q hq => (hwf.2 q hq).symm)
  rw [this]
  exact hwf.1

/-- Witness of C16: the map that `InitializePDBCache` builds from
`ScenarioDisk`. -/
theorem Reachable_one_entry_per_label_witness :
    Reachable (fun s => s) SampleServices (InitializePDBCache FreshCache ScenarioDisk) ∧
      ((∀ p ∈ (InitializePDBCache FreshCache ScenarioDisk).PDBCacheEntries, p.1 = p.2.Label) ∧
        ((InitializePDBCache FreshCache ScenarioDisk).PDBCacheEntries.map
          (fun p => p.2.Label)).Nodup ∧
        (Keys (InitializePDBCache FreshCache ScenarioDisk)).Nodup) :=
  ⟨Reachable.scan FreshCache ScenarioDisk (Reachable.empty FreshCache rfl),
    Reachable_one_entry_per_label (fun s => s) SampleServices
      (InitializePDBCache FreshCache ScenarioDisk)
      (Reachable.scan FreshCache ScenarioDisk (Reachable.empty FreshCache rfl))⟩

/-! ## Lemmas on the sync functions -/

theorem FormatDecimal_of_nonneg (C : Int) (hC : 0 ≤ C) : FormatDecimal C = Nat.repr C.toNat := by
  obtain ⟨n, rfl⟩ := Int.eq_ofNat_of_zero_le hC
  rfl

theorem CopyLoop_calls (env : FEngineServices) (Folder : String)
    (revs : List FSourceControlRevision) :
    (SyncRequiredFiles_CopyLoop env Folder revs).2 =
      revs.map (fun r =>
        FSourceControlCall.Get r.Filename (env.Combine Folder (env.GetCleanFilename r.Filename))) := by
  induction revs with
  | nil => rfl
  | cons r revs ih =>
    simp only [SyncRequiredFiles_CopyLoop, List.map_cons]
    split_ifs <;> simp [ih]

theorem CopyLoop_count_pos (env : FEngineServices) (Folder : String)
    (revs : List FSourceControlRevision) :
    0 < (SyncRequiredFiles_CopyLoop env Folder revs).1 ↔
      ∃ r ∈ revs, r.Get (env.Combine Folder (env.GetCleanFilename r.Filename)) = true := by
  induction revs with
  | nil => simp [SyncRequiredFiles_CopyLoop]
  | cons r revs ih =>
    simp only [SyncRequiredFiles_CopyLoop]
    split_ifs with h
    · simp only [List.mem_cons, exists_eq_or_imp]
      constructor
      · exact fun _ => Or.inl h
      · exact fun _ => Nat.succ_pos _
    · simp only [List.mem_cons, exists_eq_or_imp]
      rw [ih]
      constructor
      · exact fun hx => Or.inr hx
      · rintro (hx | hx)
        · exact absurd hx h
        · exact hx

theorem AnsweredRevisions_RequiredFilePatterns (Label : FSourceControlLabel)
    (D P : String) :
    AnsweredRevisions Label (RequiredFilePatterns D P) =
      (Label.GetFileRevisions (D ++ "/Engine/Binaries/" ++ P ++ "/" ++ "...pdb...")).2 ++
        (Label.GetFileRevisions (D ++ "/Engine/Binaries/" ++ P ++ "/" ++ "...exe...")).2 ++
        (Label.GetFileRevisions (D ++ "/Engine/Binaries/" ++ P ++ "/" ++ "...dll...")).2 ++
        (Label.GetFileRevisions (D ++ "/...Game/Binaries/" ++ P ++ "/" ++ "...pdb...")).2 ++
        (Label.GetFileRevisions (D ++ "/...Game/Binaries/" ++ P ++ "/" ++ "...exe...")).2 ++
        (Label.GetFileRevisions (D ++ "/...Game/Binaries/" ++ P ++ "/" ++ "...dll...")).2 := by
  simp [AnsweredRevisions, RequiredFilePatterns, List.append_assoc]

/-- `SyncRequiredFilesForDebuggingFromLabel` with all arguments valid and a
valid label handle. -/
theorem SyncRequiredFiles_of_label (self : ICrashDebugHelper) (env : FEngineServices)
    (scm : FSourceControlProvider) (InLabel InPlatform : String) (Label : FSourceControlLabel)
    (hinit : self.bInitialized = true) (hL : 0 < InLabel.length) (hP : 0 < InPlatform.length)
    (hlabel : scm.GetLabel InLabel = some Label) :
    SyncRequiredFilesForDebuggingFromLabel self env scm InLabel InPlatform =
      (decide (0 < (SyncRequiredFiles_CopyLoop env (self.LocalSymbolStore ++ "/" ++ InPlatform ++ "/")
          (AnsweredRevisions Label (RequiredFilePatterns self.DepotName InPlatform))).1),
        self,
        FSourceControlCall.GetLabel InLabel ::
          (RequiredFilePatterns self.DepotName InPlatform).map
            (FSourceControlCall.GetFileRevisions Label.Name) ++
          (SyncRequiredFiles_CopyLoop env (self.LocalSymbolStore ++ "/" ++ InPlatform ++ "/")
            (AnsweredRevisions Label (RequiredFilePatterns self.DepotName InPlatform))).2) := by
  rw [AnsweredRevisions_RequiredFilePatterns]
  unfold SyncRequiredFilesForDebuggingFromLabel
  have h1 : ¬ self.bInitialized = false := by simp [hinit]
  have h2 : ¬ InLabel.length ≤ 0 := by omega
  have h3 : ¬ InPlatform.length ≤ 0 := by omega
  simp only [h1, h2, h3, if_false, hlabel, Bool.true_or, if_true]
  rfl

/-- `SyncRequiredFilesForDebuggingFromLabel` without a valid label handle or
with an invalid argument. -/
theorem SyncRequiredFiles_of_invalid (self : ICrashDebugHelper) (env : FEngineServices)
    (scm : FSourceControlProvider) (InLabel InPlatform : String)
    (h : self.bInitialized = false ∨ InLabel.length ≤ 0 ∨ InPlatform.length ≤ 0 ∨
      scm.GetLabel InLabel = none) :
    (SyncRequiredFilesForDebuggingFromLabel self env scm InLabel InPlatform).1 = false ∧
      (SyncRequiredFilesForDebuggingFromLabel self env scm InLabel InPlatform).2.1 = self ∧
      ((SyncRequiredFilesForDebuggingFromLabel self env scm InLabel InPlatform).2.2 = [] ∨
        (SyncRequiredFilesForDebuggingFromLabel self env scm InLabel InPlatform).2.2 =
          [FSourceControlCall.GetLabel InLabel]) := by
  unfold SyncRequiredFilesForDebuggingFromLabel
  by_cases h1 : self.bInitialized = false
  · simp [h1]
  · by_cases h2 : InLabel.length ≤ 0
    · simp [h1, h2]
    · by_cases h3 : InPlatform.length ≤ 0
      · simp [h1, h2, h3]
      · have h4 : scm.GetLabel InLabel = none := by
          rcases h with h | h | h | h
          · exact absurd h h1
          · exact absurd h h2
          · exact absurd h h3
          · exact h
        simp only [h1, h2, h3, if_false, h4]
        simp

/-! ## The claims on label resolution and on the sync by label -/

/-- C17: for a negative engine version and a negative changelist number
`RetrieveBuildLabel` returns the empty string and makes no call to the source
control system, whatever the label pattern is. -/
theorem RetrieveBuildLabel_invalid (self : ICrashDebugHelper) (scm : FSourceControlProvider)
    (InEngineVersion InChangelistNumber : Int) (hV : InEngineVersion < 0)
    (hC : InChangelistNumber < 0) :
    RetrieveBuildLabel self scm InEngineVersion InChangelistNumber = ("", []) := by
  unfold RetrieveBuildLabel
  simp [hV, hC]

/-- Witness of C17: `RetrieveBuildLabel( -1, -1 )`. -/
theorem RetrieveBuildLabel_invalid_witness :
    RetrieveBuildLabel SampleHelper SampleProvider (-1) (-1) = ("", []) :=
  RetrieveBuildLabel_invalid SampleHelper SampleProvider (-1) (-1) (by decide) (by decide)

/-- C18: for a changelist number `C >= 0` and a non-empty label pattern,
`RetrieveBuildLabel` makes exactly one call to the source control system,
`GetLabels` for the pattern with every `%CHANGELISTNUMBER%` replaced by the
decimal form of `C`; it returns the name of the first label of the answer, and
the empty string when the answer is empty. -/
theorem RetrieveBuildLabel_by_changelist (self : ICrashDebugHelper)
    (scm : FSourceControlProvider) (InEngineVersion InChangelistNumber : Int)
    (hC : 0 ≤ InChangelistNumber) (hP : self.SourceControlBuildLabelPattern ≠ "") :
    RetrieveBuildLabel self scm InEngineVersion InChangelistNumber =
      ((((scm.GetLabels (ReplaceCaseSensitive self.SourceControlBuildLabelPattern
          "%CHANGELISTNUMBER%" (Nat.repr InChangelistNumber.toNat))).head?).map
            (fun Label => Label.Name)).getD "",
        [FSourceControlCall.GetLabels (ReplaceCaseSensitive self.SourceControlBuildLabelPattern
          "%CHANGELISTNUMBER%" (Nat.repr InChangelistNumber.toNat))]) := by
  unfold RetrieveBuildLabel
  have h1 : ¬ (InEngineVersion < 0 ∧ InChangelistNumber < 0) := by omega
  have h2 : ("" : String) = "" ∧ InChangelistNumber ≥ 0 ∧
      ¬ self.SourceControlBuildLabelPattern = "" := ⟨rfl, hC, hP⟩
  simp only [h1, if_false, h2, FormatDecimal_of_nonneg _ hC]
  simp only [and_self, not_false_eq_true, if_true]
  cases scm.GetLabels (ReplaceCaseSensitive self.SourceControlBuildLabelPattern
      "%CHANGELISTNUMBER%" (Nat.repr InChangelistNumber.toNat)) with
  | nil => rfl
  | cons Label rest => rfl

/-- Witness of C18 at changelist 2082666. -/
theorem RetrieveBuildLabel_by_changelist_witness :
    RetrieveBuildLabel SampleHelper SampleProvider (-1) 2082666 =
      ((((SampleProvider.GetLabels (ReplaceCaseSensitive
          SampleHelper.SourceControlBuildLabelPattern "%CHANGELISTNUMBER%"
          (Nat.repr (2082666 : Int).toNat))).head?).map (fun Label => Label.Name)).getD "",
        [FSourceControlCall.GetLabels (ReplaceCaseSensitive
          SampleHelper.SourceControlBuildLabelPattern "%CHANGELISTNUMBER%"
          (Nat.repr (2082666 : Int).toNat))]) :=
  RetrieveBuildLabel_by_changelist SampleHelper SampleProvider (-1) 2082666 (by decide)
    (by decide)

/-- C19: `SyncRequiredFilesForDebuggingFromLabel` returns true exactly when the
helper is initialized, the label and the platform are non-empty, the provider
gives a valid label handle and `Get` succeeds for at least one of the
revisions the label answers; with a valid handle `Get` is called for every
answered revision, whether earlier copies failed or not. Without a valid
handle it returns false and calls `Get` for no revision. The helper, and with
it the entry map of the PDB cache, is unchanged in every case. -/
theorem SyncRequiredFiles_result (self : ICrashDebugHelper) (env : FEngineServices)
    (scm : FSourceControlProvider) (InLabel InPlatform : String) :
    ((SyncRequiredFilesForDebuggingFromLabel self env scm InLabel InPlatform).1 = true ↔
        self.bInitialized = true ∧ 0 < InLabel.length ∧ 0 < InPlatform.length ∧
        ∃ Label, scm.GetLabel InLabel = some Label ∧
          ∃ r ∈ AnsweredRevisions Label (RequiredFilePatterns self.DepotName InPlatform),
            r.Get (LocalCopyFilename self env InPlatform r) = true) ∧
      (∀ Label, self.bInitialized = true → 0 < InLabel.length → 0 < InPlatform.length →
        scm.GetLabel InLabel = some Label →
        ∀ r ∈ AnsweredRevisions Label (RequiredFilePatterns self.DepotName InPlatform),
          FSourceControlCall.Get r.Filename (LocalCopyFilename self env InPlatform r) ∈
            (SyncRequiredFilesForDebuggingFromLabel self env scm InLabel InPlatform).2.2) ∧
      (scm.GetLabel InLabel = none →
        (SyncRequiredFilesForDebuggingFromLabel self env scm InLabel InPlatform).1 = false ∧
        ∀ Filename InFile, FSourceControlCall.Get Filename InFile ∉
          (SyncRequiredFilesForDebuggingFromLabel self env scm InLabel InPlatform).2.2) ∧
      (SyncRequiredFilesForDebuggingFromLabel self env scm InLabel InPlatform).2.1 = self ∧
      (SyncRequiredFilesForDebuggingFromLabel self env scm InLabel
        InPlatform).2.1.PDBCache.PDBCacheEntries = self.PDBCache.PDBCacheEntries := by
  have hvalid : ∀ Label, self.bInitialized = true → 0 < InLabel.length →
      0 < InPlatform.length → scm.GetLabel InLabel = some Label →
      ((SyncRequiredFilesForDebuggingFromLabel self env scm InLabel InPlatform).1 = true ↔
        ∃ r ∈ AnsweredRevisions Label (RequiredFilePatterns self.DepotName InPlatform),
          r.Get (LocalCopyFilename self env InPlatform r) = true) ∧
      (∀ r ∈ AnsweredRevisions Label (RequiredFilePatterns self.DepotName InPlatform),
        FSourceControlCall.Get r.Filename (LocalCopyFilename self env InPlatform r) ∈
          (SyncRequiredFilesForDebuggingFromLabel self env scm InLabel InPlatform).2.2) ∧
      (SyncRequiredFilesForDebuggingFromLabel self env scm InLabel InPlatform).2.1 = self := by
    intro Label h1 h2 h3 h4
    rw [SyncRequiredFiles_of_label self env scm InLabel InPlatform Label h1 h2 h3 h4]
    refine ⟨?_, ?_, rfl⟩
    · simp only [decide_eq_true_eq]
      exact CopyLoop_count_pos env _ _
    · intro r hr
      simp only [CopyLoop_calls]
      apply List.mem_cons_of_mem
      apply List.mem_append_right
      exact List.mem_map.2 ⟨r, hr, rfl⟩
  have hself : (SyncRequiredFilesForDebuggingFromLabel self env scm InLabel InPlatform).2.1 =
      self := by
    by_cases hok : self.bInitialized = true ∧ 0 < InLabel.length ∧ 0 < InPlatform.length ∧
        ∃ Label, scm.GetLabel InLabel = some Label
    · obtain ⟨h1, h2, h3, Label, h4⟩ := hok
      exact (hvalid Label h1 h2 h3 h4).2.2
    · apply (SyncRequiredFiles_of_invalid self env scm InLabel InPlatform _).2.1
      by_contra hn
      apply hok
      simp only [not_or] at hn
      refine ⟨by simpa using hn.1, by omega, by omega, ?_⟩
      cases hg : scm.GetLabel InLabel with
      | none => exact absurd hg hn.2.2.2
      | some Label => exact ⟨Label, rfl⟩
  refine ⟨?_, ?_, ?_, hself, by rw [hself]⟩
  · constructor
    · intro hres
      by_cases hok : self.bInitialized = true ∧ 0 < InLabel.length ∧ 0 < InPlatform.length ∧
          ∃ Label, scm.GetLabel InLabel = some Label
      · obtain ⟨h1, h2, h3, Label, h4⟩ := hok
        exact ⟨h1, h2, h3, Label, h4, ((hvalid Label h1 h2 h3 h4).1).1 hres⟩
      · have hinv : self.bInitialized = false ∨ InLabel.length ≤ 0 ∨ InPlatform.length ≤ 0 ∨
            scm.GetLabel InLabel = none := by
          by_contra hn
          apply hok
          simp only [not_or] at hn
          refine ⟨by simpa using hn.1, by omega, by omega, ?_⟩
          cases hg : scm.GetLabel InLabel with
          | none => exact absurd hg hn.2.2.2
          | some Label => exact ⟨Label, rfl⟩
        have := (SyncRequiredFiles_of_invalid self env scm InLabel InPlatform hinv).1
        rw [this] at hres
        exact absurd hres (by decide)
    · rintro ⟨h1, h2, h3, Label, h4, hr⟩
      exact ((hvalid Label h1 h2 h3 h4).1).2 hr
  · intro Label h1 h2 h3 h4
    exact (hvalid Label h1 h2 h3 h4).2.1
  · intro hnone
    obtain ⟨hf, _, htr⟩ := SyncRequiredFiles_of_invalid self env scm InLabel InPlatform
      (Or.inr (Or.inr (Or.inr hnone)))
    refine ⟨hf, ?_⟩
    intro Filename InFile hmem
    rcases htr with htr | htr
    · rw [htr] at hmem
      exact absurd hmem (List.not_mem_nil _)
    · rw [htr] at hmem
      simp at hmem

/-- C20: with the helper initialized, non-empty label and platform and a valid
label handle, the calls of `SyncRequiredFilesForDebuggingFromLabel` are
`GetLabel`, then `GetFileRevisions` for exactly the six patterns of
`RequiredFilePatterns` (engine root and game root, each with the wildcards for
symbol files, executables and libraries), then `Get` for the revisions of the
six answers, concatenated in that order. -/
theorem SyncRequiredFiles_calls (self : ICrashDebugHelper) (env : FEngineServices)
    (scm : FSourceControlProvider) (InLabel InPlatform : String) (Label : FSourceControlLabel)
    (hinit : self.bInitialized = true) (hL : 0 < InLabel.length) (hP : 0 < InPlatform.length)
    (hlabel : scm.GetLabel InLabel = some Label) :
    (SyncRequiredFilesForDebuggingFromLabel self env scm InLabel InPlatform).2.2 =
        FSourceControlCall.GetLabel InLabel ::
          (RequiredFilePatterns self.DepotName InPlatform).map
            (FSourceControlCall.GetFileRevisions Label.Name) ++
          (AnsweredRevisions Label (RequiredFilePatterns self.DepotName InPlatform)).map
            (fun r => FSourceControlCall.Get r.Filename (LocalCopyFilename self env InPlatform r)) ∧
      RequiredFilePatterns self.DepotName InPlatform =
        [self.DepotName ++ "/Engine/Binaries/" ++ InPlatform ++ "/...pdb...",
         self.DepotName ++ "/Engine/Binaries/" ++ InPlatform ++ "/...exe...",
         self.DepotName ++ "/Engine/Binaries/" ++ InPlatform ++ "/...dll...",
         self.DepotName ++ "/...Game/Binaries/" ++ InPlatform ++ "/...pdb...",
         self.DepotName ++ "/...Game/Binaries/" ++ InPlatform ++ "/...exe...",
         self.DepotName ++ "/...Game/Binaries/" ++ InPlatform ++ "/...dll..."] := by
  constructor
  · rw [SyncRequiredFiles_of_label self env scm InLabel InPlatform Label hinit hL hP hlabel]
    simp only [CopyLoop_calls]
    rfl
  · simp [RequiredFilePatterns, String.append_assoc]

/-- Witness of C20 at `SampleHelper` for the platform `Win64`. -/
theorem SyncRequiredFiles_calls_witness :
    (SyncRequiredFilesForDebuggingFromLabel SampleHelper SampleServices SampleProvider
        "UE4_CL-2082666" "Win64").2.2 =
        FSourceControlCall.GetLabel "UE4_CL-2082666" ::
          (RequiredFilePatterns SampleHelper.DepotName "Win64").map
            (FSourceControlCall.GetFileRevisions SampleLabel.Name) ++
          (AnsweredRevisions SampleLabel (RequiredFilePatterns SampleHelper.DepotName "Win64")).map
            (fun r => FSourceControlCall.Get r.Filename
              (LocalCopyFilename SampleHelper SampleServices "Win64" r)) ∧
      RequiredFilePatterns SampleHelper.DepotName "Win64" =
        [SampleHelper.DepotName ++ "/Engine/Binaries/" ++ "Win64" ++ "/...pdb...",
         SampleHelper.DepotName ++ "/Engine/Binaries/" ++ "Win64" ++ "/...exe...",
         SampleHelper.DepotName ++ "/Engine/Binaries/" ++ "Win64" ++ "/...dll...",
         SampleHelper.DepotName ++ "/...Game/Binaries/" ++ "Win64" ++ "/...pdb...",
         SampleHelper.DepotName ++ "/...Game/Binaries/" ++ "Win64" ++ "/...exe...",
         SampleHelper.DepotName ++ "/...Game/Binaries/" ++ "Win64" ++ "/...dll..."] :=
  SyncRequiredFiles_calls SampleHelper SampleServices SampleProvider "UE4_CL-2082666" "Win64"
    SampleLabel rfl (by decide) (by decide) rfl

/-! ## Lemmas on `SyncModules` -/

theorem SyncModules_SyncModule_eq (env : FEngineServices) (DepotName : String)
    (Label : FSourceControlLabel) (ModuleName : String)
    (st : List String × List FSyncModulesCall) :
    SyncModules_SyncModule env DepotName Label ModuleName st =
      (st.1 ++ SyncModules_ModulePaths env DepotName ModuleName,
        st.2 ++ (SyncModules_ModulePaths env DepotName ModuleName).map
          (fun Path => FSyncModulesCall.Sync 0 Path (Label.Sync Path))) := by
  simp [SyncModules_SyncModule, SyncModules_SyncAndAdd, SyncModules_ModulePaths,
    List.append_assoc]

theorem SyncModules_foldl_eq (env : FEngineServices) (DepotName : String)
    (Label : FSourceControlLabel) (ModuleNames : List String)
    (st : List String × List FSyncModulesCall) :
    ModuleNames.foldl
        (fun st ModuleName => SyncModules_SyncModule env DepotName Label ModuleName st) st =
      (st.1 ++ (ModuleNames.map (SyncModules_ModulePaths env DepotName)).flatten,
        st.2 ++ ((ModuleNames.map (SyncModules_ModulePaths env DepotName)).flatten).map
          (fun Path => FSyncModulesCall.Sync 0 Path (Label.Sync Path))) := by
  induction ModuleNames generalizing st with
  | nil => simp
  | cons M Ms ih =>
    rw [List.foldl_cons, ih, SyncModules_SyncModule_eq]
    simp [List.append_assoc]

theorem SyncModules_SyncLabels_eq (Contains : String → String → Bool) (env : FEngineServices)
    (DepotName : String) (Label0 : FSourceControlLabel) (ModuleNames : List String)
    (Labels : List FSourceControlLabel) (st : List String × List FSyncModulesCall) :
    SyncModules_SyncLabels Contains env DepotName Label0 ModuleNames Labels st =
      (st.1 ++ SyncModules_Paths Contains env DepotName ModuleNames Labels,
        st.2 ++ (SyncModules_Paths Contains env DepotName ModuleNames Labels).map
          (fun Path => FSyncModulesCall.Sync 0 Path (Label0.Sync Path))) := by
  induction Labels generalizing st with
  | nil => simp [SyncModules_SyncLabels, SyncModules_Paths]
  | cons Label rest ih =>
    by_cases hmac : Contains Label.Name "Mac" = true
    · simp only [SyncModules_SyncLabels, hmac, if_true]
      rw [ih]
      simp [SyncModules_Paths, List.filter_cons, hmac]
    · have hb : Contains Label.Name "Mac" = false := by simpa using hmac
      simp only [SyncModules_SyncLabels, hb]
      rw [if_neg (by simp), ih, SyncModules_foldl_eq]
      simp [SyncModules_Paths, List.filter_cons, hb, List.append_assoc]

theorem length_flatten_ModulePaths (env : FEngineServices) (DepotName : String)
    (ModuleNames : List String) :
    ((ModuleNames.map (SyncModules_ModulePaths env DepotName)).flatten).length =
      6 * ModuleNames.length := by
  induction ModuleNames with
  | nil => rfl
  | cons M Ms ih =>
    rw [List.map_cons, List.flatten_cons, List.length_append, ih, List.length_cons]
    simp only [SyncModules_ModulePaths, List.length_cons, List.length_nil]
    omega

theorem length_SyncModules_Paths (Contains : String → String → Bool) (env : FEngineServices)
    (DepotName : String) (ModuleNames : List String) (Labels : List FSourceControlLabel) :
    (SyncModules_Paths Contains env DepotName ModuleNames Labels).length =
      6 * ModuleNames.length *
        (Labels.filter (fun Label => !Contains Label.Name "Mac")).length := by
  unfold SyncModules_Paths
  generalize Labels.filter (fun Label => !Contains Label.Name "Mac") = Ls
  induction Ls with
  | nil => rfl
  | cons L Ls ih =>
    rw [List.map_cons, List.flatten_cons, List.length_append, ih, length_flatten_ModulePaths,
      List.length_cons]
    ring

theorem SyncModules_of_no_label (CleanLabelName : String → String)
    (Contains : String → String → Bool) (env : FEngineServices) (self : ICrashDebugHelper)
    (scm : ISourceControlModule) (fs : FFileSystem) (CrashInfo : FCrashInfo)
    (hL : 0 < CrashInfo.LabelName.length) (hen : scm.bEnabled = true)
    (hlabels : scm.Provider.GetLabels CrashInfo.LabelName = []) :
    SyncModules CleanLabelName Contains env self scm fs CrashInfo =
      { ReturnValue := some true, CrashInfo := CrashInfo, PDBCache := self.PDBCache,
        FileSystem := fs, Calls := [FSyncModulesCall.GetLabels CrashInfo.LabelName] } := by
  have h1 : ¬ CrashInfo.LabelName.length ≤ 0 := by omega
  have h2 : ¬ scm.bEnabled = false := by simp [hen]
  unfold SyncModules
  simp only [if_neg h1, if_neg h2, hlabels]

theorem SyncModules_of_hit (CleanLabelName : String → String)
    (Contains : String → String → Bool) (env : FEngineServices) (self : ICrashDebugHelper)
    (scm : ISourceControlModule) (fs : FFileSystem) (CrashInfo : FCrashInfo)
    (Label0 : FSourceControlLabel) (rest : List FSourceControlLabel) (e : FPDBCacheEntry)
    (hL : 0 < CrashInfo.LabelName.length) (hen : scm.bEnabled = true)
    (hlabels : scm.Provider.GetLabels CrashInfo.LabelName = Label0 :: rest)
    (huse : self.PDBCache.bUsePDBCache = true)
    (hfind : MapFind self.PDBCache.PDBCacheEntries (CleanLabelName CrashInfo.LabelName) =
      some e) :
    SyncModules CleanLabelName Contains env self scm fs CrashInfo =
      { ReturnValue := some true,
        CrashInfo := { CrashInfo with PDBCacheEntry := some (SetLastAccessTimeToNow e fs) },
        PDBCache :=
          (TouchPDBCacheEntry_StateAtExit CleanLabelName self.PDBCache fs CrashInfo.LabelName).1,
        FileSystem :=
          (TouchPDBCacheEntry_StateAtExit CleanLabelName self.PDBCache fs CrashInfo.LabelName).2,
        Calls :=
          [FSyncModulesCall.GetLabels CrashInfo.LabelName,
           FSyncModulesCall.ContainsPDBCacheEntry CrashInfo.LabelName,
           FSyncModulesCall.FindPDBCacheEntry CrashInfo.LabelName,
           FSyncModulesCall.TouchPDBCacheEntry CrashInfo.LabelName] } := by
  have h1 : ¬ CrashInfo.LabelName.length ≤ 0 := by omega
  have h2 : ¬ scm.bEnabled = false := by simp [hen]
  unfold SyncModules
  simp only [if_neg h1, if_neg h2, hlabels, UsePDBCache, ContainsPDBCacheEntry,
    FindPDBCacheEntry, TouchPDBCacheEntry, TouchPDBCacheEntry_StateAtExit, huse, hfind,
    Option.isSome_some, Bool.and_self, if_true, List.cons_append, List.nil_append]

theorem SyncModules_of_miss_disabled (CleanLabelName : String → String)
    (Contains : String → String → Bool) (env : FEngineServices) (self : ICrashDebugHelper)
    (scm : ISourceControlModule) (fs : FFileSystem) (CrashInfo : FCrashInfo)
    (Label0 : FSourceControlLabel) (rest : List FSourceControlLabel)
    (hL : 0 < CrashInfo.LabelName.length) (hen : scm.bEnabled = true)
    (hlabels : scm.Provider.GetLabels CrashInfo.LabelName = Label0 :: rest)
    (huse : self.PDBCache.bUsePDBCache = false) :
    SyncModules CleanLabelName Contains env self scm fs CrashInfo =
      { ReturnValue := some true, CrashInfo := CrashInfo, PDBCache := self.PDBCache,
        FileSystem := fs,
        Calls :=
          FSyncModulesCall.GetLabels CrashInfo.LabelName ::
            (SyncModules_Paths Contains env self.DepotName CrashInfo.ModuleNames
              (Label0 :: rest)).map
              (fun Path => FSyncModulesCall.Sync 0 Path (Label0.Sync Path)) } := by
  have h1 : ¬ CrashInfo.LabelName.length ≤ 0 := by omega
  have h2 : ¬ scm.bEnabled = false := by simp [hen]
  unfold SyncModules
  simp only [if_neg h1, if_neg h2, hlabels, UsePDBCache, huse, Bool.false_and,
    SyncModules_SyncLabels_eq, List.cons_append, List.nil_append]
  rfl

theorem SyncModules_of_miss_enabled (CleanLabelName : String → String)
    (Contains : String → String → Bool) (env : FEngineServices) (self : ICrashDebugHelper)
    (scm : ISourceControlModule) (fs : FFileSystem) (CrashInfo : FCrashInfo)
    (Label0 : FSourceControlLabel) (rest : List FSourceControlLabel)
    (hL : 0 < CrashInfo.LabelName.length) (hen : scm.bEnabled = true)
    (hlabels : scm.Provider.GetLabels CrashInfo.LabelName = Label0 :: rest)
    (huse : self.PDBCache.bUsePDBCache = true)
    (hfind : MapFind self.PDBCache.PDBCacheEntries (CleanLabelName CrashInfo.LabelName) =
      none) :
    SyncModules CleanLabelName Contains env self scm fs CrashInfo =
      match CreateAndAddPDBCacheEntry CleanLabelName env self.PDBCache fs CrashInfo.LabelName
          self.DepotName
          (SyncModules_Paths Contains env self.DepotName CrashInfo.ModuleNames
            (Label0 :: rest)) with
      | none =>
        { ReturnValue := none, CrashInfo := CrashInfo, PDBCache := self.PDBCache,
          FileSystem := fs,
          Calls :=
            [FSyncModulesCall.GetLabels CrashInfo.LabelName,
             FSyncModulesCall.ContainsPDBCacheEntry CrashInfo.LabelName] ++
            (SyncModules_Paths Contains env self.DepotName CrashInfo.ModuleNames
              (Label0 :: rest)).map
              (fun Path => FSyncModulesCall.Sync 0 Path (Label0.Sync Path)) ++
            [FSyncModulesCall.CreateAndAddPDBCacheEntry CrashInfo.LabelName self.DepotName
              (SyncModules_Paths Contains env self.DepotName CrashInfo.ModuleNames
                (Label0 :: rest))] }
      | some Created =>
        { ReturnValue := some true,
          CrashInfo := { CrashInfo with PDBCacheEntry := some Created.1 },
          PDBCache := Created.2.1, FileSystem := Created.2.2,
          Calls :=
            [FSyncModulesCall.GetLabels CrashInfo.LabelName,
             FSyncModulesCall.ContainsPDBCacheEntry CrashInfo.LabelName] ++
            (SyncModules_Paths Contains env self.DepotName CrashInfo.ModuleNames
              (Label0 :: rest)).map
              (fun Path => FSyncModulesCall.Sync 0 Path (Label0.Sync Path)) ++
            [FSyncModulesCall.CreateAndAddPDBCacheEntry CrashInfo.LabelName self.DepotName
              (SyncModules_Paths Contains env self.DepotName CrashInfo.ModuleNames
                (Label0 :: rest))] } := by
  have h1 : ¬ CrashInfo.LabelName.length ≤ 0 := by omega
  have h2 : ¬ scm.bEnabled = false := by simp [hen]
  unfold SyncModules
  simp only [if_neg h1, if_neg h2, hlabels, UsePDBCache, ContainsPDBCacheEntry, huse, hfind,
    Option.isSome_none, Bool.and_false, if_true, SyncModules_SyncLabels_eq, List.cons_append,
    List.nil_append, List.append_assoc]
  rfl

theorem CreateAndAddPDBCacheEntry_eq_none (CleanLabelName : String → String)
    (env : FEngineServices) (c : FPDBCache) (fs : FFileSystem) (Orig Depot : String)
    (Synced : List String)
    (hsave : env.SaveStringToFile
      (env.Combine (env.Combine c.PDBCachePath (CleanLabelName Orig)) PDBTimeStampFile)
      (env.Combine (env.Combine c.PDBCachePath (CleanLabelName Orig)) PDBTimeStampFile) =
        none) :
    CreateAndAddPDBCacheEntry CleanLabelName env c fs Orig Depot Synced = none := by
  unfold CreateAndAddPDBCacheEntry
  simp only [hsave]

theorem SyncModules_of_invalid (CleanLabelName : String → String)
    (Contains : String → String → Bool) (env : FEngineServices) (self : ICrashDebugHelper)
    (scm : ISourceControlModule) (fs : FFileSystem) (CrashInfo : FCrashInfo)
    (h : CrashInfo.LabelName.length ≤ 0 ∨ scm.bEnabled = false) :
    SyncModules CleanLabelName Contains env self scm fs CrashInfo =
      { ReturnValue := some false, CrashInfo := CrashInfo, PDBCache := self.PDBCache,
        FileSystem := fs, Calls := [] } := by
  unfold SyncModules
  by_cases h1 : CrashInfo.LabelName.length ≤ 0
  · rw [if_pos h1]
  · rw [if_neg h1, if_pos (h.resolve_left h1)]

/-! ## The claims on `SyncModules` -/

/-- C21, as stated, fails: with a non-empty label, source control enabled, a
label answered, the cache enabled and the label not in the cache,
`SyncModules` does not return true when the marker file of the new entry
cannot be saved; it ends in the fatal error of `CreateAndAddPDBCacheEntry`. -/
theorem SyncModules_fatal_on_unsaved_marker :
    0 < SampleCrash.LabelName.length ∧ SampleModule.bEnabled = true ∧
      (SyncModules (fun s => s) SampleContains ReadOnlyServices SampleHelper SampleModule
        RecentDisk SampleCrash).ReturnValue = none := by
  decide

/-- C21, amended: `SyncModules` returns false exactly when the label name is
empty or source control is disabled. It ends in a fatal error exactly when the
label is not empty, source control is enabled, a label is answered, the cache
is enabled, the label is not in the cache and the marker file of the new entry
cannot be saved. In every other case it returns true, whatever the `Sync`
calls return. When no label is answered it returns true after the one call
`GetLabels`, with the crash record, the cache and the disk unchanged. -/
theorem SyncModules_return_value (CleanLabelName : String → String)
    (Contains : String → String → Bool) (env : FEngineServices) (self : ICrashDebugHelper)
    (scm : ISourceControlModule) (fs : FFileSystem) (CrashInfo : FCrashInfo) :
    ((SyncModules CleanLabelName Contains env self scm fs CrashInfo).ReturnValue = some false ↔
        CrashInfo.LabelName.length ≤ 0 ∨ scm.bEnabled = false) ∧
      ((SyncModules CleanLabelName Contains env self scm fs CrashInfo).ReturnValue = none ↔
        0 < CrashInfo.LabelName.length ∧ scm.bEnabled = true ∧
        scm.Provider.GetLabels CrashInfo.LabelName ≠ [] ∧
        self.PDBCache.bUsePDBCache = true ∧
        MapFind self.PDBCache.PDBCacheEntries (CleanLabelName CrashInfo.LabelName) = none ∧
        env.SaveStringToFile
          (env.Combine (env.Combine self.PDBCache.PDBCachePath
            (CleanLabelName CrashInfo.LabelName)) PDBTimeStampFile)
          (env.Combine (env.Combine self.PDBCache.PDBCachePath
            (CleanLabelName CrashInfo.LabelName)) PDBTimeStampFile) = none) ∧
      (¬ (CrashInfo.LabelName.length ≤ 0 ∨ scm.bEnabled = false) →
        ¬ (0 < CrashInfo.LabelName.length ∧ scm.bEnabled = true ∧
          scm.Provider.GetLabels CrashInfo.LabelName ≠ [] ∧
          self.PDBCache.bUsePDBCache = true ∧
          MapFind self.PDBCache.PDBCacheEntries (CleanLabelName CrashInfo.LabelName) = none ∧
          env.SaveStringToFile
            (env.Combine (env.Combine self.PDBCache.PDBCachePath
              (CleanLabelName CrashInfo.LabelName)) PDBTimeStampFile)
            (env.Combine (env.Combine self.PDBCache.PDBCachePath
              (CleanLabelName CrashInfo.LabelName)) PDBTimeStampFile) = none) →
        (SyncModules CleanLabelName Contains env self scm fs CrashInfo).ReturnValue =
          some true) ∧
      (0 < CrashInfo.LabelName.length → scm.bEnabled = true →
        scm.Provider.GetLabels CrashInfo.LabelName = [] →
        SyncModules CleanLabelName Contains env self scm fs CrashInfo =
          { ReturnValue := some true, CrashInfo := CrashInfo, PDBCache := self.PDBCache,
            FileSystem := fs, Calls := [FSyncModulesCall.GetLabels CrashInfo.LabelName] }) := by
  by_cases hbad : CrashInfo.LabelName.length ≤ 0 ∨ scm.bEnabled = false
  · rw [SyncModules_of_invalid CleanLabelName Contains env self scm fs CrashInfo hbad]
    refine ⟨⟨fun _ => hbad, fun _ => rfl⟩, ⟨fun h => absurd h (by simp), ?_⟩,
      fun h _ => absurd hbad h, ?_⟩
    · rintro ⟨h1, h2, _⟩
      rcases hbad with h | h
      · omega
      · rw [h2] at h
        exact absurd h (by decide)
    · intro h1 h2
      rcases hbad with h | h
      · omega
      · rw [h2] at h
        exact absurd h (by decide)
  · have hL : 0 < CrashInfo.LabelName.length := by
      by_contra hn
      exact hbad (Or.inl (by omega))
    have hen : scm.bEnabled = true := by
      cases hb : scm.bEnabled with
      | true => rfl
      | false => exact absurd (Or.inr hb) hbad
    cases hlabels : scm.Provider.GetLabels CrashInfo.LabelName with
    | nil =>
      rw [SyncModules_of_no_label CleanLabelName Contains env self scm fs CrashInfo hL hen
        hlabels]
      refine ⟨⟨fun h => absurd h (by simp), fun h => absurd h hbad⟩,
        ⟨fun h => absurd h (by simp), ?_⟩, fun _ _ => rfl, fun _ _ _ => rfl⟩
      rintro ⟨_, _, h3, _⟩
      exact absurd rfl h3
    | cons Label0 rest =>
      have hne : (Label0 :: rest) ≠ [] := List.cons_ne_nil _ _
      cases huse : self.PDBCache.bUsePDBCache with
      | false =>
        rw [SyncModules_of_miss_disabled CleanLabelName Contains env self scm fs CrashInfo
          Label0 rest hL hen hlabels huse]
        refine ⟨⟨fun h => absurd h (by simp), fun h => absurd h hbad⟩,
          ⟨fun h => absurd h (by simp), ?_⟩, fun _ _ => rfl, fun _ _ h => absurd h hne⟩
        rintro ⟨_, _, _, h4, _⟩
        exact absurd h4 (by decide)
      | true =>
        cases hfind : MapFind self.PDBCache.PDBCacheEntries
            (CleanLabelName CrashInfo.LabelName) with
        | some e =>
          rw [SyncModules_of_hit CleanLabelName Contains env self scm fs CrashInfo Label0 rest
            e hL hen hlabels huse hfind]
          refine ⟨⟨fun h => absurd h (by simp), fun h => absurd h hbad⟩,
            ⟨fun h => absurd h (by simp), ?_⟩, fun _ _ => rfl, fun _ _ h => absurd h hne⟩
          rintro ⟨_, _, _, _, h5, _⟩
          exact absurd h5 (by simp)
        | none =>
          rw [SyncModules_of_miss_enabled CleanLabelName Contains env self scm fs CrashInfo
            Label0 rest hL hen hlabels huse hfind]
          cases hsave : env.SaveStringToFile
              (env.Combine (env.Combine self.PDBCache.PDBCachePath
                (CleanLabelName CrashInfo.LabelName)) PDBTimeStampFile)
              (env.Combine (env.Combine self.PDBCache.PDBCachePath
                (CleanLabelName CrashInfo.LabelName)) PDBTimeStampFile) with
          | none =>
            rw [CreateAndAddPDBCacheEntry_eq_none CleanLabelName env self.PDBCache fs
              CrashInfo.LabelName self.DepotName _ hsave]
            exact ⟨⟨fun h => absurd h (by simp), fun h => absurd h hbad⟩,
              ⟨fun _ => ⟨hL, hen, hne, rfl, rfl, rfl⟩, fun _ => rfl⟩, fun _ hF => absurd ⟨hL, hen, hne, rfl, rfl, rfl⟩ hF,
              fun _ _ h => absurd h hne⟩
          | some Saved =>
            obtain ⟨e, c2, fs2, hc, _⟩ := CreateAndAddPDBCacheEntry_eq CleanLabelName env
              self.PDBCache fs CrashInfo.LabelName self.DepotName
              (SyncModules_Paths Contains env self.DepotName CrashInfo.ModuleNames
                (Label0 :: rest)) Saved hsave
            rw [hc]
            refine ⟨⟨fun h => absurd h (by simp), fun h => absurd h hbad⟩,
              ⟨fun h => absurd h (by simp), ?_⟩, fun _ _ => rfl, fun _ _ h => absurd h hne⟩
            rintro ⟨_, _, _, _, _, h6⟩
            exact absurd h6 (by simp)

/-- C22, as stated, fails: on a cache miss with `FailingLabel`, on which every
`Sync` returns false, the staged-file list handed to
`CreateAndAddPDBCacheEntry` holds all six paths of the module. -/
theorem SyncModules_stages_unsynced_paths :
    (SyncModules (fun s => s) SampleContains SampleServices SampleHelper FailingModule
        RecentDisk SampleCrash).Calls =
      [FSyncModulesCall.GetLabels "UE4_CL-2082666",
       FSyncModulesCall.ContainsPDBCacheEntry "UE4_CL-2082666",
       FSyncModulesCall.Sync 0 "//depot/UE4/UE4Editor-Core.dll" false,
       FSyncModulesCall.Sync 0 "//depot/UE4/UE4Editor-Core.dll" false,
       FSyncModulesCall.Sync 0 "//depot/UE4/Rocket/Installed/Windows/UE4Editor-Core.dll" false,
       FSyncModulesCall.Sync 0 "//depot/UE4/Rocket/Symbols/UE4Editor-Core.dll" false,
       FSyncModulesCall.Sync 0
         "//depot/UE4/Rocket/LauncherInstalled/Windows/Launcher/UE4Editor-Core.dll" false,
       FSyncModulesCall.Sync 0
         "//depot/UE4/Rocket/LauncherSymbols/Windows/Launcher/UE4Editor-Core.dll" false,
       FSyncModulesCall.CreateAndAddPDBCacheEntry "UE4_CL-2082666" "//depot/UE4"
         ["//depot/UE4/UE4Editor-Core.dll", "//depot/UE4/UE4Editor-Core.dll",
          "//depot/UE4/Rocket/Installed/Windows/UE4Editor-Core.dll",
          "//depot/UE4/Rocket/Symbols/UE4Editor-Core.dll",
          "//depot/UE4/Rocket/LauncherInstalled/Windows/Launcher/UE4Editor-Core.dll",
          "//depot/UE4/Rocket/LauncherSymbols/Windows/Launcher/UE4Editor-Core.dll"]] := by
  decide

/-- C22, amended: on a cache miss with the cache enabled, the staged-file list
that `SyncModules` hands to `CreateAndAddPDBCacheEntry` is the list of the
paths of its `Sync` calls, in the order of the calls, whatever the calls
returned: the path of every `Sync` call is staged, also when the call returned
false. -/
theorem SyncModules_staged_files (CleanLabelName : String → String)
    (Contains : String → String → Bool) (env : FEngineServices) (self : ICrashDebugHelper)
    (scm : ISourceControlModule) (fs : FFileSystem) (CrashInfo : FCrashInfo)
    (Label0 : FSourceControlLabel) (rest : List FSourceControlLabel)
    (hL : 0 < CrashInfo.LabelName.length) (hen : scm.bEnabled = true)
    (hlabels : scm.Provider.GetLabels CrashInfo.LabelName = Label0 :: rest)
    (huse : self.PDBCache.bUsePDBCache = true)
    (hfind : MapFind self.PDBCache.PDBCacheEntries (CleanLabelName CrashInfo.LabelName) =
      none) :
    ∃ Staged : List String,
      (SyncModules CleanLabelName Contains env self scm fs CrashInfo).Calls =
        [FSyncModulesCall.GetLabels CrashInfo.LabelName,
         FSyncModulesCall.ContainsPDBCacheEntry CrashInfo.LabelName] ++
        Staged.map (fun Path => FSyncModulesCall.Sync 0 Path (Label0.Sync Path)) ++
        [FSyncModulesCall.CreateAndAddPDBCacheEntry CrashInfo.LabelName self.DepotName
          Staged] ∧
      ∀ (i : Nat) (Path : String) (b : Bool),
        FSyncModulesCall.Sync i Path b ∈
          (SyncModules CleanLabelName Contains env self scm fs CrashInfo).Calls →
        Path ∈ Staged := by
  refine ⟨SyncModules_Paths Contains env self.DepotName CrashInfo.ModuleNames (Label0 :: rest),
    ?_⟩
  have hcalls : (SyncModules CleanLabelName Contains env self scm fs CrashInfo).Calls =
      [FSyncModulesCall.GetLabels CrashInfo.LabelName,
       FSyncModulesCall.ContainsPDBCacheEntry CrashInfo.LabelName] ++
      (SyncModules_Paths Contains env self.DepotName CrashInfo.ModuleNames
        (Label0 :: rest)).map (fun Path => FSyncModulesCall.Sync 0 Path (Label0.Sync Path)) ++
      [FSyncModulesCall.CreateAndAddPDBCacheEntry CrashInfo.LabelName self.DepotName
        (SyncModules_Paths Contains env self.DepotName CrashInfo.ModuleNames
          (Label0 :: rest))] := by
    rw [SyncModules_of_miss_enabled CleanLabelName Contains env self scm fs CrashInfo Label0
      rest hL hen hlabels huse hfind]
    cases CreateAndAddPDBCacheEntry CleanLabelName env self.PDBCache fs CrashInfo.LabelName
        self.DepotName
        (SyncModules_Paths Contains env self.DepotName CrashInfo.ModuleNames
          (Label0 :: rest)) with
    | none => rfl
    | some Created => rfl
  refine ⟨hcalls, ?_⟩
  intro i Path b hmem
  rw [hcalls] at hmem
  simp only [List.mem_append, List.mem_cons, List.mem_map, List.mem_singleton,
    List.not_mem_nil, or_false, reduceCtorEq, false_or] at hmem
  obtain ⟨q, hq, heq⟩ := hmem
  have hqp : q = Path := by
    injection heq
  exact hqp ▸ hq

/-- Witness of C22 (amended) at `FailingModule`, on which every `Sync` returns
false. -/
theorem SyncModules_staged_files_witness :
    ∃ Staged : List String,
      (SyncModules (fun s => s) SampleContains SampleServices SampleHelper FailingModule
          RecentDisk SampleCrash).Calls =
        [FSyncModulesCall.GetLabels SampleCrash.LabelName,
         FSyncModulesCall.ContainsPDBCacheEntry SampleCrash.LabelName] ++
        Staged.map (fun Path => FSyncModulesCall.Sync 0 Path (FailingLabel.Sync Path)) ++
        [FSyncModulesCall.CreateAndAddPDBCacheEntry SampleCrash.LabelName
          SampleHelper.DepotName Staged] ∧
      ∀ (i : Nat) (Path : String) (b : Bool),
        FSyncModulesCall.Sync i Path b ∈
          (SyncModules (fun s => s) SampleContains SampleServices SampleHelper FailingModule
            RecentDisk SampleCrash).Calls →
        Path ∈ Staged :=
  SyncModules_staged_files (fun s => s) SampleContains SampleServices SampleHelper
    FailingModule RecentDisk SampleCrash FailingLabel [] (by decide) rfl rfl rfl (by decide)

theorem mem_Keys_CreateAndAddPDBCacheEntry (CleanLabelName : String → String)
    (env : FEngineServices) (c : FPDBCache) (fs : FFileSystem) (Orig Depot : String)
    (Synced : List String) (e : FPDBCacheEntry) (c2 : FPDBCache) (fs2 : FFileSystem)
    (h : CreateAndAddPDBCacheEntry CleanLabelName env c fs Orig Depot Synced = some (e, c2, fs2)) :
    (CleanLabelName Orig, e) ∈ c2.PDBCacheEntries ∧ CleanLabelName Orig ∈ Keys c2 := by
  unfold CreateAndAddPDBCacheEntry at h
  simp only at h
  cases hs : env.SaveStringToFile
      (env.Combine (env.Combine c.PDBCachePath (CleanLabelName Orig)) PDBTimeStampFile)
      (env.Combine (env.Combine c.PDBCachePath (CleanLabelName Orig)) PDBTimeStampFile) with
  | none => simp [hs] at h
  | some Saved =>
    simp only [hs, Option.some.injEq, Prod.mk.injEq] at h
    obtain ⟨he, hc, _⟩ := h
    have hmem : (CleanLabelName Orig, e) ∈ c2.PDBCacheEntries := by
      rw [← hc]
      unfold SortPDBCache
      simp only
      rw [List.mem_insertionSort, ← he]
      exact mem_MapAdd_self _ _ _
    exact ⟨hmem, List.mem_map.2 ⟨_, hmem, rfl⟩⟩

/-- C24, as stated, fails: on a cache miss with `FailingLabel` no `Sync` call
succeeds, and `SyncModules` still calls `CreateAndAddPDBCacheEntry`, returns
true and leaves the label as a new key of the entry map. -/
theorem SyncModules_creates_entry_without_synced_file :
    (SyncModules (fun s => s) SampleContains SampleServices SampleHelper FailingModule
        RecentDisk SampleCrash).Calls.any FSyncModulesCall.IsSyncedFile = false ∧
      (SyncModules (fun s => s) SampleContains SampleServices SampleHelper FailingModule
        RecentDisk SampleCrash).Calls.any FSyncModulesCall.IsCreate = true ∧
      (SyncModules (fun s => s) SampleContains SampleServices SampleHelper FailingModule
        RecentDisk SampleCrash).ReturnValue = some true ∧
      Keys SampleHelper.PDBCache = ["A", "B"] ∧
      Keys (SyncModules (fun s => s) SampleContains SampleServices SampleHelper FailingModule
        RecentDisk SampleCrash).PDBCache = ["A", "B", "UE4_CL-2082666"] := by
  decide

/-- C24, amended: `SyncModules` calls `CreateAndAddPDBCacheEntry` exactly on a
cache miss with the cache enabled, that is when the label is not empty, source
control is enabled, at least one label is answered, the cache is enabled and
the label is not in the cache, whether or not any `Sync` call succeeded; when
the marker file can be saved the call adds the label to the entry map and the
crash record gets the new entry. -/
theorem SyncModules_creates_entry (CleanLabelName : String → String)
    (Contains : String → String → Bool) (env : FEngineServices) (self : ICrashDebugHelper)
    (scm : ISourceControlModule) (fs : FFileSystem) (CrashInfo : FCrashInfo) :
    ((∃ Orig Depot Staged, FSyncModulesCall.CreateAndAddPDBCacheEntry Orig Depot Staged ∈
          (SyncModules CleanLabelName Contains env self scm fs CrashInfo).Calls) ↔
        0 < CrashInfo.LabelName.length ∧ scm.bEnabled = true ∧
        scm.Provider.GetLabels CrashInfo.LabelName ≠ [] ∧
        self.PDBCache.bUsePDBCache = true ∧
        MapFind self.PDBCache.PDBCacheEntries (CleanLabelName CrashInfo.LabelName) = none) ∧
      (0 < CrashInfo.LabelName.length → scm.bEnabled = true →
        scm.Provider.GetLabels CrashInfo.LabelName ≠ [] →
        self.PDBCache.bUsePDBCache = true →
        MapFind self.PDBCache.PDBCacheEntries (CleanLabelName CrashInfo.LabelName) = none →
        ∀ Saved : Nat,
          env.SaveStringToFile
            (env.Combine (env.Combine self.PDBCache.PDBCachePath
              (CleanLabelName CrashInfo.LabelName)) PDBTimeStampFile)
            (env.Combine (env.Combine self.PDBCache.PDBCachePath
              (CleanLabelName CrashInfo.LabelName)) PDBTimeStampFile) = some Saved →
          ∃ e, (SyncModules CleanLabelName Contains env self scm fs CrashInfo).ReturnValue =
              some true ∧
            (SyncModules CleanLabelName Contains env self scm fs CrashInfo).CrashInfo.PDBCacheEntry =
              some e ∧
            (CleanLabelName CrashInfo.LabelName, e) ∈
              (SyncModules CleanLabelName Contains env self scm fs CrashInfo).PDBCache.PDBCacheEntries ∧
            CleanLabelName CrashInfo.LabelName ∈
              Keys (SyncModules CleanLabelName Contains env self scm fs CrashInfo).PDBCache) := by
  constructor
  · by_cases hbad : CrashInfo.LabelName.length ≤ 0 ∨ scm.bEnabled = false
    · rw [SyncModules_of_invalid CleanLabelName Contains env self scm fs CrashInfo hbad]
      constructor
      · rintro ⟨_, _, _, h⟩
        exact absurd h (List.not_mem_nil _)
      · rintro ⟨h1, h2, _⟩
        rcases hbad with h | h
        · omega
        · rw [h2] at h
          exact absurd h (by decide)
    · have hL : 0 < CrashInfo.LabelName.length := by
        by_contra hn
        exact hbad (Or.inl (by omega))
      have hen : scm.bEnabled = true := by
        cases hb : scm.bEnabled with
        | true => rfl
        | false => exact absurd (Or.inr hb) hbad
      cases hlabels : scm.Provider.GetLabels CrashInfo.LabelName with
      | nil =>
        rw [SyncModules_of_no_label CleanLabelName Contains env self scm fs CrashInfo hL hen
          hlabels]
        constructor
        · rintro ⟨_, _, _, h⟩
          simp at h
        · rintro ⟨_, _, h3, _⟩
          exact absurd rfl h3
      | cons Label0 rest =>
        have hne : (Label0 :: rest) ≠ [] := List.cons_ne_nil _ _
        cases huse : self.PDBCache.bUsePDBCache with
        | false =>
          rw [SyncModules_of_miss_disabled CleanLabelName Contains env self scm fs CrashInfo
            Label0 rest hL hen hlabels huse]
          constructor
          · rintro ⟨_, _, _, h⟩
            simp at h
          · rintro ⟨_, _, _, h4, _⟩
            exact absurd h4 (by decide)
        | true =>
          cases hfind : MapFind self.PDBCache.PDBCacheEntries
              (CleanLabelName CrashInfo.LabelName) with
          | some e =>
            rw [SyncModules_of_hit CleanLabelName Contains env self scm fs CrashInfo Label0
              rest e hL hen hlabels huse hfind]
            constructor
            · rintro ⟨_, _, _, h⟩
              simp at h
            · rintro ⟨_, _, _, _, h5⟩
              exact absurd h5 (by simp)
          | none =>
            refine ⟨fun _ => ⟨hL, hen, hne, rfl, rfl⟩, fun _ => ?_⟩
            refine ⟨CrashInfo.LabelName, self.DepotName,
              SyncModules_Paths Contains env self.DepotName CrashInfo.ModuleNames
                (Label0 :: rest), ?_⟩
            rw [SyncModules_of_miss_enabled CleanLabelName Contains env self scm fs CrashInfo
              Label0 rest hL hen hlabels huse hfind]
            cases CreateAndAddPDBCacheEntry CleanLabelName env self.PDBCache fs
                CrashInfo.LabelName self.DepotName
                (SyncModules_Paths Contains env self.DepotName CrashInfo.ModuleNames
                  (Label0 :: rest)) with
            | none => simp
            | some Created => simp
  · intro hL hen hne huse hfind Saved hsave
    cases hlabels : scm.Provider.GetLabels CrashInfo.LabelName with
    | nil => exact absurd hlabels hne
    | cons Label0 rest =>
      obtain ⟨e, c2, fs2, hc, _⟩ := CreateAndAddPDBCacheEntry_eq CleanLabelName env
        self.PDBCache fs CrashInfo.LabelName self.DepotName
        (SyncModules_Paths Contains env self.DepotName CrashInfo.ModuleNames
          (Label0 :: rest)) Saved hsave
      obtain ⟨hmem, hkey⟩ := mem_Keys_CreateAndAddPDBCacheEntry CleanLabelName env
        self.PDBCache fs CrashInfo.LabelName self.DepotName _ e c2 fs2 hc
      rw [SyncModules_of_miss_enabled CleanLabelName Contains env self scm fs CrashInfo
        Label0 rest hL hen hlabels huse hfind, hc]
      exact ⟨e, rfl, rfl, hmem, hkey⟩

/-- C23: on a cache hit (label not empty, source control enabled, at least one
label answered, cache enabled, label in the cache) `SyncModules` returns true;
the handle of the crash record is the entry stored under the label, which is
the entry found with its `LastAccessTime` set to now; the cache and the disk
are those that `TouchPDBCacheEntry` leaves; the calls are `GetLabels`,
`ContainsPDBCacheEntry`, `FindPDBCacheEntry` and `TouchPDBCacheEntry`, so no
`Sync` and no `CreateAndAddPDBCacheEntry`; the keys of the entry map are
unchanged. -/
theorem SyncModules_cache_hit (CleanLabelName : String → String)
    (Contains : String → String → Bool) (env : FEngineServices) (self : ICrashDebugHelper)
    (scm : ISourceControlModule) (fs : FFileSystem) (CrashInfo : FCrashInfo)
    (e : FPDBCacheEntry) (hwf : WellFormed self.PDBCache.PDBCacheEntries)
    (hL : 0 < CrashInfo.LabelName.length) (hen : scm.bEnabled = true)
    (hlabels : scm.Provider.GetLabels CrashInfo.LabelName ≠ [])
    (huse : self.PDBCache.bUsePDBCache = true)
    (hfind : MapFind self.PDBCache.PDBCacheEntries (CleanLabelName CrashInfo.LabelName) =
      some e) :
    (SyncModules CleanLabelName Contains env self scm fs CrashInfo).ReturnValue = some true ∧
      (SyncModules CleanLabelName Contains env self scm fs CrashInfo).CrashInfo =
        { CrashInfo with PDBCacheEntry := some (SetLastAccessTimeToNow e fs) } ∧
      MapFind (SyncModules CleanLabelName Contains env self scm fs CrashInfo).PDBCache.PDBCacheEntries
          (CleanLabelName CrashInfo.LabelName) =
        (SyncModules CleanLabelName Contains env self scm fs CrashInfo).CrashInfo.PDBCacheEntry ∧
      TouchPDBCacheEntry CleanLabelName self.PDBCache fs CrashInfo.LabelName =
        some ((SyncModules CleanLabelName Contains env self scm fs CrashInfo).PDBCache,
          (SyncModules CleanLabelName Contains env self scm fs CrashInfo).FileSystem) ∧
      (SyncModules CleanLabelName Contains env self scm fs CrashInfo).Calls =
        [FSyncModulesCall.GetLabels CrashInfo.LabelName,
         FSyncModulesCall.ContainsPDBCacheEntry CrashInfo.LabelName,
         FSyncModulesCall.FindPDBCacheEntry CrashInfo.LabelName,
         FSyncModulesCall.TouchPDBCacheEntry CrashInfo.LabelName] ∧
      (∀ call ∈ (SyncModules CleanLabelName Contains env self scm fs CrashInfo).Calls,
        call.IsSync = false ∧ call.IsCreate = false) ∧
      (∀ k, k ∈ Keys (SyncModules CleanLabelName Contains env self scm fs CrashInfo).PDBCache ↔
        k ∈ Keys self.PDBCache) := by
  cases hl : scm.Provider.GetLabels CrashInfo.LabelName with
  | nil => exact absurd hl hlabels
  | cons Label0 rest =>
    have hmem : (CleanLabelName CrashInfo.LabelName, e) ∈ self.PDBCache.PDBCacheEntries :=
      mem_of_MapFind _ _ _ hfind
    have hin : CleanLabelName CrashInfo.LabelName ∈ Keys self.PDBCache :=
      List.mem_map.2 ⟨_, hmem, rfl⟩
    obtain ⟨c1, fs1, h1, hent, _⟩ :=
      TouchPDBCacheEntry_entries CleanLabelName self.PDBCache fs CrashInfo.LabelName e hfind
    obtain ⟨c1b, fs1b, h1b, hwf1, hkeys, _⟩ :=
      TouchPDBCacheEntry_eq CleanLabelName self.PDBCache fs CrashInfo.LabelName hwf hin
    have hcc : c1b = c1 := by
      rw [h1] at h1b
      exact (congrArg Prod.fst (Option.some.inj h1b)).symm
    rw [hcc] at hwf1 hkeys
    have hexit : TouchPDBCacheEntry_StateAtExit CleanLabelName self.PDBCache fs
        CrashInfo.LabelName = (c1, fs1) := by
      have h2 := h1
      simp only [TouchPDBCacheEntry, hfind, Option.some.injEq] at h2
      simp only [TouchPDBCacheEntry_StateAtExit, hfind]
      exact h2
    have hnew : (CleanLabelName CrashInfo.LabelName, SetLastAccessTimeToNow e fs) ∈
        c1.PDBCacheEntries := by
      rw [hent]
      exact List.mem_map.2 ⟨_, hmem, by simp⟩
    rw [SyncModules_of_hit CleanLabelName Contains env self scm fs CrashInfo Label0 rest e hL
      hen hl huse hfind, hexit]
    refine ⟨rfl, rfl, MapFind_of_mem _ hwf1.1 _ hnew, h1, rfl, ?_, hkeys⟩
    intro call hcall
    simp only [List.mem_cons, List.mem_singleton, List.not_mem_nil, or_false] at hcall
    rcases hcall with rfl | rfl | rfl | rfl <;> exact ⟨rfl, rfl⟩

/-- Witness of C23: the crash built from label `A` of `RecentCache`. -/
theorem SyncModules_cache_hit_witness :
    (SyncModules (fun s => s) SampleContains SampleServices SampleHelper SampleModule RecentDisk
        CachedCrash).ReturnValue = some true ∧
      (SyncModules (fun s => s) SampleContains SampleServices SampleHelper SampleModule
        RecentDisk CachedCrash).CrashInfo =
        { CachedCrash with PDBCacheEntry := some (SetLastAccessTimeToNow RecentEntryA RecentDisk) } ∧
      MapFind (SyncModules (fun s => s) SampleContains SampleServices SampleHelper SampleModule
          RecentDisk CachedCrash).PDBCache.PDBCacheEntries CachedCrash.LabelName =
        (SyncModules (fun s => s) SampleContains SampleServices SampleHelper SampleModule
          RecentDisk CachedCrash).CrashInfo.PDBCacheEntry ∧
      TouchPDBCacheEntry (fun s => s) SampleHelper.PDBCache RecentDisk CachedCrash.LabelName =
        some ((SyncModules (fun s => s) SampleContains SampleServices SampleHelper SampleModule
            RecentDisk CachedCrash).PDBCache,
          (SyncModules (fun s => s) SampleContains SampleServices SampleHelper SampleModule
            RecentDisk CachedCrash).FileSystem) ∧
      (SyncModules (fun s => s) SampleContains SampleServices SampleHelper SampleModule
        RecentDisk CachedCrash).Calls =
        [FSyncModulesCall.GetLabels CachedCrash.LabelName,
         FSyncModulesCall.ContainsPDBCacheEntry CachedCrash.LabelName,
         FSyncModulesCall.FindPDBCacheEntry CachedCrash.LabelName,
         FSyncModulesCall.TouchPDBCacheEntry CachedCrash.LabelName] ∧
      (∀ call ∈ (SyncModules (fun s => s) SampleContains SampleServices SampleHelper
          SampleModule RecentDisk CachedCrash).Calls,
        call.IsSync = false ∧ call.IsCreate = false) ∧
      (∀ k, k ∈ Keys (SyncModules (fun s => s) SampleContains SampleServices SampleHelper
          SampleModule RecentDisk CachedCrash).PDBCache ↔
        k ∈ Keys SampleHelper.PDBCache) :=
  SyncModules_cache_hit (fun s => s) SampleContains SampleServices SampleHelper SampleModule
    RecentDisk CachedCrash RecentEntryA (by decide) (by decide) rfl
    (List.cons_ne_nil SampleLabel []) rfl (by decide)

theorem Init_of_disabled_config (self : FPDBCache) (cfg : FConfig) (fs : FFileSystem)
    (hcfg : cfg.bUsePDBCache = some false ∨
      (cfg.bUsePDBCache = some true ∧ cfg.PDBCachePath = none)) :
    Init self cfg fs = some (Init_ReadUsage self cfg, fs) ∧
      (Init_ReadUsage self cfg).bUsePDBCache = false ∧
      (Init_ReadUsage self cfg).PDBCacheEntries = self.PDBCacheEntries := by
  have hoff : (Init_ReadUsage self cfg).bUsePDBCache = false := by
    unfold Init_ReadUsage
    rcases hcfg with h | ⟨h1, h2⟩
    · simp [h]
    · simp [h1, h2]
  exact ⟨Init_of_disabled self cfg fs hoff, hoff, Init_ReadUsage_entries self cfg⟩

theorem filter_IsSync_map (f : String → Bool) (Paths : List String) :
    (Paths.map (fun Path => FSyncModulesCall.Sync 0 Path (f Path))).filter
        FSyncModulesCall.IsSync =
      Paths.map (fun Path => FSyncModulesCall.Sync 0 Path (f Path)) := by
  rw [List.filter_eq_self]
  intro a ha
  obtain ⟨q, _, rfl⟩ := List.mem_map.1 ha
  rfl

/-- C25: when the option `bUsePDBCache` is false, or it is true and the option
`PDBCachePath` is missing, `Init` returns with the cache disabled, the entry
map as it was (nothing loaded, nothing removed) and the disk as it was. With
the cache disabled `SyncModules` returns and leaves the cache, the disk and the
crash record, with its handle, as they were, and none of its calls is a call
to the cache. -/
theorem Disabled_cache_is_no_op (CleanLabelName : String → String)
    (Contains : String → String → Bool) (env : FEngineServices) (self : FPDBCache)
    (cfg : FConfig) (fs : FFileSystem)
    (hcfg : cfg.bUsePDBCache = some false ∨
      (cfg.bUsePDBCache = some true ∧ cfg.PDBCachePath = none)) :
    ∃ c, Init self cfg fs = some (c, fs) ∧ c.bUsePDBCache = false ∧
      c.PDBCacheEntries = self.PDBCacheEntries ∧
      ∀ (helper : ICrashDebugHelper) (scm : ISourceControlModule) (fs2 : FFileSystem)
        (CrashInfo : FCrashInfo), helper.PDBCache.bUsePDBCache = false →
        (SyncModules CleanLabelName Contains env helper scm fs2 CrashInfo).PDBCache =
          helper.PDBCache ∧
        (SyncModules CleanLabelName Contains env helper scm fs2 CrashInfo).FileSystem = fs2 ∧
        (SyncModules CleanLabelName Contains env helper scm fs2 CrashInfo).CrashInfo =
          CrashInfo ∧
        (SyncModules CleanLabelName Contains env helper scm fs2 CrashInfo).ReturnValue ≠ none ∧
        ∀ call ∈ (SyncModules CleanLabelName Contains env helper scm fs2 CrashInfo).Calls,
          call.IsCacheCall = false := by
  obtain ⟨hinit, hoff, hent⟩ := Init_of_disabled_config self cfg fs hcfg
  refine ⟨Init_ReadUsage self cfg, hinit, hoff, hent, ?_⟩
  intro helper scm fs2 CrashInfo huse
  by_cases hbad : CrashInfo.LabelName.length ≤ 0 ∨ scm.bEnabled = false
  · rw [SyncModules_of_invalid CleanLabelName Contains env helper scm fs2 CrashInfo hbad]
    exact ⟨rfl, rfl, rfl, by simp, fun call h => absurd h (List.not_mem_nil _)⟩
  · have hL : 0 < CrashInfo.LabelName.length := by
      by_contra hn
      exact hbad (Or.inl (by omega))
    have hen : scm.bEnabled = true := by
      cases hb : scm.bEnabled with
      | true => rfl
      | false => exact absurd (Or.inr hb) hbad
    cases hlabels : scm.Provider.GetLabels CrashInfo.LabelName with
    | nil =>
      rw [SyncModules_of_no_label CleanLabelName Contains env helper scm fs2 CrashInfo hL hen
        hlabels]
      refine ⟨rfl, rfl, rfl, by simp, ?_⟩
      intro call hcall
      rw [List.mem_singleton] at hcall
      rw [hcall]
      rfl
    | cons Label0 rest =>
      rw [SyncModules_of_miss_disabled CleanLabelName Contains env helper scm fs2 CrashInfo
        Label0 rest hL hen hlabels huse]
      refine ⟨rfl, rfl, rfl, by simp, ?_⟩
      intro call hcall
      rcases List.mem_cons.1 hcall with rfl | hcall
      · rfl
      · obtain ⟨q, _, rfl⟩ := List.mem_map.1 hcall
        rfl

/-- Witness of C25: `Init` of `RecentCache` with `DisabledConfig` on
`RecentDisk`. -/
theorem Disabled_cache_is_no_op_witness :
    ∃ c, Init RecentCache DisabledConfig RecentDisk = some (c, RecentDisk) ∧
      c.bUsePDBCache = false ∧ c.PDBCacheEntries = RecentCache.PDBCacheEntries ∧
      ∀ (helper : ICrashDebugHelper) (scm : ISourceControlModule) (fs2 : FFileSystem)
        (CrashInfo : FCrashInfo), helper.PDBCache.bUsePDBCache = false →
        (SyncModules (fun s => s) SampleContains SampleServices helper scm fs2
          CrashInfo).PDBCache = helper.PDBCache ∧
        (SyncModules (fun s => s) SampleContains SampleServices helper scm fs2
          CrashInfo).FileSystem = fs2 ∧
        (SyncModules (fun s => s) SampleContains SampleServices helper scm fs2
          CrashInfo).CrashInfo = CrashInfo ∧
        (SyncModules (fun s => s) SampleContains SampleServices helper scm fs2
          CrashInfo).ReturnValue ≠ none ∧
        ∀ call ∈ (SyncModules (fun s => s) SampleContains SampleServices helper scm fs2
            CrashInfo).Calls,
          call.IsCacheCall = false :=
  Disabled_cache_is_no_op (fun s => s) SampleContains SampleServices RecentCache DisabledConfig
    RecentDisk (Or.inl rfl)

/-- C27: on a cache miss the `Sync` calls of `SyncModules` are the calls for
the six paths of every module name, once for every answered label whose name
does not contain `Mac`; every one of them is made on `Labels[0]` and returns
what `Labels[0]` answers, whether or not `Labels[0]` is itself skipped. With
`M` module names and `K` labels without `Mac` there are `6 * M * K` calls, and
the staged-file list, handed to `CreateAndAddPDBCacheEntry` when the cache is
enabled, has `6 * M * K` elements. -/
theorem SyncModules_syncs_on_first_label (CleanLabelName : String → String)
    (Contains : String → String → Bool) (env : FEngineServices) (self : ICrashDebugHelper)
    (scm : ISourceControlModule) (fs : FFileSystem) (CrashInfo : FCrashInfo)
    (Label0 : FSourceControlLabel) (rest : List FSourceControlLabel)
    (hL : 0 < CrashInfo.LabelName.length) (hen : scm.bEnabled = true)
    (hlabels : scm.Provider.GetLabels CrashInfo.LabelName = Label0 :: rest)
    (hmiss : self.PDBCache.bUsePDBCache = false ∨
      MapFind self.PDBCache.PDBCacheEntries (CleanLabelName CrashInfo.LabelName) = none) :
    (SyncModules CleanLabelName Contains env self scm fs CrashInfo).Calls.filter
          FSyncModulesCall.IsSync =
        (SyncModules_Paths Contains env self.DepotName CrashInfo.ModuleNames
          (Label0 :: rest)).map (fun Path => FSyncModulesCall.Sync 0 Path (Label0.Sync Path)) ∧
      ((SyncModules CleanLabelName Contains env self scm fs CrashInfo).Calls.filter
          FSyncModulesCall.IsSync).length =
        6 * CrashInfo.ModuleNames.length *
          ((Label0 :: rest).filter (fun Label => !Contains Label.Name "Mac")).length ∧
      (∀ (i : Nat) (Path : String) (b : Bool),
        FSyncModulesCall.Sync i Path b ∈
          (SyncModules CleanLabelName Contains env self scm fs CrashInfo).Calls →
        i = 0 ∧ b = Label0.Sync Path) ∧
      (SyncModules_Paths Contains env self.DepotName CrashInfo.ModuleNames
          (Label0 :: rest)).length =
        6 * CrashInfo.ModuleNames.length *
          ((Label0 :: rest).filter (fun Label => !Contains Label.Name "Mac")).length ∧
      (self.PDBCache.bUsePDBCache = true →
        FSyncModulesCall.CreateAndAddPDBCacheEntry CrashInfo.LabelName self.DepotName
            (SyncModules_Paths Contains env self.DepotName CrashInfo.ModuleNames
              (Label0 :: rest)) ∈
          (SyncModules CleanLabelName Contains env self scm fs CrashInfo).Calls) := by
  have hlen := length_SyncModules_Paths Contains env self.DepotName CrashInfo.ModuleNames
    (Label0 :: rest)
  have hall : ∀ (i : Nat) (Path : String) (b : Bool),
      FSyncModulesCall.Sync i Path b ∈
        (SyncModules_Paths Contains env self.DepotName CrashInfo.ModuleNames
          (Label0 :: rest)).map (fun Path => FSyncModulesCall.Sync 0 Path (Label0.Sync Path)) →
      i = 0 ∧ b = Label0.Sync Path := by
    intro i Path b hmem
    obtain ⟨q, _, heq⟩ := List.mem_map.1 hmem
    injection heq with h1 h2 h3
    exact ⟨h1.symm, by rw [← h3, h2]⟩
  cases huse : self.PDBCache.bUsePDBCache with
  | false =>
    rw [SyncModules_of_miss_disabled CleanLabelName Contains env self scm fs CrashInfo Label0
      rest hL hen hlabels huse]
    have hf : (FSyncModulesCall.GetLabels CrashInfo.LabelName ::
        (SyncModules_Paths Contains env self.DepotName CrashInfo.ModuleNames
          (Label0 :: rest)).map
          (fun Path => FSyncModulesCall.Sync 0 Path (Label0.Sync Path))).filter
          FSyncModulesCall.IsSync =
        (SyncModules_Paths Contains env self.DepotName CrashInfo.ModuleNames
          (Label0 :: rest)).map
          (fun Path => FSyncModulesCall.Sync 0 Path (Label0.Sync Path)) := by
      rw [List.filter_cons_of_neg (by simp [FSyncModulesCall.IsSync]), filter_IsSync_map]
    refine ⟨hf, ?_, ?_, hlen, fun h => absurd h (by simp)⟩
    · rw [hf, List.length_map, hlen]
    · intro i Path b hmem
      rcases List.mem_cons.1 hmem with h | h
      · exact absurd h (by simp)
      · exact hall i Path b h
  | true =>
    have hfind : MapFind self.PDBCache.PDBCacheEntries (CleanLabelName CrashInfo.LabelName) =
        none := by
      rcases hmiss with h | h
      · rw [huse] at h
        exact absurd h (by decide)
      · exact h
    have hcalls : (SyncModules CleanLabelName Contains env self scm fs CrashInfo).Calls =
        [FSyncModulesCall.GetLabels CrashInfo.LabelName,
         FSyncModulesCall.ContainsPDBCacheEntry CrashInfo.LabelName] ++
        (SyncModules_Paths Contains env self.DepotName CrashInfo.ModuleNames
          (Label0 :: rest)).map (fun Path => FSyncModulesCall.Sync 0 Path (Label0.Sync Path)) ++
        [FSyncModulesCall.CreateAndAddPDBCacheEntry CrashInfo.LabelName self.DepotName
          (SyncModules_Paths Contains env self.DepotName CrashInfo.ModuleNames
            (Label0 :: rest))] := by
      rw [SyncModules_of_miss_enabled CleanLabelName Contains env self scm fs CrashInfo Label0
        rest hL hen hlabels huse hfind]
      cases CreateAndAddPDBCacheEntry CleanLabelName env self.PDBCache fs CrashInfo.LabelName
          self.DepotName
          (SyncModules_Paths Contains env self.DepotName CrashInfo.ModuleNames
            (Label0 :: rest)) with
      | none => rfl
      | some Created => rfl
    rw [hcalls]
    have hf : ([FSyncModulesCall.GetLabels CrashInfo.LabelName,
         FSyncModulesCall.ContainsPDBCacheEntry CrashInfo.LabelName] ++
        (SyncModules_Paths Contains env self.DepotName CrashInfo.ModuleNames
          (Label0 :: rest)).map (fun Path => FSyncModulesCall.Sync 0 Path (Label0.Sync Path)) ++
        [FSyncModulesCall.CreateAndAddPDBCacheEntry CrashInfo.LabelName self.DepotName
          (SyncModules_Paths Contains env self.DepotName CrashInfo.ModuleNames
            (Label0 :: rest))]).filter FSyncModulesCall.IsSync =
        (SyncModules_Paths Contains env self.DepotName CrashInfo.ModuleNames
          (Label0 :: rest)).map
          (fun Path => FSyncModulesCall.Sync 0 Path (Label0.Sync Path)) := by
      rw [List.filter_append, List.filter_append, filter_IsSync_map]
      simp [FSyncModulesCall.IsSync]
    refine ⟨hf, ?_, ?_, hlen, fun _ => ?_⟩
    · rw [hf, List.length_map, hlen]
    · intro i Path b hmem
      simp only [List.mem_append, List.mem_cons, List.mem_singleton, List.not_mem_nil,
        or_false, reduceCtorEq, false_or] at hmem
      exact hall i Path b hmem
    · simp

/-- Witness of C27 at `MacFirstModule`: the first label is a Mac label on which
every `Sync` fails, the second label is not. -/
theorem SyncModules_syncs_on_first_label_witness :
    (SyncModules (fun s => s) SampleContains SampleServices SampleHelper MacFirstModule
          RecentDisk SampleCrash).Calls.filter FSyncModulesCall.IsSync =
        (SyncModules_Paths SampleContains SampleServices SampleHelper.DepotName
          SampleCrash.ModuleNames [MacLabel, SampleLabel]).map
          (fun Path => FSyncModulesCall.Sync 0 Path (MacLabel.Sync Path)) ∧
      ((SyncModules (fun s => s) SampleContains SampleServices SampleHelper MacFirstModule
          RecentDisk SampleCrash).Calls.filter FSyncModulesCall.IsSync).length =
        6 * SampleCrash.ModuleNames.length *
          ([MacLabel, SampleLabel].filter
            (fun Label => !SampleContains Label.Name "Mac")).length ∧
      (∀ (i : Nat) (Path : String) (b : Bool),
        FSyncModulesCall.Sync i Path b ∈
          (SyncModules (fun s => s) SampleContains SampleServices SampleHelper MacFirstModule
            RecentDisk SampleCrash).Calls →
        i = 0 ∧ b = MacLabel.Sync Path) ∧
      (SyncModules_Paths SampleContains SampleServices SampleHelper.DepotName
          SampleCrash.ModuleNames [MacLabel, SampleLabel]).length =
        6 * SampleCrash.ModuleNames.length *
          ([MacLabel, SampleLabel].filter
            (fun Label => !SampleContains Label.Name "Mac")).length ∧
      (SampleHelper.PDBCache.bUsePDBCache = true →
        FSyncModulesCall.CreateAndAddPDBCacheEntry SampleCrash.LabelName SampleHelper.DepotName
            (SyncModules_Paths SampleContains SampleServices SampleHelper.DepotName
              SampleCrash.ModuleNames [MacLabel, SampleLabel]) ∈
          (SyncModules (fun s => s) SampleContains SampleServices SampleHelper MacFirstModule
            RecentDisk SampleCrash).Calls) :=
  SyncModules_syncs_on_first_label (fun s => s) SampleContains SampleServices SampleHelper
    MacFirstModule RecentDisk SampleCrash MacLabel [SampleLabel] (by decide) rfl rfl
    (Or.inr (by decide))

/-! ## The claims on the engine version, the disable branch of `Init`, the
removal loop and the source context -/

/-- C26 fails on the code: with a changelist number below zero
`RetrieveBuildLabel` returns the empty string without a call to the source
control system, whatever the engine version, the label pattern and the labels
known to the provider are; so it does for engine version 2082666 and
changelist number -1 with a provider that answers every name. -/
theorem RetrieveBuildLabel_ignores_engine_version :
    RetrieveBuildLabel SampleHelper SampleProvider 2082666 (-1) = ("", []) ∧
      ∀ (self : ICrashDebugHelper) (scm : FSourceControlProvider) (InEngineVersion : Int)
        (n : Nat), RetrieveBuildLabel self scm InEngineVersion (Int.negSucc n) = ("", []) := by
  have hall : ∀ (self : ICrashDebugHelper) (scm : FSourceControlProvider)
      (InEngineVersion : Int) (n : Nat),
      RetrieveBuildLabel self scm InEngineVersion (Int.negSucc n) = ("", []) := by
    intro self scm V n
    have hneg : ¬ (Int.negSucc n ≥ 0) := by
      have := Int.negSucc_lt_zero n
      omega
    unfold RetrieveBuildLabel
    simp only
    split_ifs with h1 h2
    · rfl
    · exact absurd h2.2.1 hneg
    · rfl
  exact ⟨hall SampleHelper SampleProvider 2082666 0, hall⟩

/-- C28 fails on the code: on `FullDisk` with `DefaultConfig`, `Init` reaches
the free space check with no free gigabyte and a cache of 2 GB, which is below
the minimum of 64 GB, disables the cache and calls `CleanPDBCache( 0 )`; the
entry whose marker file is ahead of the clock and the entry without marker
file are not older than 0 days, so both stay in the entry map and on the
disk. -/
theorem Init_disable_branch_keeps_entries :
    (Init_AfterAgeCleanup FreshCache DefaultConfig FullDisk).map
        (fun r => (DiskFreeSpaceGB r.2, GetPDBCacheSizeGB r.1, r.1.MinDiskFreeSpaceGB)) =
        some (0, 2, 64) ∧
      (Init FreshCache DefaultConfig FullDisk).map
        (fun r => (r.1.bUsePDBCache, Keys r.1, r.2.FindDirectories)) =
        some (false, ["Unmarked", "Ahead"], ["Ahead", "Unmarked"]) := by
  decide

theorem RemoveCalls_spec (ls : List String) (c : FPDBCache) (fs : FFileSystem)
    (hkeys : ∀ x ∈ ls, x ∈ c.PDBCacheEntries.map Prod.fst) (hnd : ls.Nodup) :
    (CleanPDBCache_RemoveCalls ls (c, fs)).map Prod.fst = ls ∧
      ∀ call ∈ CleanPDBCache_RemoveCalls ls (c, fs), call.1 ∈ call.2 := by
  induction ls generalizing c fs with
  | nil => simp [CleanPDBCache_RemoveCalls]
  | cons x ls ih =>
    obtain ⟨e, he⟩ := MapFind_isSome_of_mem_keys c.PDBCacheEntries x
      (hkeys x (List.mem_cons_self _ _))
    have hx : x ∉ ls := (List.nodup_cons.1 hnd).1
    have hrest : ∀ y ∈ ls, y ∈ (MapRemove c.PDBCacheEntries x).map Prod.fst := by
      intro y hy
      have hyx : y ≠ x := fun h => hx (h ▸ hy)
      rcases List.mem_map.1 (hkeys y (List.mem_cons_of_mem _ hy)) with ⟨q, hq, rfl⟩
      refine List.mem_map.2 ⟨q, ?_, rfl⟩
      simp only [MapRemove, List.mem_filter]
      exact ⟨hq, by simpa using hyx⟩
    obtain ⟨ih1, ih2⟩ := ih { c with PDBCacheEntries := MapRemove c.PDBCacheEntries x }
      (fs.DeleteDirectory x) hrest (List.nodup_cons.1 hnd).2
    simp only [CleanPDBCache_RemoveCalls, RemovePDBCacheEntry, he, List.map_cons,
      List.mem_cons]
    refine ⟨by rw [ih1], ?_⟩
    rintro call (rfl | hcall)
    · exact hkeys x (List.mem_cons_self _ _)
    · exact ih2 call hcall

/-- C29: in a cache state where every key is the `Label` of its entry,
`CleanPDBCache` returns. Every label it passes to `RemovePDBCacheEntry` is a
key of the entry map at the moment of the call; the labels passed are the
marked labels, each once; and the keys of the resulting map are the original
keys without the marked labels. -/
theorem CleanPDBCache_never_fatal (c : FPDBCache) (fs : FFileSystem) (D T : Int)
    (hlab : ∀ p ∈ c.PDBCacheEntries, p.1 = p.2.Label) :
    ∃ c2 fs2, CleanPDBCache c fs D T = some (c2, fs2) ∧
      (∀ call ∈ CleanPDBCache_RemoveCalls (CleanPDBCache_Marked c fs D T).1 (c, fs),
        call.1 ∈ call.2) ∧
      (CleanPDBCache_RemoveCalls (CleanPDBCache_Marked c fs D T).1 (c, fs)).map Prod.fst =
        (CleanPDBCache_Marked c fs D T).1 ∧
      (CleanPDBCache_Marked c fs D T).1.Nodup ∧
      Keys c2 = (Keys c).filter (fun k => !decide (k ∈ (CleanPDBCache_Marked c fs D T).1)) := by
  have hkeys : ∀ x ∈ (CleanPDBCache_Marked c fs D T).1, x ∈ c.PDBCacheEntries.map Prod.fst := by
    intro x hx
    obtain ⟨q, hq, hl⟩ := Marked_is_label c fs D T x hx
    exact List.mem_map.2 ⟨q, hq, (hlab q hq).trans hl⟩
  have hnd := Marked_nodup c fs D T
  obtain ⟨h1, h2⟩ := RemoveCalls_spec (CleanPDBCache_Marked c fs D T).1 c fs hkeys hnd
  refine ⟨_, _, RemoveMarked_eq (CleanPDBCache_Marked c fs D T).1 c fs hkeys hnd, h2, h1, hnd,
    ?_⟩
  unfold Keys
  simp only
  rw [List.filter_map]
  rfl

/-- Witness of C29: `CleanPDBCache( 14 )` on `ScenarioCache`, which removes the
entry `A`. -/
theorem CleanPDBCache_never_fatal_witness :
    ∃ c2 fs2, CleanPDBCache ScenarioCache ScenarioDisk 14 0 = some (c2, fs2) ∧
      (∀ call ∈ CleanPDBCache_RemoveCalls (CleanPDBCache_Marked ScenarioCache ScenarioDisk 14 0).1
          (ScenarioCache, ScenarioDisk),
        call.1 ∈ call.2) ∧
      (CleanPDBCache_RemoveCalls (CleanPDBCache_Marked ScenarioCache ScenarioDisk 14 0).1
          (ScenarioCache, ScenarioDisk)).map Prod.fst =
        (CleanPDBCache_Marked ScenarioCache ScenarioDisk 14 0).1 ∧
      (CleanPDBCache_Marked ScenarioCache ScenarioDisk 14 0).1.Nodup ∧
      Keys c2 = (Keys ScenarioCache).filter
        (fun k => !decide (k ∈ (CleanPDBCache_Marked ScenarioCache ScenarioDisk 14 0).1)) :=
  CleanPDBCache_never_fatal ScenarioCache ScenarioDisk 14 0 (by decide)

/-- For a crash line from 1 to 14 of a file that has the line,
`AddSourceToReport` adds nothing: `SourceLineNumber - 15` wraps around in
`uint64`, `Clamp` gives `Lines.Num()` as `MinLine`, and the loop is empty. -/
theorem AddSourceToReport_of_early_line (env : FEngineServices)
    (LoadFileToString : String → Option String)
    (ParseIntoArray : String → String → List String) (CrashInfo : FCrashInfo)
    (hfile : 0 < CrashInfo.SourceFile.length) (h1 : 1 ≤ CrashInfo.SourceLineNumber)
    (h14 : CrashInfo.SourceLineNumber ≤ 14)
    (hN : CrashInfo.SourceLineNumber ≤
      (ReadSourceFile env LoadFileToString ParseIntoArray
        ("../../../" ++ CrashInfo.SourceFile) []).2.length)
    (hint : (ReadSourceFile env LoadFileToString ParseIntoArray
        ("../../../" ++ CrashInfo.SourceFile) []).2.length < 2147483648) :
    AddSourceToReport env LoadFileToString ParseIntoArray CrashInfo = some CrashInfo := by
  unfold AddSourceToReport
  have hcond : CrashInfo.SourceFile.length > 0 ∧ CrashInfo.SourceLineNumber ≠ 0 :=
    ⟨hfile, by omega⟩
  simp only [if_pos hcond]
  generalize (ReadSourceFile env LoadFileToString ParseIntoArray
    ("../../../" ++ CrashInfo.SourceFile) []).2 = Lines at hN hint ⊢
  have hmin : Clamp (toUInt64 ((CrashInfo.SourceLineNumber : Int) - 15)) 1 Lines.length =
      Lines.length := by
    have hw : toUInt64 ((CrashInfo.SourceLineNumber : Int) - 15) =
        18446744073709551616 + CrashInfo.SourceLineNumber - 15 := by
      unfold toUInt64
      omega
    unfold Clamp
    rw [hw, if_neg (by omega), if_neg (by omega)]
  have hmax : Clamp (toUInt64 ((CrashInfo.SourceLineNumber : Int) + 15)) 1 Lines.length ≤
      Lines.length := by
    unfold Clamp
    split_ifs <;> omega
  rw [hmin, Nat.sub_eq_zero_of_le hmax]
  rfl


/-- C30 fails on the code: in the source file of twenty lines
`AddSourceToReport` adds no line at all for every crash line from 1 to 14, so
no line carries the `*****` prefix; for the crash line 16 it adds nineteen
lines, with `*****` on line 16. -/
theorem AddSourceToReport_skips_early_crash_line :
    SampleSourceLines.length = 20 ∧
      (∀ L ∈ List.range' 1 14,
        AddSourceToReport SampleServices SampleLoadFileToString SampleParseIntoArray
            { SampleCrash with SourceLineNumber := L } =
          some { SampleCrash with SourceLineNumber := L, SourceContext := [] }) ∧
      (AddSourceToReport SampleServices SampleLoadFileToString SampleParseIntoArray
          { SampleCrash with SourceLineNumber := 16 }).map
          (fun r => (r.SourceContext.length, r.SourceContext[14]?)) =
        some (19, some "*****line 16") := by
  decide

end CrashDebugHelper
